import Mathlib

/-! 3dfier `Building` (src/Building.cpp): elevation estimation and wall stitching

A shallow embedding of `Building.cpp`.

Conventions of the embedding

* `std::vector<int>` is `List Int`; `push_back` is append at the end.
* A finite C++ `float`/`double` value is the rational number it stands for (`ℚ`).
  The two floating-point products that end in an integer, `size() * percentile` (a
  `float` product, the size converted to `float` first) and `z * 100` (a `double`
  product), are rounded to nearest, ties to even, in their format (`to_float`,
  `to_double`). The conversion of a floating value to an integer type is truncation
  toward zero, undefined outside the range of the type. Coordinates and the quotient
  `z / 100.0` are kept exact; NaN and the infinities are left out.
* An access outside a vector (undefined behaviour in C++) is an explicit outcome:
  `none` for the height queries, `Run.undefined` for the wall builder.
* An `int` is an integer; the 32-bit wrap is explicit in `get_RMSE`, whose products
  and sum can overflow, and `int(z * 100)` outside the range of an `int` is undefined
  (`none`). Container sizes are taken to fit an `int`.
* Static class members (`_heightref_top`, `_heightref_base`, the flags and the two
  LAS class filters) are gathered in `Config` and passed explicitly.
* Collaborators whose code is not in `Building.cpp` (`within_range`, `has_segment`,
  `get_vertex_elevation`, `gen_key_bucket`, the stream formatting of a `double`)
  are parameters or record fields.
* In `get_obj` the map `dPts` is a finite map from keys to indices and the string `fs`
  is the sequence of the pieces appended to it.
-/

set_option autoImplicit false

/-- A 2D point (`Point2`), coordinates at their exact value. -/
structure Point2 where
  x : ℚ
  y : ℚ
deriving DecidableEq

/-- A 3D point (`Point3`). -/
structure Point3 where
  x : ℚ
  y : ℚ
  z : ℚ
deriving DecidableEq

/-- A footprint polygon (`Polygon2`): the outer ring and the inner rings. -/
structure Polygon2 where
  outer : List Point2
  inners : List (List Point2)

/-- A triangle of the mesh buffers: three `int` indices into a vertex buffer. -/
structure Triangle where
  v0 : Int
  v1 : Int
  v2 : Int
deriving DecidableEq

/-- Modelled from the spec: the `TopoClass` enumeration is declared outside
`Building.cpp`; the spec names buildings, terrain, water and roads as feature kinds.
Only the test `get_class() != BUILDING` is used by the code. -/
inductive TopoClass where
  | BUILDING
  | TERRAIN
  | WATER
  | ROAD
  | OTHER
deriving DecidableEq

/-- An adjacent feature (`TopoFeature*` in `_adjFeatures`), seen through the methods
that `construct_building_walls` calls on it. `has_segment p q` answers with the
four output indices `(aringi, api, bringi, bpi)` when the feature has the segment. -/
structure AdjFeature where
  get_class : TopoClass
  get_height_base : Int
  get_vertex_elevation : Int → Int → Int
  has_segment : Point2 → Point2 → Option (Int × Int × Int × Int)

/-- The free functions `Building.cpp` calls and does not define. `within_range` is
the containment test, `gen_key_bucket`/`gen_key_bucket3` build the key of a 2D and
of a 3D point, `gen_key_bucket_z` the key of a point at an explicit height, and
`show_double` is the text `operator<<` writes for a `double`. -/
structure Collaborators where
  within_range : Point2 → Polygon2 → ℚ → Bool
  gen_key_bucket : Point2 → String
  gen_key_bucket3 : Point3 → String
  gen_key_bucket_z : Point3 → ℚ → String
  show_double : ℚ → String

/-- The node column registry: `nc.find(key)` gives the column stored under a key. -/
abbrev NodeColumn := String → Option (List Int)

/-- The static members of `Building`. -/
structure Config where
  heightref_top : ℚ
  heightref_base : ℚ
  building_triangulate : Bool
  building_include_floor : Bool
  building_inner_walls : Bool
  las_classes_roof : List Int
  las_classes_ground : List Int

/-- The state of one `Building` object. `p2` is the footprint `_p2`,
`vertex_elevation` is `get_vertex_elevation` of the feature itself, `height` is the
roof height kept by the `Flat` base class, `vertices`/`triangles` are the roof and
floor buffers and `vertices_vw`/`triangles_vw` the wall buffers. -/
structure Building where
  id : String
  p2 : Polygon2
  adjFeatures : List AdjFeature
  vertex_elevation : Int → Int → Int
  zvaluesground : List Int
  zvaluesinside : List Int
  distancesinside : List Int
  height_base : Int
  height : Int
  vertices : List (Point3 × String)
  triangles : List Triangle
  vertices_vw : List (Point3 × String)
  triangles_vw : List Triangle

/-- Conversion of a floating value to an integer type: truncation toward zero. -/
def float_to_int (x : ℚ) : Int :=
  if 0 ≤ x then ⌊x⌋ else ⌈x⌉

/-- Rounding to the nearest integer, a tie going to the even one. -/
def round_half_even (x : ℚ) : Int :=
  if x - ⌊x⌋ < 1 / 2 then ⌊x⌋
  else if 1 / 2 < x - ⌊x⌋ then ⌊x⌋ + 1
  else if ⌊x⌋ % 2 = 0 then ⌊x⌋ else ⌊x⌋ + 1

/-- Exponent of the unit in the last place at `x` in a binary floating-point format
with `prec` significand bits whose least (subnormal) unit is `2 ^ qmin`. -/
def float_quantum (prec : Nat) (qmin : Int) (x : ℚ) : Int :=
  max (Int.log 2 |x| + 1 - prec) qmin

/-- IEEE 754 rounding of an exact value to the format, to nearest, ties to even. A
value beyond the largest finite number of the format is kept as a finite number; it
is only ever converted to an integer type, which is undefined for it as for an
infinity. -/
def round_float (prec : Nat) (qmin : Int) (x : ℚ) : ℚ :=
  (round_half_even (x / 2 ^ float_quantum prec qmin x) : ℚ) * 2 ^ float_quantum prec qmin x

/-- Rounding to a `float` (binary32: 24 significand bits, least unit `2 ^ -149`). -/
def to_float (x : ℚ) : ℚ :=
  round_float 24 (-149) x

/-- Rounding to a `double` (binary64: 53 significand bits, least unit `2 ^ -1074`). -/
def to_double (x : ℚ) : ℚ :=
  round_float 53 (-1074) x

/-- The conversion `int(x)` of a `double`: truncation toward zero, undefined (`none`)
when the truncated value is outside the range of a 32-bit `int`. -/
def double_to_int (x : ℚ) : Option Int :=
  if -(2 : Int) ^ 31 ≤ float_to_int x ∧ float_to_int x < 2 ^ 31 then some (float_to_int x)
  else none

/-- The value `size() * percentile` converted to an integer offset: the size is
converted to `float`, the product is a `float` product, the result is truncated. -/
def percentile_index (size : Nat) (percentile : ℚ) : Int :=
  float_to_int (to_float (to_float (size : ℚ) * percentile))

/-- The contract of `std::nth_element(begin, begin + nth, end)`: `nth` must lie in
`[0, size]`; for `nth = size` nothing happens; otherwise the vector is rearranged so
that position `nth` holds the element a full sort would put there, with nothing
greater before it and nothing smaller after it. The sorted arrangement is taken as
the result. An offset outside `[0, size]` is undefined (`none`). -/
def nth_element (v : List Int) (nth : Int) : Option (List Int) :=
  if 0 ≤ nth ∧ nth ≤ (v.length : Int) then
    some (if nth < (v.length : Int) then v.insertionSort (· ≤ ·) else v)
  else none

/-- Element access `v[i]`, the index coming from a floating value: outside
`0 .. size-1` the access is out of bounds (`none`). -/
def vec_at (v : List Int) (i : Int) : Option Int :=
  if 0 ≤ i then v[i.toNat]? else none

/-- The two statements shared by the percentile queries and by `lift`:
`std::nth_element(v.begin(), v.begin() + (v.size() * percentile), v.end());`
followed by the read `v[v.size() * percentile]`. Gives the value read and the
rearranged vector. -/
def select_percentile (v : List Int) (percentile : ℚ) : Option (Int × List Int) :=
  match nth_element v (percentile_index v.length percentile) with
  | none => none
  | some w =>
    match vec_at w (percentile_index w.length percentile) with
    | none => none
    | some z => some (z, w)

namespace Building

/-- `Building::get_height_ground_at_percentile`. -/
def get_height_ground_at_percentile (b : Building) (percentile : ℚ) :
    Option (Int × Building) :=
  if b.zvaluesground.isEmpty = false then
    match select_percentile b.zvaluesground percentile with
    | none => none
    | some (z, w) => some (z, { b with zvaluesground := w })
  else
    some (-9999, b)

/-- `Building::get_height_roof_at_percentile`. -/
def get_height_roof_at_percentile (b : Building) (percentile : ℚ) :
    Option (Int × Building) :=
  if b.zvaluesinside.isEmpty = false then
    match select_percentile b.zvaluesinside percentile with
    | none => none
    | some (z, w) => some (z, { b with zvaluesinside := w })
  else
    some (-9999, b)

end Building

/-- Two's-complement wrap of an `int` result to 32 bits. -/
def wrap32 (x : Int) : Int :=
  (x + 2 ^ 31) % 2 ^ 32 - 2 ^ 31

/-- The conversion `int(sqrt(double(x)))`: for `0 ≤ x` the integer part of the
square root (the `double` square root of a 32-bit value is exact enough that its
truncation is the integer square root); for a negative argument the root is NaN and
the conversion undefined (`none`). -/
def sqrt_to_int (x : Int) : Option Int :=
  if 0 ≤ x then some ((Nat.sqrt x.toNat : Nat) : Int) else none

/-- Modelled from the spec: `z_to_float` is declared outside `Building.cpp`; the
spec gives the export value as the centimetre value divided by 100. -/
def z_to_float (z : Int) : ℚ :=
  (z : ℚ) / 100

/-- Outcome of a run of the wall builder over a state: it ran to the end (`done`),
or it dereferenced an iterator equal to `end()` (`undefined`); the state carried by
`undefined` is the one reached just before that read. -/
inductive Run (σ : Type) where
  | done (s : σ)
  | undefined (s : σ)

/-- The state carried by an outcome. -/
def Run.state {σ : Type} : Run σ → σ
  | .done s => s
  | .undefined s => s

/-- Whether the run ended without an undefined read. -/
def Run.isDone {σ : Type} : Run σ → Bool
  | .done _ => true
  | .undefined _ => false

/-- Outcome of the body of the edge loop: go on with the next edge, `break` out of
the loop over the edges of the ring, or an undefined read. -/
inductive EdgeStep where
  | next (s : Building)
  | brk (s : Building)
  | undefined (s : Building)

namespace Building

/-- `Building::get_RMSE`. The products and the running sum are `int` operations. -/
def get_RMSE (b : Building) : Option Int :=
  if b.distancesinside.isEmpty = false then
    let squared := b.distancesinside.map (fun d => wrap32 (d * d))
    let sum := squared.foldl (fun acc s => wrap32 (acc + s)) 0
    let n : Int := b.distancesinside.length
    sqrt_to_int (Int.tdiv sum n)
  else
    some (-9999)

/-- Modelled from the spec: `Flat::lift_percentile` is defined outside
`Building.cpp`. The spec gives the roof height as the `percentile` order statistic
of the roof/inside samples, by the same order-statistic computation as the percentile
queries (selection at index `floor(n × percentile)`, the product being the `float`
product of `select_percentile`), and `-9999` when that set is empty. -/
def lift_percentile (b : Building) (percentile : ℚ) : Option (Bool × Building) :=
  if b.zvaluesinside.isEmpty = false then
    match select_percentile b.zvaluesinside percentile with
    | none => none
    | some (z, w) => some (true, { b with zvaluesinside := w, height := z })
  else
    some (true, { b with height := -9999 })

/-- The first part of `Building::lift` ("for the ground"): the base height. -/
def lift_base (cfg : Config) (b : Building) : Option Building :=
  if b.zvaluesground.isEmpty = false then
    match select_percentile b.zvaluesground cfg.heightref_base with
    | none => none
    | some (z, w) => some { b with zvaluesground := w, height_base := z }
  else if b.zvaluesinside.isEmpty = false then
    match select_percentile b.zvaluesinside cfg.heightref_base with
    | none => none
    | some (z, w) => some { b with zvaluesinside := w, height_base := z }
  else
    some { b with height_base := -9999 }

/-- `Building::lift`. -/
def lift (cfg : Config) (b : Building) : Option (Bool × Building) :=
  match lift_base cfg b with
  | none => none
  | some b1 =>
    match lift_percentile b1 cfg.heightref_top with
    | none => none
    | some (_, b2) => some (true, b2)

/-- `Building::add_elevation_point`. In `int zcm = int(z * 100)` the product is a
`double` product; the conversion to `int` is undefined (`none`) outside the range of
an `int`. -/
def add_elevation_point (env : Collaborators) (cfg : Config) (b : Building)
    (p : Point2) (z : ℚ) (radius : ℚ) (lasclass : Int) : Option (Bool × Building) :=
  if env.within_range p b.p2 radius then
    match double_to_int (to_double (z * 100)) with
    | none => none
    | some zcm =>
      let b1 :=
        if cfg.las_classes_roof.isEmpty = true ∨ cfg.las_classes_roof.count lasclass > 0 then
          { b with zvaluesinside := b.zvaluesinside ++ [zcm] }
        else b
      let b2 :=
        if cfg.las_classes_ground.isEmpty = true ∨ cfg.las_classes_ground.count lasclass > 0 then
          { b1 with zvaluesground := b1.zvaluesground ++ [zcm] }
        else b1
      some (true, b2)
  else
    some (true, b)

/-- The local vector `allz` of `get_all_z_values` after `std::sort`. -/
def allz (b : Building) : List Int :=
  (b.zvaluesground ++ b.zvaluesinside).insertionSort (· ≤ ·)

/-- `Building::get_all_z_values`: the text written to the string stream, and the
object (the function works on a local copy). -/
def get_all_z_values (env : Collaborators) (b : Building) : String × Building :=
  ((allz b).foldl
    (fun (ss : String) (z : Int) => ss ++ env.show_double ((z : ℚ) / 100) ++ "|") "", b)

/-- The body of the first `while` loop once its three reads succeeded: three
vertices are pushed (`a` at `za`, `b` at `zb`, `b` at `zb1`) and the triangle
`(size - 2, size - 3, size - 1)`. -/
def push_b_step (env : Collaborators) (a b : Point2) (za zb zb1 : Int)
    (s : Building) : Building :=
  let p0 : Point3 := ⟨a.x, a.y, z_to_float za⟩
  let p1 : Point3 := ⟨b.x, b.y, z_to_float zb⟩
  let p2 : Point3 := ⟨b.x, b.y, z_to_float zb1⟩
  let vs := ((s.vertices_vw ++ [(p0, env.gen_key_bucket3 p0)])
    ++ [(p1, env.gen_key_bucket3 p1)]) ++ [(p2, env.gen_key_bucket3 p2)]
  let size : Int := vs.length
  { s with vertices_vw := vs,
           triangles_vw := s.triangles_vw ++ [⟨size - 2, size - 3, size - 1⟩] }

/-- The body of the second `while` loop once its three reads succeeded: three
vertices are pushed (`b` at `zb`, `a` at `za`, `a` at `za1`) and the triangle
`(size - 3, size - 2, size - 1)`. -/
def push_a_step (env : Collaborators) (a b : Point2) (zb za za1 : Int)
    (s : Building) : Building :=
  let p0 : Point3 := ⟨b.x, b.y, z_to_float zb⟩
  let p1 : Point3 := ⟨a.x, a.y, z_to_float za⟩
  let p2 : Point3 := ⟨a.x, a.y, z_to_float za1⟩
  let vs := ((s.vertices_vw ++ [(p0, env.gen_key_bucket3 p0)])
    ++ [(p1, env.gen_key_bucket3 p1)]) ++ [(p2, env.gen_key_bucket3 p2)]
  let size : Int := vs.length
  { s with vertices_vw := vs,
           triangles_vw := s.triangles_vw ++ [⟨size - 3, size - 2, size - 1⟩] }

/-- The first `while` loop,
`while (sbit != ebit && sbit != bnc.end() && sbit + 1 != bnc.end())`.
The iterator `sbit` is its position together with the part of `bnc` from that
position on: two elements ahead mean `sbit != end` and `sbit + 1 != end`. The body
reads `*sait` first, which is undefined when `sait` is `anc.end()`. -/
def walk_b (env : Collaborators) (a b : Point2) (anc : List Int) (sait ebit : Nat) :
    List Int → Nat → Building → Run Building
  | zb :: zb1 :: rest, sbit, s =>
    if sbit ≠ ebit then
      match anc[sait]? with
      | none => .undefined s
      | some za =>
        walk_b env a b anc sait ebit (zb1 :: rest) (sbit + 1) (push_b_step env a b za zb zb1 s)
    else .done s
  | _, _, s => .done s

/-- The second `while` loop,
`while (sait != eait && sait != anc.end() && sait + 1 != anc.end())`.
The body reads `*ebit` first, which is undefined when `ebit` is `bnc.end()`. -/
def walk_a (env : Collaborators) (a b : Point2) (bnc : List Int) (eait ebit : Nat) :
    List Int → Nat → Building → Run Building
  | za :: za1 :: rest, sait, s =>
    if sait ≠ eait then
      match bnc[ebit]? with
      | none => .undefined s
      | some zb =>
        walk_a env a b bnc eait ebit (za1 :: rest) (sait + 1) (push_a_step env a b zb za za1 s)
    else .done s
  | _, _, s => .done s

/-- The body of the loop over the intervals for four given heights: the four
`std::find` calls (position of the first occurrence, `end()` when absent) and the
two `while` loops. -/
def walk_interval (env : Collaborators) (a b : Point2) (anc bnc : List Int)
    (awall_i bwall_i awallend_i bwallend_i : Int) (s : Building) : Run Building :=
  let sait := anc.indexOf awall_i
  let sbit := bnc.indexOf bwall_i
  let eait := anc.indexOf awallend_i
  let ebit := bnc.indexOf bwallend_i
  match walk_b env a b anc sait ebit (bnc.drop sbit) sbit s with
  | .undefined s1 => .undefined s1
  | .done s1 => walk_a env a b bnc eait ebit (anc.drop sait) sait s1

/-- One pass of `for (int i = 0; i < awall.size(); i++)`: the reads `awall[i]`,
`bwall[i]`, `awallend[i]`, `bwallend[i]` and the walk. -/
def interval_step (env : Collaborators) (a b : Point2) (anc bnc : List Int)
    (awall bwall awallend bwallend : List Int) (r : Run Building) (i : Nat) :
    Run Building :=
  match r with
  | .undefined s => .undefined s
  | .done s =>
    match awall[i]?, bwall[i]?, awallend[i]?, bwallend[i]? with
    | some sa, some sb, some ea, some eb => walk_interval env a b anc bnc sa sb ea eb s
    | _, _, _, _ => .undefined s

/-- The loop over the intervals, `i = 0 .. awall.size() - 1`. -/
def walk_intervals (env : Collaborators) (a b : Point2) (anc bnc : List Int)
    (awall bwall awallend bwallend : List Int) (s : Building) : Run Building :=
  (List.range awall.length).foldl
    (interval_step env a b anc bnc awall bwall awallend bwallend) (.done s)

/-- The search of the adjacent feature of segment `ab`: the first feature of
`_adjFeatures` whose `has_segment(b, a, adj_b_ringi, adj_b_pi, adj_a_ringi, adj_a_pi)`
succeeds, with the indices `(adj_a_ringi, adj_a_pi, adj_b_ringi, adj_b_pi)`. -/
def find_adjacent (adjFeatures : List AdjFeature) (a b : Point2) :
    Option (AdjFeature × Int × Int × Int × Int) :=
  adjFeatures.findSome? (fun adj =>
    match adj.has_segment b a with
    | some (adj_b_ringi, adj_b_pi, adj_a_ringi, adj_a_pi) =>
      some (adj, adj_a_ringi, adj_a_pi, adj_b_ringi, adj_b_pi)
    | none => none)

/-- The four vectors `(awall, bwall, awallend, bwallend)` built for one edge from
the roof height at the vertex, the base height and the adjacent feature. -/
def wall_intervals (cfg : Config) (roofheight baseheight : Int)
    (fadj : Option (AdjFeature × Int × Int × Int × Int)) :
    List Int × List Int × List Int × List Int :=
  match fadj with
  | none => ([baseheight], [baseheight], [roofheight], [roofheight])
  | some (adj, adj_a_ringi, adj_a_pi, adj_b_ringi, adj_b_pi) =>
    if adj.get_class ≠ TopoClass.BUILDING then
      if cfg.building_include_floor then
        ([baseheight], [baseheight], [roofheight], [roofheight])
      else
        ([adj.get_vertex_elevation adj_a_ringi adj_a_pi],
         [adj.get_vertex_elevation adj_b_ringi adj_b_pi], [roofheight], [roofheight])
    else
      let adjbaseheight := adj.get_height_base
      let adjroofheight := adj.get_vertex_elevation adj_a_ringi adj_a_pi
      let floor := cfg.building_include_floor && decide (baseheight < adjbaseheight)
      let awall0 : List Int := if floor then [baseheight] else []
      let awallend0 : List Int := if floor then [adjbaseheight] else []
      let base := if floor then adjbaseheight else baseheight
      let awall1 := if cfg.building_inner_walls then awall0 ++ [base] else awall0
      let awallend1 :=
        if cfg.building_inner_walls then
          (if roofheight > adjroofheight then awallend0 ++ [adjroofheight]
           else awallend0 ++ [roofheight])
        else awallend0
      let awall2 := if roofheight > adjroofheight then awall1 ++ [adjroofheight] else awall1
      let awallend2 := if roofheight > adjroofheight then awallend1 ++ [roofheight] else awallend1
      (awall2, awall2, awallend2, awallend2)

/-- The body of `for (int ai = 0; ai < ring.size(); ai++)` for one `ai`. The message
written to `std::cerr` before the `break` is not part of the state. -/
def edge_step (env : Collaborators) (cfg : Config) (nc : NodeColumn)
    (ring : List Point2) (ringi : Int) (ai : Nat) (s : Building) : EdgeStep :=
  let bi : Nat := if ai = ring.length - 1 then 0 else ai + 1
  match ring[ai]?, ring[bi]? with
  | some a, some b =>
    let fadj := find_adjacent s.adjFeatures a b
    let anc : List Int := (nc (env.gen_key_bucket a)).getD []
    let bnc : List Int := (nc (env.gen_key_bucket b)).getD []
    if anc.isEmpty && bnc.isEmpty then .next s
    else if anc.isEmpty || bnc.isEmpty then .brk s
    else
      let roofheight := s.vertex_elevation ringi ai
      let baseheight := s.height_base
      match wall_intervals cfg roofheight baseheight fadj with
      | (awall, bwall, awallend, bwallend) =>
        match walk_intervals env a b anc bnc awall bwall awallend bwallend s with
        | .done s1 => .next s1
        | .undefined s1 => .undefined s1
  | _, _ => .undefined s

/-- The loop over the edges of one ring, over the values of `ai` still to do;
`break` ends the loop for this ring only. -/
def walls_ring (env : Collaborators) (cfg : Config) (nc : NodeColumn)
    (ring : List Point2) (ringi : Int) : List Nat → Building → Run Building
  | [], s => .done s
  | ai :: rest, s =>
    match edge_step env cfg nc ring ringi ai s with
    | .next s1 => walls_ring env cfg nc ring ringi rest s1
    | .brk s1 => .done s1
    | .undefined s1 => .undefined s1

/-- The loop `for (Ring2& ring : therings)`, `ringi` being the index of the first
ring of the list. -/
def walls_rings (env : Collaborators) (cfg : Config) (nc : NodeColumn) :
    List (List Point2) → Int → Building → Run Building
  | [], _, s => .done s
  | ring :: rest, ringi, s =>
    match walls_ring env cfg nc ring ringi (List.range ring.length) s with
    | .done s1 => walls_rings env cfg nc rest (ringi + 1) s1
    | .undefined s1 => .undefined s1

/-- `Building::construct_building_walls`: the outer ring first, then the inner
rings. -/
def construct_building_walls (env : Collaborators) (cfg : Config) (nc : NodeColumn)
    (s : Building) : Run Building :=
  walls_rings env cfg nc (s.p2.outer :: s.p2.inners) 0 s

end Building

/-- A building right after construction, used for concrete runs: no samples, no
distances, empty mesh buffers, no adjacent feature, an empty footprint. -/
def blank_building : Building :=
  { id := "b0", p2 := ⟨[], []⟩, adjFeatures := [], vertex_elevation := fun _ _ => 0,
    zvaluesground := [], zvaluesinside := [], distancesinside := [],
    height_base := 0, height := 0, vertices := [], triangles := [],
    vertices_vw := [], triangles_vw := [] }

/-- A configuration for concrete runs: the 90th percentile for the roof, the 10th
for the base (the `float` values `0.9f` and `0.1f`), floor included, no inner walls,
no LAS class filter. -/
def sample_config : Config :=
  { heightref_top := 7549747 / 8388608, heightref_base := 13421773 / 134217728,
    building_triangulate := true,
    building_include_floor := true, building_inner_walls := false,
    las_classes_roof := [], las_classes_ground := [] }

/-- Ten samples for concrete runs: 10, 20, ..., 100. -/
def ten_samples : List Int :=
  [10, 20, 30, 40, 50, 60, 70, 80, 90, 100]

/-- Collaborators for concrete runs: every point is within range, keys and number
texts are fixed strings. -/
def sample_env : Collaborators :=
  { within_range := fun _ _ _ => true, gen_key_bucket := fun _ => "k",
    gen_key_bucket3 := fun _ => "k3", gen_key_bucket_z := fun _ _ => "kz",
    show_double := fun _ => "z" }

/-- The triangle `t`, emitted as the `j`-th one (from `0`) after a wall vertex buffer
of `n0` vertices, is well formed: its three indices are pairwise distinct and each of
them points at one of the three vertices pushed just before it, positions `n0 + 3j`
to `n0 + 3j + 2`; the vertex buffer holds `n0 + 3j + 3` vertices at that time. -/
def fresh_triangle (n0 j : Nat) (t : Triangle) : Prop :=
  t.v0 ≠ t.v1 ∧ t.v0 ≠ t.v2 ∧ t.v1 ≠ t.v2 ∧
  ((n0 + 3 * j : Nat) : Int) ≤ t.v0 ∧ t.v0 < ((n0 + 3 * j + 3 : Nat) : Int) ∧
  ((n0 + 3 * j : Nat) : Int) ≤ t.v1 ∧ t.v1 < ((n0 + 3 * j + 3 : Nat) : Int) ∧
  ((n0 + 3 * j : Nat) : Int) ≤ t.v2 ∧ t.v2 < ((n0 + 3 * j + 3 : Nat) : Int)

/-- State `s` comes from state `s0` by wall emissions only: the wall buffers of `s0`
are a prefix of those of `s`, three vertices were appended per appended triangle,
every appended triangle is well formed, and no other field differs. -/
def walls_extend (s0 s : Building) : Prop :=
  ∃ (newv : List (Point3 × String)) (newt : List Triangle),
    s = { s0 with vertices_vw := s0.vertices_vw ++ newv,
                  triangles_vw := s0.triangles_vw ++ newt } ∧
    newv.length = 3 * newt.length ∧
    ∀ (j : Nat) (h : j < newt.length), fresh_triangle s0.vertices_vw.length j newt[j]

/-- The state carried by the outcome of one edge. -/
def EdgeStep.state : EdgeStep → Building
  | .next s => s
  | .brk s => s
  | .undefined s => s

/-- The unit square as footprint, base height `0` and roof height `500` at every
vertex, no adjacent feature, empty buffers. -/
def unit_square : Building :=
  { blank_building with
    p2 := ⟨[⟨0, 0⟩, ⟨1, 0⟩, ⟨1, 1⟩, ⟨0, 1⟩], []⟩,
    vertex_elevation := fun _ _ => 500, height_base := 0 }

/-- Collaborators for concrete runs that tell points apart: the key of a 2D point is
`"x0"` for a point with `x = 0` and `"x"` otherwise. -/
def keyed_env : Collaborators :=
  { sample_env with gen_key_bucket := fun p => if p.x = 0 then "x0" else "x" }

/-- A registry holding the column `[0, 500]` under the key `"x"` and nothing else. -/
def partial_registry : NodeColumn :=
  fun k => if k = "x" then some [0, 500] else none

/-- A footprint whose outer ring has an edge with one endpoint registered and one not
(`(1, 0)` has a column, `(0, 0)` has none) and whose inner ring has both endpoints
registered; base height `0`, roof height `500`, no adjacent feature. -/
def ring_with_hole : Building :=
  { blank_building with
    p2 := ⟨[⟨1, 0⟩, ⟨0, 0⟩, ⟨1, 1⟩], [[⟨2, 2⟩, ⟨3, 2⟩]]⟩,
    vertex_elevation := fun _ _ => 500, height_base := 0 }

/-- A terrain neighbour for concrete runs: it has every segment, at ring `0` and
vertices `1` (first point asked) and `0` (second point asked), and its surface is at
height `120` at vertex `0` and `130` at vertex `1`. -/
def terrain_neighbour : AdjFeature :=
  { get_class := TopoClass.TERRAIN, get_height_base := 0,
    get_vertex_elevation := fun _ pi => if pi = 0 then 120 else 130,
    has_segment := fun _ _ => some (0, 1, 0, 0) }

/-- A building neighbour for concrete runs: it has every segment, its base height is
`100` and its roof is at height `300`. -/
def building_neighbour : AdjFeature :=
  { get_class := TopoClass.BUILDING, get_height_base := 100,
    get_vertex_elevation := fun _ _ => 300,
    has_segment := fun _ _ => some (0, 1, 0, 0) }

/-- The sample configuration with inner walls and without floor inclusion. -/
def inner_walls_config : Config :=
  { sample_config with building_include_floor := false, building_inner_walls := true }

/-- The sample configuration with floor inclusion and inner walls. -/
def floor_inner_config : Config :=
  { sample_config with building_include_floor := true, building_inner_walls := true }

/-- The sample configuration without floor inclusion and without inner walls. -/
def bare_config : Config :=
  { sample_config with building_include_floor := false, building_inner_walls := false }

/-- The entry pushed on the wall vertex buffer for point `p` at column height `h`:
the 3D point at `z_to_float(h)` with its key. -/
def wall_vertex (env : Collaborators) (p : Point2) (h : Int) : Point3 × String :=
  ((⟨p.x, p.y, z_to_float h⟩ : Point3), env.gen_key_bucket3 ⟨p.x, p.y, z_to_float h⟩)

/-- State `s1` is state `s` with `newv` appended to the wall vertex buffer and `newt`
to the wall triangle buffer, nothing else changed. -/
def appends (s s1 : Building) (newv : List (Point3 × String)) (newt : List Triangle) : Prop :=
  s1 = { s with vertices_vw := s.vertices_vw ++ newv, triangles_vw := s.triangles_vw ++ newt }

/-- Vertex `v` is the wall vertex of point `p` at an entry of the column `col` whose
position lies between `lo` and `hi` inclusive. -/
def on_column (env : Collaborators) (p : Point2) (col : List Int) (lo hi : Nat)
    (v : Point3 × String) : Prop :=
  ∃ (t : Nat) (h : Int), lo ≤ t ∧ t ≤ hi ∧ col[t]? = some h ∧ v = wall_vertex env p h

/-- The start and end heights of an interval occur in the node columns of both
endpoints, the start position (as `std::find` gives it) not after the end position. -/
def interval_in_columns (anc bnc : List Int) (sa sb ea eb : Int) : Prop :=
  sa ∈ anc ∧ ea ∈ anc ∧ sb ∈ bnc ∧ eb ∈ bnc ∧
  anc.indexOf sa ≤ anc.indexOf ea ∧ bnc.indexOf sb ≤ bnc.indexOf eb

/-- The four heights `(sa, sb, ea, eb)` are the `m`-th interval that
`construct_building_walls` builds for the edge from `a` to `b` (edge `ai` of ring
`ringi` of the footprint), whose endpoints have the non-empty node columns `anc` and
`bnc`. -/
def edge_interval (env : Collaborators) (cfg : Config) (nc : NodeColumn) (s : Building)
    (a b : Point2) (anc bnc : List Int) (sa sb ea eb : Int) : Prop :=
  ∃ (ringi : Nat) (ring : List Point2) (ai m : Nat),
    (s.p2.outer :: s.p2.inners)[ringi]? = some ring ∧
    ring[ai]? = some a ∧
    ring[if ai = ring.length - 1 then 0 else ai + 1]? = some b ∧
    anc = (nc (env.gen_key_bucket a)).getD [] ∧ bnc = (nc (env.gen_key_bucket b)).getD [] ∧
    anc ≠ [] ∧ bnc ≠ [] ∧
    (Building.wall_intervals cfg (s.vertex_elevation (ringi : Int) (ai : Int)) s.height_base
      (Building.find_adjacent s.adjFeatures a b)).1[m]? = some sa ∧
    (Building.wall_intervals cfg (s.vertex_elevation (ringi : Int) (ai : Int)) s.height_base
      (Building.find_adjacent s.adjFeatures a b)).2.1[m]? = some sb ∧
    (Building.wall_intervals cfg (s.vertex_elevation (ringi : Int) (ai : Int)) s.height_base
      (Building.find_adjacent s.adjFeatures a b)).2.2.1[m]? = some ea ∧
    (Building.wall_intervals cfg (s.vertex_elevation (ringi : Int) (ai : Int)) s.height_base
      (Building.find_adjacent s.adjFeatures a b)).2.2.2[m]? = some eb

/-- Every interval of every edge of the footprint has its start and end heights in
the node columns of both endpoints, the start position not after the end position. -/
def columns_cover (env : Collaborators) (cfg : Config) (nc : NodeColumn) (s : Building) :
    Prop :=
  ∀ (a b : Point2) (anc bnc : List Int) (sa sb ea eb : Int),
    edge_interval env cfg nc s a b anc bnc sa sb ea eb →
    interval_in_columns anc bnc sa sb ea eb

/-- Edge `ai` of `ring`, seen from state `s0`, is covered for the vertex property
`Good`: its endpoints exist and, when both columns are non-empty, each of its
intervals has its heights in the columns and every vertex on the columns between the
markers is `Good`. -/
def edge_covered (Good : Point3 × String → Prop) (env : Collaborators) (cfg : Config)
    (nc : NodeColumn) (s0 : Building) (ring : List Point2) (ringi : Int) (ai : Nat) : Prop :=
  ∃ (a b : Point2),
    ring[ai]? = some a ∧ ring[if ai = ring.length - 1 then 0 else ai + 1]? = some b ∧
    ((nc (env.gen_key_bucket a)).getD [] ≠ [] → (nc (env.gen_key_bucket b)).getD [] ≠ [] →
      ∀ (m : Nat) (sa sb ea eb : Int),
        (Building.wall_intervals cfg (s0.vertex_elevation ringi (ai : Int)) s0.height_base
          (Building.find_adjacent s0.adjFeatures a b)).1[m]? = some sa →
        (Building.wall_intervals cfg (s0.vertex_elevation ringi (ai : Int)) s0.height_base
          (Building.find_adjacent s0.adjFeatures a b)).2.1[m]? = some sb →
        (Building.wall_intervals cfg (s0.vertex_elevation ringi (ai : Int)) s0.height_base
          (Building.find_adjacent s0.adjFeatures a b)).2.2.1[m]? = some ea →
        (Building.wall_intervals cfg (s0.vertex_elevation ringi (ai : Int)) s0.height_base
          (Building.find_adjacent s0.adjFeatures a b)).2.2.2[m]? = some eb →
        interval_in_columns ((nc (env.gen_key_bucket a)).getD [])
            ((nc (env.gen_key_bucket b)).getD []) sa sb ea eb ∧
        ∀ v, (on_column env a ((nc (env.gen_key_bucket a)).getD [])
              (((nc (env.gen_key_bucket a)).getD []).indexOf sa)
              (((nc (env.gen_key_bucket a)).getD []).indexOf ea) v ∨
            on_column env b ((nc (env.gen_key_bucket b)).getD [])
              (((nc (env.gen_key_bucket b)).getD []).indexOf sb)
              (((nc (env.gen_key_bucket b)).getD []).indexOf eb) v) → Good v)

/-- State `s` has the fields that the interval construction reads as in `s0`. -/
def same_frame (s0 s : Building) : Prop :=
  s.vertex_elevation = s0.vertex_elevation ∧ s.height_base = s0.height_base ∧
  s.adjFeatures = s0.adjFeatures
/-- A registry holding the column `[0, 200, 500]` under every key. -/
def three_level_registry : NodeColumn :=
  fun _ => some [0, 200, 500]

/-- A piece appended to the OBJ face string `fs`: free text, or a face line
`"f a b c\n"` written from three indices with `std::to_string`. -/
inductive ObjLine where
  | text (s : String)
  | face (a b c : Nat)
deriving DecidableEq

/-- The characters of a piece. -/
def ObjLine.render : ObjLine → String
  | .text s => s
  | .face a b c => "f " ++ toString a ++ " " ++ toString b ++ " " ++ toString c ++ "\n"

/-- The two arguments `get_obj` updates: the coordinate-to-index map `dPts` (a map
from key strings to indices) and the face string `fs`, kept as the sequence of the
pieces appended to it. -/
structure ObjState where
  dPts : AList (fun _ : String => Nat)
  fs : List ObjLine

/-- The text of the face string. -/
def ObjState.text (st : ObjState) : String :=
  String.join (st.fs.map ObjLine.render)

/-- Element access `_vertices[i]` with an `int` index: outside `0 .. size-1` the
access is out of bounds (`none`). -/
def vertex_at (v : List (Point3 × String)) (i : Int) : Option (Point3 × String) :=
  if 0 ≤ i then v[i.toNat]? else none

/-- The dedup lookup of one key: `dPts.find(key)`; when absent the index is
`dPts.size() + 1` and it is stored under the key (`dPts[key] = a`), otherwise the
stored index is used. Gives the index and the map. -/
def dedup_index (key : String) (dPts : AList (fun _ : String => Nat)) :
    Nat × AList (fun _ : String => Nat) :=
  match dPts.lookup key with
  | none => (dPts.entries.length + 1, dPts.insert key (dPts.entries.length + 1))
  | some a => (a, dPts)

/-- The body of a face loop for one triangle `t` over the vertex buffer `verts`, the
key of a vertex given by `keyf`: three dedup lookups, each after the read of its
vertex, and the face line when the three indices are pairwise distinct, written
`a b c`, or `a c b` when `flip` is set. A vertex index outside the buffer is an
undefined read. -/
def obj_face_step (verts : List (Point3 × String)) (keyf : Point3 × String → String)
    (flip : Bool) (st : ObjState) (t : Triangle) : Run ObjState :=
  match vertex_at verts t.v0 with
  | none => .undefined st
  | some p0 =>
    match vertex_at verts t.v1 with
    | none => .undefined { st with dPts := (dedup_index (keyf p0) st.dPts).2 }
    | some p1 =>
      match vertex_at verts t.v2 with
      | none =>
        .undefined { st with
          dPts := (dedup_index (keyf p1) (dedup_index (keyf p0) st.dPts).2).2 }
      | some p2 =>
        let r0 := dedup_index (keyf p0) st.dPts
        let r1 := dedup_index (keyf p1) r0.2
        let r2 := dedup_index (keyf p2) r1.2
        if r0.1 ≠ r1.1 ∧ r0.1 ≠ r2.1 ∧ r1.1 ≠ r2.1 then
          .done { dPts := r2.2,
                  fs := st.fs ++ [if flip then .face r0.1 r2.1 r1.1 else .face r0.1 r1.1 r2.1] }
        else
          .done { dPts := r2.2, fs := st.fs }

/-- A face loop `for (auto& t : triangles)`. -/
def obj_faces (verts : List (Point3 × String)) (keyf : Point3 × String → String)
    (flip : Bool) : List Triangle → ObjState → Run ObjState
  | [], st => .done st
  | t :: rest, st =>
    match obj_face_step verts keyf flip st t with
    | .done st1 => obj_faces verts keyf flip rest st1
    | .undefined st1 => .undefined st1

namespace Building

/-- The key used by the loops of `Building::get_obj`:
`gen_key_bucket(&_vertices[i].first, z)` with `z = z_to_float(get_height_base())`. -/
def base_key (env : Collaborators) (b : Building) (p : Point3 × String) : String :=
  env.gen_key_bucket_z p.1 (z_to_float b.height_base)

/-- Modelled from the spec: `TopoFeature::get_obj` is defined outside `Building.cpp`.
The spec gives the mesh export as the material line followed by the roof/floor
triangles and the wall triangles, each vertex indexed through the file-wide
coordinate-to-index lookup under the key stored with it, triangles with two or more
identical indices dropped. -/
def topo_get_obj (b : Building) (st : ObjState) (mtl : String) : Run ObjState :=
  match obj_faces b.vertices (fun p => p.2) false b.triangles
      { st with fs := st.fs ++ [.text mtl, .text "\n"] } with
  | .undefined st1 => .undefined st1
  | .done st1 => obj_faces b.vertices_vw (fun p => p.2) false b.triangles_vw st1

/-- The first part of `Building::get_obj`: the branch on `lod`. -/
def get_obj_lod (env : Collaborators) (b : Building) (st : ObjState) (lod : Int)
    (mtl : String) : Run ObjState :=
  if lod = 1 then topo_get_obj b st mtl
  else if lod = 0 then
    obj_faces b.vertices (base_key env b) false b.triangles
      { st with fs := st.fs ++ [.text mtl, .text "\n"] }
  else .done st

/-- The second part of `Building::get_obj`: the floor faces, under
`_building_include_floor`. -/
def get_obj_floor (env : Collaborators) (cfg : Config) (b : Building) (st : ObjState) :
    Run ObjState :=
  if cfg.building_include_floor then
    obj_faces b.vertices (base_key env b) true b.triangles
      { st with fs := st.fs ++ [.text "usemtl BuildingFloor\n"] }
  else .done st

/-- `Building::get_obj`. -/
def get_obj (env : Collaborators) (cfg : Config) (b : Building) (st : ObjState) (lod : Int)
    (mtl : String) : Run ObjState :=
  match get_obj_lod env b st lod mtl with
  | .undefined st1 => .undefined st1
  | .done st1 => get_obj_floor env cfg b st1

end Building

/-- The three dedup indices of triangle `t` as the map `d` holds them. -/
def dedup_indices (verts : List (Point3 × String)) (keyf : Point3 × String → String)
    (d : AList (fun _ : String => Nat)) (t : Triangle) : Option (Nat × Nat × Nat) :=
  match vertex_at verts t.v0, vertex_at verts t.v1, vertex_at verts t.v2 with
  | some p0, some p1, some p2 =>
    match d.lookup (keyf p0), d.lookup (keyf p1), d.lookup (keyf p2) with
    | some a, some b, some c => some (a, b, c)
    | _, _, _ => none
  | _, _, _ => none

/-- The face line that belongs to triangle `t` under the indices of the map `d`: the
line over its three indices (`a b c`, or `a c b` when `flip` is set) when they are
pairwise distinct, no line otherwise. -/
def face_of (verts : List (Point3 × String)) (keyf : Point3 × String → String)
    (d : AList (fun _ : String => Nat)) (flip : Bool) (t : Triangle) : Option ObjLine :=
  match dedup_indices verts keyf d t with
  | some (a, b, c) =>
    if a ≠ b ∧ a ≠ c ∧ b ≠ c then some (if flip then .face a c b else .face a b c) else none
  | none => none

/-- A building with a roof/floor mesh for concrete runs: four vertices, the last a
copy of the first, and two triangles, the second using the copy twice over. -/
def meshed_building : Building :=
  { blank_building with
    vertices := [(⟨0, 0, 5⟩, "p0"), (⟨1, 0, 5⟩, "p1"), (⟨1, 1, 5⟩, "p2"), (⟨0, 0, 5⟩, "p0")],
    triangles := [⟨0, 1, 2⟩, ⟨0, 3, 2⟩] }

/-- Collaborators for concrete runs whose key at an explicit height tells the three
corners of `meshed_building` apart. -/
def mesh_env : Collaborators :=
  { sample_env with
    gen_key_bucket_z := fun p _ => if p.x = 0 then "a" else if p.y = 0 then "b" else "c" }

/-- The file-wide dedup index invariant of the coordinate-to-index map: no index is
stored under two keys, and the stored indices are exactly `1, ..., size`. -/
def dedup_invariant (d : AList (fun _ : String => Nat)) : Prop :=
  (∀ (k1 k2 : String) (x : Nat), d.lookup k1 = some x → d.lookup k2 = some x → k1 = k2) ∧
  (∀ x : Nat, (∃ k : String, d.lookup k = some x) ↔ (1 ≤ x ∧ x ≤ d.entries.length))

/-- State `st1` comes from state `st` by dedup lookups and appended pieces: stored
indices are kept, the invariant is kept, and every face line appended holds indices
stored in the map of `st1`. -/
def obj_extends (st st1 : ObjState) : Prop :=
  (∀ (k : String) (x : Nat), st.dPts.lookup k = some x → st1.dPts.lookup k = some x) ∧
  (dedup_invariant st.dPts → dedup_invariant st1.dPts) ∧
  ∃ new : List ObjLine, st1.fs = st.fs ++ new ∧
    ∀ a b c : Nat, ObjLine.face a b c ∈ new →
      (∃ k, st1.dPts.lookup k = some a) ∧ (∃ k, st1.dPts.lookup k = some b) ∧
      (∃ k, st1.dPts.lookup k = some c)

/-! # Theorems -/

/-! ## Floating-point rounding -/

theorem round_half_even_intCast (k : Int) : round_half_even (k : ℚ) = k := by
  simp [round_half_even]

theorem round_half_even_le (x : ℚ) (k : Int) (h : x ≤ k) : round_half_even x ≤ k := by
  have hf : ⌊x⌋ ≤ k := by
    have : ⌊x⌋ < k + 1 := by
      rw [Int.floor_lt]; push_cast; linarith
    omega
  rcases eq_or_lt_of_le hf with h1 | h1
  · have hx : x = k := le_antisymm h (by rw [← h1]; exact Int.floor_le x)
    rw [hx, round_half_even_intCast]
  · unfold round_half_even
    split_ifs <;> omega

theorem le_round_half_even (x : ℚ) (k : Int) (h : (k : ℚ) ≤ x) : k ≤ round_half_even x := by
  have hf : k ≤ ⌊x⌋ := Int.le_floor.mpr h
  unfold round_half_even
  split_ifs <;> omega

theorem round_half_even_le_of_lt (x : ℚ) (k : Int) (h : x < k + 1 / 2) :
    round_half_even x ≤ k := by
  have hf : ⌊x⌋ ≤ k := by
    have : ⌊x⌋ < k + 1 := by
      rw [Int.floor_lt]; push_cast; linarith
    omega
  rcases eq_or_lt_of_le hf with h1 | h1
  · have : x - ⌊x⌋ < 1 / 2 := by rw [h1]; linarith
    unfold round_half_even
    rw [if_pos this, h1]
  · unfold round_half_even
    split_ifs <;> omega

theorem le_round_half_even_of_lt (x : ℚ) (k : Int) (h : (k : ℚ) - 1 / 2 < x) :
    k ≤ round_half_even x := by
  have hf : k - 1 ≤ ⌊x⌋ := by
    rw [Int.le_floor]; push_cast; linarith
  rcases eq_or_lt_of_le hf with h1 | h1
  · have h2 : 1 / 2 < x - ⌊x⌋ := by rw [← h1]; push_cast; linarith
    have h3 : ¬ (x - ⌊x⌋ < 1 / 2) := by linarith
    unfold round_half_even
    rw [if_neg h3, if_pos h2]
    omega
  · unfold round_half_even
    split_ifs <;> omega

theorem round_half_even_sub_le (x : ℚ) : x - 1 / 2 ≤ (round_half_even x : ℚ) := by
  have h1 := Int.floor_le x
  have h2 := Int.lt_floor_add_one x
  unfold round_half_even
  split_ifs with a b c
  · linarith
  · push_cast; linarith
  · linarith
  · push_cast; linarith

theorem round_half_even_le_add (x : ℚ) : (round_half_even x : ℚ) ≤ x + 1 / 2 := by
  have h1 := Int.floor_le x
  have h2 := Int.lt_floor_add_one x
  unfold round_half_even
  split_ifs with a b c
  · linarith
  · push_cast; linarith
  · linarith
  · push_cast; linarith

theorem two_zpow_pos (k : Int) : (0 : ℚ) < 2 ^ k :=
  zpow_pos (by norm_num) k

theorem two_zpow_split (q k : Int) (h : q ≤ k) :
    (2 : ℚ) ^ k = (((2 : Int) ^ (k - q).toNat : Int) : ℚ) * 2 ^ q := by
  push_cast
  rw [← zpow_natCast, Int.toNat_of_nonneg (by omega), ← zpow_add₀ (by norm_num)]
  congr 1
  ring

theorem log_two_spec (x : ℚ) (hx : 0 < x) :
    (2 : ℚ) ^ Int.log 2 x ≤ x ∧ x < (2 : ℚ) ^ (Int.log 2 x + 1) := by
  have h1 := Int.zpow_log_le_self (b := 2) (r := x) (by norm_num) hx
  have h2 := Int.lt_zpow_succ_log_self (b := 2) (by norm_num) x
  exact ⟨by simpa using h1, by simpa using h2⟩

theorem log_two_eq (x : ℚ) (e : Int) (h1 : (2 : ℚ) ^ e ≤ x) (h2 : x < (2 : ℚ) ^ (e + 1)) :
    Int.log 2 x = e := by
  have hx : 0 < x := lt_of_lt_of_le (two_zpow_pos e) h1
  have a : e ≤ Int.log 2 x :=
    (Int.zpow_le_iff_le_log (b := 2) (by norm_num) hx).mp (by simpa using h1)
  have b : Int.log 2 x < e + 1 :=
    (Int.lt_zpow_iff_log_lt (b := 2) (by norm_num) hx).mp (by simpa using h2)
  omega

theorem round_float_zero (prec : Nat) (qmin : Int) : round_float prec qmin 0 = 0 := by
  simp [round_float, round_half_even]

theorem round_float_nonneg (prec : Nat) (qmin : Int) (x : ℚ) (h : 0 ≤ x) :
    0 ≤ round_float prec qmin x := by
  unfold round_float
  have hq := two_zpow_pos (float_quantum prec qmin x)
  have : (0 : Int) ≤ round_half_even (x / 2 ^ float_quantum prec qmin x) :=
    le_round_half_even _ 0 (by simpa using div_nonneg h hq.le)
  have h2 : (0 : ℚ) ≤ (round_half_even (x / 2 ^ float_quantum prec qmin x) : ℚ) := by
    exact_mod_cast this
  exact mul_nonneg h2 hq.le

theorem round_float_nonpos (prec : Nat) (qmin : Int) (x : ℚ) (h : x ≤ 0) :
    round_float prec qmin x ≤ 0 := by
  unfold round_float
  have hq := two_zpow_pos (float_quantum prec qmin x)
  have : round_half_even (x / 2 ^ float_quantum prec qmin x) ≤ (0 : Int) :=
    round_half_even_le _ 0 (by simpa using div_nonpos_of_nonpos_of_nonneg h hq.le)
  have h2 : (round_half_even (x / 2 ^ float_quantum prec qmin x) : ℚ) ≤ 0 := by
    exact_mod_cast this
  exact mul_nonpos_of_nonpos_of_nonneg h2 hq.le

/-- A positive value that does not exceed a number of the format is not rounded
above it. -/
theorem round_float_le (prec : Nat) (qmin : Int) (x : ℚ) (m k : Int) (hx0 : 0 < x)
    (hm : m < 2 ^ prec) (hk : qmin ≤ k) (hx : x ≤ (m : ℚ) * 2 ^ k) :
    round_float prec qmin x ≤ (m : ℚ) * 2 ^ k := by
  obtain ⟨hl1, hl2⟩ := log_two_spec x hx0
  have hq : float_quantum prec qmin x = max (Int.log 2 x + 1 - prec) qmin := by
    unfold float_quantum; rw [abs_of_pos hx0]
  unfold round_float
  generalize float_quantum prec qmin x = q at hq
  have hqpos := two_zpow_pos q
  by_cases hqk : q ≤ k
  · have hsplit := two_zpow_split q k hqk
    have hle : x / 2 ^ q ≤ ((m * (2 : Int) ^ (k - q).toNat : Int) : ℚ) := by
      rw [div_le_iff₀ hqpos]
      calc x ≤ (m : ℚ) * 2 ^ k := hx
        _ = ((m * (2 : Int) ^ (k - q).toNat : Int) : ℚ) * 2 ^ q := by
          rw [hsplit]; push_cast; ring
    have := round_half_even_le _ _ hle
    calc (round_half_even (x / 2 ^ q) : ℚ) * 2 ^ q
        ≤ ((m * (2 : Int) ^ (k - q).toNat : Int) : ℚ) * 2 ^ q :=
          mul_le_mul_of_nonneg_right (by exact_mod_cast this) hqpos.le
      _ = (m : ℚ) * 2 ^ k := by rw [hsplit]; push_cast; ring
  · exfalso
    have hE : k + prec ≤ Int.log 2 x := by
      rcases le_max_iff.mp (le_of_eq hq) with h | h <;> omega
    have h1 : (2 : ℚ) ^ (k + prec) ≤ x :=
      le_trans (zpow_le_zpow_right₀ (by norm_num) hE) hl1
    have h2 : (m : ℚ) * 2 ^ k < 2 ^ (k + (prec : Int)) := by
      rw [zpow_add₀ (by norm_num), mul_comm ((2 : ℚ) ^ k)]
      apply mul_lt_mul_of_pos_right _ (two_zpow_pos k)
      rw [zpow_natCast]
      exact_mod_cast hm
    linarith

/-- A value that is at least a positive number of the format is not rounded below
it. -/
theorem le_round_float (prec : Nat) (qmin : Int) (x : ℚ) (m k : Int) (hp : 0 < prec)
    (hm0 : 0 < m) (hm : m ≤ 2 ^ prec) (hk : qmin ≤ k) (hx : (m : ℚ) * 2 ^ k ≤ x) :
    (m : ℚ) * 2 ^ k ≤ round_float prec qmin x := by
  have hr0 : (0 : ℚ) < (m : ℚ) * 2 ^ k :=
    mul_pos (by exact_mod_cast hm0) (two_zpow_pos k)
  have hx0 : 0 < x := lt_of_lt_of_le hr0 hx
  obtain ⟨hl1, hl2⟩ := log_two_spec x hx0
  have hq : float_quantum prec qmin x = max (Int.log 2 x + 1 - prec) qmin := by
    unfold float_quantum; rw [abs_of_pos hx0]
  unfold round_float
  generalize float_quantum prec qmin x = q at hq
  have hqpos := two_zpow_pos q
  by_cases hqk : q ≤ k
  · have hsplit := two_zpow_split q k hqk
    have hle : ((m * (2 : Int) ^ (k - q).toNat : Int) : ℚ) ≤ x / 2 ^ q := by
      rw [le_div_iff₀ hqpos]
      calc ((m * (2 : Int) ^ (k - q).toNat : Int) : ℚ) * 2 ^ q = (m : ℚ) * 2 ^ k := by
            rw [hsplit]; push_cast; ring
        _ ≤ x := hx
    have := le_round_half_even _ _ hle
    calc (m : ℚ) * 2 ^ k = ((m * (2 : Int) ^ (k - q).toNat : Int) : ℚ) * 2 ^ q := by
          rw [hsplit]; push_cast; ring
      _ ≤ (round_half_even (x / 2 ^ q) : ℚ) * 2 ^ q :=
          mul_le_mul_of_nonneg_right (by exact_mod_cast this) hqpos.le
  · have hqE : q = Int.log 2 x + 1 - prec := by
      rcases le_max_iff.mp (le_of_eq hq) with h | h
      · have := le_max_left (Int.log 2 x + 1 - (prec : Int)) qmin
        omega
      · omega
    -- the rounded value is at least `2 ^ log x`
    have hsplit := two_zpow_split q (Int.log 2 x) (by omega)
    have hle : (((2 : Int) ^ (Int.log 2 x - q).toNat : Int) : ℚ) ≤ x / 2 ^ q := by
      rw [le_div_iff₀ hqpos, ← hsplit]
      exact hl1
    have := le_round_half_even _ _ hle
    have h3 : (2 : ℚ) ^ Int.log 2 x ≤ (round_half_even (x / 2 ^ q) : ℚ) * 2 ^ q := by
      rw [hsplit]
      exact mul_le_mul_of_nonneg_right (by exact_mod_cast this) hqpos.le
    have h4 : (m : ℚ) * 2 ^ k ≤ 2 ^ (k + (prec : Int)) := by
      rw [zpow_add₀ (by norm_num), mul_comm ((2 : ℚ) ^ k)]
      apply mul_le_mul_of_nonneg_right _ (two_zpow_pos k).le
      rw [zpow_natCast]
      exact_mod_cast hm
    have h5 : (2 : ℚ) ^ (k + (prec : Int)) ≤ 2 ^ Int.log 2 x :=
      zpow_le_zpow_right₀ (by norm_num) (by omega)
    linarith

/-- A number of the format is the result of its own rounding. -/
theorem round_float_of_format (prec : Nat) (qmin : Int) (m k : Int) (hp : 0 < prec)
    (hm0 : 0 < m) (hm : m < 2 ^ prec) (hk : qmin ≤ k) :
    round_float prec qmin ((m : ℚ) * 2 ^ k) = (m : ℚ) * 2 ^ k :=
  le_antisymm
    (round_float_le prec qmin _ m k (mul_pos (by exact_mod_cast hm0) (two_zpow_pos k)) hm hk
      (le_refl _))
    (le_round_float prec qmin _ m k hp hm0 hm.le hk (le_refl _))

/-- Evaluation of a rounding away from a tie: `e` is the binary exponent of `x` and
`m` the integer nearest to `x` in units of the last place. -/
theorem round_float_eq (prec : Nat) (qmin : Int) (x : ℚ) (e m : Int)
    (h1 : (2 : ℚ) ^ e ≤ |x|) (h2 : |x| < (2 : ℚ) ^ (e + 1))
    (h3 : (m : ℚ) - 1 / 2 < x / 2 ^ max (e + 1 - prec) qmin)
    (h4 : x / 2 ^ max (e + 1 - prec) qmin < (m : ℚ) + 1 / 2) :
    round_float prec qmin x = (m : ℚ) * 2 ^ max (e + 1 - prec) qmin := by
  have hq : float_quantum prec qmin x = max (e + 1 - prec) qmin := by
    unfold float_quantum
    rw [log_two_eq |x| e h1 h2]
  unfold round_float
  rw [hq]
  have : round_half_even (x / 2 ^ max (e + 1 - prec) qmin) = m :=
    le_antisymm (round_half_even_le_of_lt _ _ h4) (le_round_half_even_of_lt _ _ h3)
  rw [this]

/-- The conversion of a positive size to `float`: the result is `M * 2 ^ q` with
`2 ^ 23 ≤ M ≤ 2 ^ 24`, at most half a unit `2 ^ q` away from the size. -/
theorem to_float_natCast_spec (n : Nat) (hn : 0 < n) :
    ∃ (M q : Int), -23 ≤ q ∧ (2 : Int) ^ 23 ≤ M ∧ M ≤ 2 ^ 24 ∧
      to_float (n : ℚ) = (M : ℚ) * 2 ^ q ∧
      (M : ℚ) - 1 / 2 ≤ (n : ℚ) / 2 ^ q ∧ (n : ℚ) / 2 ^ q ≤ (M : ℚ) + 1 / 2 ∧
      (2 : ℚ) ^ 23 ≤ (n : ℚ) / 2 ^ q ∧ (n : ℚ) / 2 ^ q < 2 ^ 24 ∧
      (q ≤ 0 → (M : ℚ) = (n : ℚ) / 2 ^ q) := by
  have hx0 : (0 : ℚ) < (n : ℚ) := by exact_mod_cast hn
  obtain ⟨hl1, hl2⟩ := log_two_spec (n : ℚ) hx0
  have hE : 0 ≤ Int.log 2 (n : ℚ) := by
    have : ((2 : ℕ) : ℚ) ^ (0 : Int) ≤ (n : ℚ) := by
      simp only [zpow_zero]
      exact_mod_cast hn
    exact (Int.zpow_le_iff_le_log (b := 2) (by norm_num) hx0).mp this
  have hq : float_quantum 24 (-149) (n : ℚ) = Int.log 2 (n : ℚ) - 23 := by
    unfold float_quantum
    rw [abs_of_pos hx0, max_eq_left (by push_cast; omega)]
    push_cast; ring
  have hqpos := two_zpow_pos (Int.log 2 (n : ℚ) - 23)
  have hlo : (2 : ℚ) ^ 23 ≤ (n : ℚ) / 2 ^ (Int.log 2 (n : ℚ) - 23) := by
    rw [le_div_iff₀ hqpos]
    have : (2 : ℚ) ^ 23 * 2 ^ (Int.log 2 (n : ℚ) - 23) = 2 ^ Int.log 2 (n : ℚ) := by
      rw [← zpow_natCast, ← zpow_add₀ (by norm_num)]
      congr 1
      push_cast; ring
    rw [this]; exact hl1
  have hhi : (n : ℚ) / 2 ^ (Int.log 2 (n : ℚ) - 23) < 2 ^ 24 := by
    rw [div_lt_iff₀ hqpos]
    have : (2 : ℚ) ^ 24 * 2 ^ (Int.log 2 (n : ℚ) - 23) = 2 ^ (Int.log 2 (n : ℚ) + 1) := by
      rw [← zpow_natCast, ← zpow_add₀ (by norm_num)]
      congr 1
      push_cast; ring
    rw [this]; exact hl2
  refine ⟨round_half_even ((n : ℚ) / 2 ^ (Int.log 2 (n : ℚ) - 23)), Int.log 2 (n : ℚ) - 23,
    by omega, ?_, ?_, ?_, ?_, ?_, hlo, hhi, ?_⟩
  · exact le_round_half_even _ _ (by push_cast; exact hlo)
  · exact round_half_even_le _ _ (by push_cast; exact hhi.le)
  · unfold to_float round_float
    rw [hq]
  · have := round_half_even_sub_le ((n : ℚ) / 2 ^ (Int.log 2 (n : ℚ) - 23))
    have := round_half_even_le_add ((n : ℚ) / 2 ^ (Int.log 2 (n : ℚ) - 23))
    linarith
  · have := round_half_even_sub_le ((n : ℚ) / 2 ^ (Int.log 2 (n : ℚ) - 23))
    linarith
  · intro hq0
    -- the quotient is an integer
    have h2 : (2 : ℚ) ^ (Int.log 2 (n : ℚ) - 23)
        = ((((2 : Int) ^ (23 - Int.log 2 (n : ℚ)).toNat : Int) : ℚ))⁻¹ := by
      push_cast
      rw [← zpow_natCast, Int.toNat_of_nonneg (by omega), ← zpow_neg]
      congr 1
      ring
    have h3 : (n : ℚ) / 2 ^ (Int.log 2 (n : ℚ) - 23)
        = (((n : Int) * (2 : Int) ^ (23 - Int.log 2 (n : ℚ)).toNat : Int) : ℚ) := by
      rw [h2]
      push_cast
      rw [div_inv_eq_mul]
    rw [h3, round_half_even_intCast]

/-- The largest `float` below `1` is `1 - 2 ^ -24`. -/
theorem float_le_of_lt_one (p : ℚ) (hf : to_float p = p) (h0 : 0 ≤ p) (h1 : p < 1) :
    p ≤ 1 - 1 / 2 ^ 24 := by
  rcases eq_or_lt_of_le h0 with h | hpos
  · rw [← h]; norm_num
  obtain ⟨hl1, hl2⟩ := log_two_spec p hpos
  have hq : float_quantum 24 (-149) p = max (Int.log 2 p + 1 - 24) (-149) := by
    unfold float_quantum; rw [abs_of_pos hpos]; rfl
  have hE : Int.log 2 p < 0 := by
    by_contra hcon
    have : (2 : ℚ) ^ (0 : Int) ≤ 2 ^ Int.log 2 p :=
      zpow_le_zpow_right₀ (by norm_num) (by omega)
    simp only [zpow_zero] at this
    linarith
  unfold to_float round_float at hf
  generalize float_quantum 24 (-149) p = q at hq hf
  have hqpos := two_zpow_pos q
  have hq24 : q ≤ -24 := by rw [hq]; exact max_le (by omega) (by norm_num)
  have hqE : Int.log 2 p + 1 ≤ q + 24 := by
    have := le_max_left (Int.log 2 p + 1 - 24) (-149)
    omega
  generalize round_half_even (p / 2 ^ q) = M at hf
  have h2 : p < (2 : ℚ) ^ 24 * 2 ^ q := by
    calc p < (2 : ℚ) ^ (Int.log 2 p + 1) := hl2
      _ ≤ 2 ^ (q + 24) := zpow_le_zpow_right₀ (by norm_num) hqE
      _ = (2 : ℚ) ^ 24 * 2 ^ q := by
        rw [zpow_add₀ (by norm_num), mul_comm]
        norm_num
  have hM : M < 2 ^ 24 := by
    have : (M : ℚ) * 2 ^ q < (2 : ℚ) ^ 24 * 2 ^ q := by rw [hf]; exact h2
    have := lt_of_mul_lt_mul_right this hqpos.le
    exact_mod_cast this
  have hM2 : (M : ℚ) ≤ 2 ^ 24 - 1 := by
    have : M ≤ 2 ^ 24 - 1 := by omega
    exact_mod_cast this
  have hq2 : (2 : ℚ) ^ q ≤ 1 / 2 ^ 24 := by
    have : (2 : ℚ) ^ q ≤ 2 ^ (-24 : Int) := zpow_le_zpow_right₀ (by norm_num) hq24
    calc (2 : ℚ) ^ q ≤ 2 ^ (-24 : Int) := this
      _ = 1 / 2 ^ 24 := by norm_num
  calc p = (M : ℚ) * 2 ^ q := hf.symm
    _ ≤ (2 ^ 24 - 1) * 2 ^ q := mul_le_mul_of_nonneg_right hM2 hqpos.le
    _ ≤ (2 ^ 24 - 1) * (1 / 2 ^ 24) := mul_le_mul_of_nonneg_left hq2 (by norm_num)
    _ = 1 - 1 / 2 ^ 24 := by norm_num

/-- The least `float` above `1` is `1 + 2 ^ -23`. -/
theorem float_ge_of_one_lt (p : ℚ) (hf : to_float p = p) (h1 : 1 < p) :
    1 + 1 / 2 ^ 23 ≤ p := by
  have hpos : 0 < p := by linarith
  obtain ⟨hl1, hl2⟩ := log_two_spec p hpos
  have hE : 0 ≤ Int.log 2 p := by
    have : ((2 : ℕ) : ℚ) ^ (0 : Int) ≤ p := by
      simp only [zpow_zero]; linarith
    exact (Int.zpow_le_iff_le_log (b := 2) (by norm_num) hpos).mp this
  have hq : float_quantum 24 (-149) p = Int.log 2 p - 23 := by
    unfold float_quantum
    rw [abs_of_pos hpos, max_eq_left (by push_cast; omega)]
    push_cast; ring
  unfold to_float round_float at hf
  rw [hq] at hf
  generalize round_half_even (p / 2 ^ (Int.log 2 p - 23)) = M at hf
  by_cases hq0 : Int.log 2 p - 23 ≤ 0
  · have hsplit := two_zpow_split (Int.log 2 p - 23) 0 hq0
    simp only [zpow_zero] at hsplit
    have hqpos := two_zpow_pos (Int.log 2 p - 23)
    have hK : (2 : Int) ^ (0 - (Int.log 2 p - 23)).toNat < M := by
      have : ((((2 : Int) ^ (0 - (Int.log 2 p - 23)).toNat : Int) : ℚ))
          * 2 ^ (Int.log 2 p - 23) < (M : ℚ) * 2 ^ (Int.log 2 p - 23) := by
        rw [← hsplit, hf]; exact h1
      have := lt_of_mul_lt_mul_right this hqpos.le
      exact_mod_cast this
    have hK2 : ((((2 : Int) ^ (0 - (Int.log 2 p - 23)).toNat : Int) : ℚ)) + 1 ≤ (M : ℚ) := by
      have : (2 : Int) ^ (0 - (Int.log 2 p - 23)).toNat + 1 ≤ M := by omega
      exact_mod_cast this
    have hq2 : (1 : ℚ) / 2 ^ 23 ≤ (2 : ℚ) ^ (Int.log 2 p - 23) := by
      have : (2 : ℚ) ^ (-23 : Int) ≤ 2 ^ (Int.log 2 p - 23) :=
        zpow_le_zpow_right₀ (by norm_num) (by omega)
      calc (1 : ℚ) / 2 ^ 23 = 2 ^ (-23 : Int) := by norm_num
        _ ≤ _ := this
    calc 1 + 1 / 2 ^ 23 ≤ 1 + (2 : ℚ) ^ (Int.log 2 p - 23) := by linarith
      _ = ((((2 : Int) ^ (0 - (Int.log 2 p - 23)).toNat : Int) : ℚ) + 1)
            * 2 ^ (Int.log 2 p - 23) := by rw [add_mul, ← hsplit]; ring
      _ ≤ (M : ℚ) * 2 ^ (Int.log 2 p - 23) := mul_le_mul_of_nonneg_right hK2 hqpos.le
      _ = p := hf
  · have : (2 : ℚ) ^ (24 : Int) ≤ 2 ^ Int.log 2 p :=
      zpow_le_zpow_right₀ (by norm_num) (by omega)
    have h24 : (2 : ℚ) ^ (24 : Int) = 16777216 := by norm_num
    rw [h24] at this
    have : (16777216 : ℚ) ≤ p := le_trans this hl1
    have : (1 : ℚ) + 1 / 2 ^ 23 ≤ 16777216 := by norm_num
    linarith

theorem float_to_int_of_nonneg (x : ℚ) (h : 0 ≤ x) : float_to_int x = ⌊x⌋ := by
  simp [float_to_int, h]

theorem float_to_int_intCast (n : Int) : float_to_int (n : ℚ) = n := by
  unfold float_to_int
  split <;> simp

theorem float_to_int_nonpos (x : ℚ) (h : x ≤ 0) : float_to_int x ≤ 0 := by
  unfold float_to_int
  split_ifs with h0
  · have : x = 0 := le_antisymm h h0
    rw [this]; simp
  · have : ⌈x⌉ ≤ 0 := by rw [Int.ceil_le]; exact_mod_cast h
    exact this

theorem percentile_index_zero (n : Nat) : percentile_index n 0 = 0 := by
  simp [percentile_index, to_float, round_float_zero, float_to_int]

theorem percentile_index_nonneg (n : Nat) (p : ℚ) (h : 0 ≤ p) : 0 ≤ percentile_index n p := by
  have h1 : 0 ≤ to_float (n : ℚ) := round_float_nonneg _ _ _ (Nat.cast_nonneg n)
  have h2 : 0 ≤ to_float (to_float (n : ℚ) * p) := round_float_nonneg _ _ _ (mul_nonneg h1 h)
  unfold percentile_index
  rw [float_to_int_of_nonneg _ h2]
  exact Int.floor_nonneg.mpr h2

/-- For a `float` percentile in `[0, 1)` the rounded product stays below the size:
the offset lies inside a non-empty vector. -/
theorem percentile_index_lt (n : Nat) (p : ℚ) (hn : 0 < n) (hf : to_float p = p)
    (h0 : 0 ≤ p) (h1 : p < 1) :
    0 ≤ percentile_index n p ∧ percentile_index n p < (n : Int) := by
  obtain ⟨M, q, hq23, hM1, hM2, hN, hlo1, -, hlo, -, -⟩ := to_float_natCast_spec n hn
  have hp := float_le_of_lt_one p hf h0 h1
  have ha := two_zpow_pos q
  have hMq1 : (8388608 : ℚ) ≤ (M : ℚ) := by exact_mod_cast hM1
  have hMq2 : (M : ℚ) ≤ 16777216 := by exact_mod_cast hM2
  have hn1 : ((M : ℚ) - 1 / 2) * 2 ^ q ≤ (n : ℚ) := by
    have := mul_le_mul_of_nonneg_right hlo1 ha.le
    rwa [div_mul_cancel₀ _ ha.ne'] at this
  have hn2 : (8388608 : ℚ) * 2 ^ q ≤ (n : ℚ) := by
    have := mul_le_mul_of_nonneg_right hlo ha.le
    rw [div_mul_cancel₀ _ ha.ne'] at this
    norm_num at this
    exact this
  have hy0 : 0 ≤ to_float (n : ℚ) * p := by
    rw [hN]; exact mul_nonneg (mul_nonneg (by linarith) ha.le) h0
  have hyle : to_float (n : ℚ) * p ≤ ((M : ℚ) - (M : ℚ) / 16777216) * 2 ^ q := by
    rw [hN]
    have : (M : ℚ) * 2 ^ q * p ≤ (M : ℚ) * 2 ^ q * (1 - 1 / 2 ^ 24) :=
      mul_le_mul_of_nonneg_left hp (mul_nonneg (by linarith) ha.le)
    calc (M : ℚ) * 2 ^ q * p ≤ (M : ℚ) * 2 ^ q * (1 - 1 / 2 ^ 24) := this
      _ = ((M : ℚ) - (M : ℚ) / 16777216) * 2 ^ q := by norm_num; ring
  have key : to_float (to_float (n : ℚ) * p) < (n : ℚ) := by
    rcases eq_or_lt_of_le hy0 with hy | hy
    · rw [← hy]
      unfold to_float
      rw [round_float_zero]
      exact_mod_cast hn
    generalize to_float (n : ℚ) * p = y at hy hyle
    unfold to_float
    by_cases hc1 : M = 2 ^ 24
    · -- the size was rounded up to a power of two
      have hMv : (M : ℚ) = 16777216 := by rw [hc1]; norm_num
      have hb := round_float_le 24 (-149) y (2 ^ 24 - 1) q hy (by norm_num) (by omega)
        (by rw [hMv] at hyle; push_cast; norm_num at hyle ⊢; linarith)
      rw [hMv] at hn1
      push_cast at hb
      linarith
    by_cases hc2 : M = 2 ^ 23
    · have hMv : (M : ℚ) = 8388608 := by rw [hc2]; norm_num
      have hhalf : (2 : ℚ) ^ (q - 1) = 2 ^ q / 2 := by
        rw [zpow_sub₀ (by norm_num)]; norm_num
      have hb := round_float_le 24 (-149) y (2 ^ 24 - 1) (q - 1) hy (by norm_num) (by omega)
        (by rw [hMv] at hyle; rw [hhalf]; push_cast; norm_num at hyle ⊢; linarith)
      rw [hhalf] at hb
      push_cast at hb
      linarith
    · have hM3 : (8388608 : ℚ) + 1 ≤ (M : ℚ) := by
        have : (2 : Int) ^ 23 + 1 ≤ M := by omega
        exact_mod_cast this
      have hM4 : (M : ℚ) < 16777216 := by
        have : M < 2 ^ 24 := by omega
        exact_mod_cast this
      have hb : round_float 24 (-149) y ≤ ((M : ℚ) - 1) * 2 ^ q := by
        by_cases hlow : y < 8388608 * 2 ^ q
        · have := round_float_le 24 (-149) y (2 ^ 23) q hy (by norm_num) (by omega)
            (by push_cast; linarith)
          push_cast at this
          nlinarith
        · push_neg at hlow
          have e1 : (2 : ℚ) ^ (q + 23) ≤ |y| := by
            rw [abs_of_pos hy, zpow_add₀ (by norm_num), mul_comm]
            norm_num
            linarith
          have e2 : |y| < (2 : ℚ) ^ (q + 23 + 1) := by
            rw [abs_of_pos hy, add_assoc, zpow_add₀ (by norm_num), mul_comm]
            norm_num
            nlinarith
          have hq : float_quantum 24 (-149) y = q := by
            unfold float_quantum
            rw [log_two_eq |y| (q + 23) e1 e2, max_eq_left (by push_cast; omega)]
            push_cast; ring
          unfold round_float
          rw [hq]
          have hdiv : y / 2 ^ q < ((M - 1 : Int) : ℚ) + 1 / 2 := by
            rw [div_lt_iff₀ ha]
            push_cast
            nlinarith
          have := round_half_even_le_of_lt _ _ hdiv
          have h3 : (round_half_even (y / 2 ^ q) : ℚ) ≤ (M : ℚ) - 1 := by exact_mod_cast this
          exact mul_le_mul_of_nonneg_right h3 ha.le
      nlinarith
  have hnn : 0 ≤ to_float (to_float (n : ℚ) * p) := round_float_nonneg _ _ _ hy0
  unfold percentile_index
  rw [float_to_int_of_nonneg _ hnn]
  exact ⟨Int.floor_nonneg.mpr hnn, Int.floor_lt.mpr (by exact_mod_cast key)⟩

/-- For a `float` percentile above `1` the rounded product is at least the size: the
offset lies outside the vector. -/
theorem percentile_index_ge (n : Nat) (p : ℚ) (hn : 0 < n) (hf : to_float p = p)
    (h1 : 1 < p) : (n : Int) ≤ percentile_index n p := by
  obtain ⟨M, q, hq23, hM1, hM2, hN, -, hhi1, -, hhi, -⟩ := to_float_natCast_spec n hn
  have hp := float_ge_of_one_lt p hf h1
  have ha := two_zpow_pos q
  have hMq1 : (8388608 : ℚ) ≤ (M : ℚ) := by exact_mod_cast hM1
  have hMq2 : (M : ℚ) ≤ 16777216 := by exact_mod_cast hM2
  have hn1 : (n : ℚ) ≤ ((M : ℚ) + 1 / 2) * 2 ^ q := by
    have := mul_le_mul_of_nonneg_right hhi1 ha.le
    rwa [div_mul_cancel₀ _ ha.ne'] at this
  have hn2 : (n : ℚ) ≤ 16777216 * 2 ^ q := by
    have := mul_le_mul_of_nonneg_right hhi.le ha.le
    rw [div_mul_cancel₀ _ ha.ne'] at this
    norm_num at this
    exact this
  have hyge : ((M : ℚ) + (M : ℚ) / 8388608) * 2 ^ q ≤ to_float (n : ℚ) * p := by
    rw [hN]
    have : (M : ℚ) * 2 ^ q * (1 + 1 / 2 ^ 23) ≤ (M : ℚ) * 2 ^ q * p :=
      mul_le_mul_of_nonneg_left hp (mul_nonneg (by linarith) ha.le)
    calc ((M : ℚ) + (M : ℚ) / 8388608) * 2 ^ q = (M : ℚ) * 2 ^ q * (1 + 1 / 2 ^ 23) := by
          norm_num; ring
      _ ≤ (M : ℚ) * 2 ^ q * p := this
  have key : (n : ℚ) ≤ to_float (to_float (n : ℚ) * p) := by
    generalize to_float (n : ℚ) * p = y at hyge
    unfold to_float
    by_cases hc1 : M = 2 ^ 24
    · have hMv : (M : ℚ) = 16777216 := by rw [hc1]; norm_num
      rw [hMv] at hyge
      have hb := le_round_float 24 (-149) y (2 ^ 24) q (by norm_num) (by norm_num)
        (by norm_num) (by omega) (by push_cast; nlinarith)
      push_cast at hb
      linarith
    · have hM4 : (M : ℚ) + 1 ≤ 16777216 := by
        have : M + 1 ≤ 2 ^ 24 := by omega
        exact_mod_cast this
      have hb := le_round_float 24 (-149) y (M + 1) q (by norm_num) (by omega) (by omega)
        (by omega) (by push_cast; nlinarith)
      push_cast at hb
      nlinarith
  have hnn : 0 ≤ to_float (to_float (n : ℚ) * p) :=
    le_trans (Nat.cast_nonneg n) key
  unfold percentile_index
  rw [float_to_int_of_nonneg _ hnn]
  exact Int.le_floor.mpr (by exact_mod_cast key)

/-- A size up to `2 ^ 24` is a `float`. -/
theorem to_float_natCast (n : Nat) (h : n ≤ 2 ^ 24) : to_float (n : ℚ) = (n : ℚ) := by
  rcases Nat.eq_zero_or_pos n with h0 | h0
  · subst h0; simp [to_float, round_float_zero]
  rcases Nat.lt_or_ge n (2 ^ 24) with h1 | h1
  · have := round_float_of_format 24 (-149) (n : Int) 0 (by norm_num) (by exact_mod_cast h0)
      (by exact_mod_cast h1) (by norm_num)
    simpa [to_float] using this
  · have hn : n = 2 ^ 24 := le_antisymm h h1
    subst hn
    have := round_float_of_format 24 (-149) (2 ^ 23) 1 (by norm_num) (by norm_num)
      (by norm_num) (by norm_num)
    unfold to_float
    norm_num at this ⊢
    exact this

/-- With percentile `1.0` the offset is the size, for every size up to `2 ^ 24`. -/
theorem percentile_index_one (n : Nat) (h : n ≤ 2 ^ 24) : percentile_index n 1 = (n : Int) := by
  unfold percentile_index
  rw [mul_one, to_float_natCast n h, to_float_natCast n h]
  exact float_to_int_intCast n

/-- Beyond `2 ^ 24` a size need not be a `float`: `2 ^ 24 + 1` is converted to
`2 ^ 24`, and with percentile `1.0` the offset is then the last position. -/
theorem percentile_index_one_rounds_down :
    percentile_index (2 ^ 24 + 1) 1 = 2 ^ 24 := by
  have hq : float_quantum 24 (-149) (((2 ^ 24 + 1 : Nat) : ℚ)) = 1 := by
    unfold float_quantum
    rw [log_two_eq _ 24 (by norm_num [abs_of_pos]) (by norm_num [abs_of_pos])]
    norm_num
  have hfl : ⌊(((2 ^ 24 + 1 : Nat) : ℚ)) / 2 ^ (1 : Int)⌋ = 8388608 := by
    rw [Int.floor_eq_iff]; norm_num
  have hr : round_half_even ((((2 ^ 24 + 1 : Nat) : ℚ)) / 2 ^ (1 : Int)) = 8388608 := by
    unfold round_half_even
    rw [hfl]
    norm_num
  have h1 : to_float (((2 ^ 24 + 1 : Nat) : ℚ)) = ((2 ^ 24 : Nat) : ℚ) := by
    unfold to_float round_float
    rw [hq, hr]
    norm_num
  unfold percentile_index
  rw [mul_one, h1, to_float_natCast _ (le_refl _)]
  exact_mod_cast float_to_int_intCast ((2 ^ 24 : Nat) : Int)

theorem to_float_ten_nine_tenths :
    to_float (to_float ((10 : Nat) : ℚ) * (7549747 / 8388608)) = 9 := by
  rw [to_float_natCast 10 (by norm_num)]
  have := round_float_eq 24 (-149) (((10 : Nat) : ℚ) * (7549747 / 8388608)) 3 9437184
    (by norm_num [abs_of_pos]) (by norm_num [abs_of_pos]) (by norm_num) (by norm_num)
  unfold to_float
  rw [this]
  norm_num

theorem percentile_index_ten_nine_tenths : percentile_index 10 (7549747 / 8388608) = 9 := by
  unfold percentile_index
  rw [to_float_ten_nine_tenths]
  exact float_to_int_intCast 9

theorem percentile_index_twenty_five :
    percentile_index 25 (-5368709 / 134217728) = -1 := by
  unfold percentile_index
  rw [to_float_natCast 25 (by norm_num)]
  have := round_float_eq 24 (-149) (((25 : Nat) : ℚ) * (-5368709 / 134217728)) (-1) (-16777216)
    (by norm_num [abs_of_neg]) (by norm_num [abs_of_neg]) (by norm_num) (by norm_num)
  unfold to_float
  rw [this]
  have h : ((-16777216 : Int) : ℚ) * 2 ^ max ((-1 : Int) + 1 - ((24 : Nat) : Int)) (-149)
      = ((-1 : Int) : ℚ) := by norm_num
  rw [h]
  exact float_to_int_intCast (-1)

theorem to_double_three_tenths :
    to_double ((5404319552844595 / 18014398509481984 : ℚ) * 100) = 30 := by
  have := round_float_eq 53 (-1074) ((5404319552844595 / 18014398509481984 : ℚ) * 100) 4
    8444249301319680
    (by norm_num [abs_of_pos]) (by norm_num [abs_of_pos]) (by norm_num) (by norm_num)
  unfold to_double
  rw [this]
  norm_num

/-! ## Percentile selection -/

/-- With an offset inside the vector, the selection reads position `i` of the sorted
arrangement. -/
theorem select_percentile_of_index (v : List Int) (p : ℚ) (i : Nat)
    (hi : percentile_index v.length p = (i : Int)) (hlt : i < v.length) :
    ∃ z, (v.insertionSort (· ≤ ·))[i]? = some z ∧
      select_percentile v p = some (z, v.insertionSort (· ≤ ·)) := by
  have hlen : (v.insertionSort (· ≤ ·)).length = v.length := List.length_insertionSort _ _
  have hlt2 : i < (v.insertionSort (· ≤ ·)).length := by omega
  refine ⟨(v.insertionSort (· ≤ ·))[i], List.getElem?_eq_getElem hlt2, ?_⟩
  have h1 : nth_element v (percentile_index v.length p) = some (v.insertionSort (· ≤ ·)) := by
    unfold nth_element
    rw [hi]
    have : (0 : Int) ≤ (i : Int) ∧ (i : Int) ≤ (v.length : Int) := by omega
    rw [if_pos this]
    have : (i : Int) < (v.length : Int) := by omega
    rw [if_pos this]
  unfold select_percentile
  rw [h1]
  simp only [hlen, hi, vec_at]
  simp [List.getElem?_eq_getElem hlt2]

/-- With an offset outside `0 .. size - 1` the selection is undefined. -/
theorem select_percentile_out_of_range (v : List Int) (p : ℚ)
    (h : percentile_index v.length p < 0 ∨ (v.length : Int) ≤ percentile_index v.length p) :
    select_percentile v p = none := by
  unfold select_percentile nth_element
  by_cases hr : 0 ≤ percentile_index v.length p ∧ percentile_index v.length p ≤ (v.length : Int)
  · have heq : percentile_index v.length p = (v.length : Int) := by omega
    rw [if_pos hr, heq]
    simp [vec_at, heq]
  · rw [if_neg hr]

theorem sorted_head_le (T : List Int) (hs : T.Sorted (· ≤ ·)) (z : Int)
    (hz : T[0]? = some z) : ∀ x ∈ T, z ≤ x := by
  cases T with
  | nil => simp at hz
  | cons a t =>
    simp at hz
    subst hz
    intro x hx
    rcases List.mem_cons.mp hx with h | h
    · omega
    · exact List.rel_of_sorted_cons hs x h

theorem sorted_last_ge (T : List Int) (hs : T.Sorted (· ≤ ·)) (z : Int)
    (hz : T[T.length - 1]? = some z) : ∀ x ∈ T, x ≤ z := by
  intro x hx
  obtain ⟨j, hj, rfl⟩ := List.getElem_of_mem hx
  have hlt : T.length - 1 < T.length := by omega
  rw [List.getElem?_eq_getElem hlt] at hz
  injection hz with hz
  subst hz
  have := List.pairwise_iff_getElem.mp hs
  rcases Nat.lt_or_ge j (T.length - 1) with h | h
  · exact this j (T.length - 1) hj hlt h
  · have : j = T.length - 1 := by omega
    subst this
    exact le_refl _

/-- The order statistic read by `select_percentile` for an offset inside the vector,
with the two end cases. -/
theorem select_percentile_order_statistic (S : List Int) (p : ℚ)
    (h0 : 0 ≤ percentile_index S.length p)
    (hlt : percentile_index S.length p < (S.length : Int)) :
    ∃ (T : List Int) (z : Int), T.Sorted (· ≤ ·) ∧ T.Perm S ∧
      T[(percentile_index S.length p).toNat]? = some z ∧
      select_percentile S p = some (z, T) ∧
      (p = 0 → z ∈ S ∧ ∀ x ∈ S, z ≤ x) ∧
      (percentile_index S.length p = (S.length : Int) - 1 → z ∈ S ∧ ∀ x ∈ S, x ≤ z) := by
  have hidx : percentile_index S.length p
      = (((percentile_index S.length p).toNat : Nat) : Int) := (Int.toNat_of_nonneg h0).symm
  have hlt2 : (percentile_index S.length p).toNat < S.length := by omega
  obtain ⟨z, hz, hsel⟩ := select_percentile_of_index S p _ hidx hlt2
  have hperm : (S.insertionSort (· ≤ ·)).Perm S := List.perm_insertionSort _ S
  have hsorted : (S.insertionSort (· ≤ ·)).Sorted (· ≤ ·) := List.sorted_insertionSort _ S
  have hmem : z ∈ S := hperm.subset (List.getElem?_mem hz)
  have hlen : (S.insertionSort (· ≤ ·)).length = S.length := List.length_insertionSort _ _
  refine ⟨S.insertionSort (· ≤ ·), z, hsorted, hperm, hz, hsel, ?_, ?_⟩
  · intro hp
    subst hp
    simp only [percentile_index_zero, Int.toNat_zero] at hz
    exact ⟨hmem, fun x hx => sorted_head_le _ hsorted z hz x (hperm.symm.subset hx)⟩
  · intro hk
    have hk2 : (percentile_index S.length p).toNat = (S.insertionSort (· ≤ ·)).length - 1 := by
      rw [hlen]; omega
    rw [hk2] at hz
    exact ⟨hmem, fun x hx => sorted_last_ge _ hsorted z hz x (hperm.symm.subset hx)⟩

/-- The `float` values `0.9f` and `0.1f` are numbers of the format, inside `[0, 1)`. -/
theorem sample_config_percentiles :
    (to_float sample_config.heightref_base = sample_config.heightref_base ∧
      0 ≤ sample_config.heightref_base ∧ sample_config.heightref_base < 1) ∧
    (to_float sample_config.heightref_top = sample_config.heightref_top ∧
      0 ≤ sample_config.heightref_top ∧ sample_config.heightref_top < 1) := by
  have hb := round_float_of_format 24 (-149) 13421773 (-27) (by norm_num) (by norm_num)
    (by norm_num) (by norm_num)
  have ht := round_float_of_format 24 (-149) 7549747 (-23) (by norm_num) (by norm_num)
    (by norm_num) (by norm_num)
  have eb : ((13421773 : Int) : ℚ) * 2 ^ (-27 : Int) = 13421773 / 134217728 := by norm_num
  have et : ((7549747 : Int) : ℚ) * 2 ^ (-23 : Int) = 7549747 / 8388608 := by norm_num
  rw [eb] at hb
  rw [et] at ht
  refine ⟨⟨hb, ?_, ?_⟩, ⟨ht, ?_, ?_⟩⟩ <;> simp only [sample_config] <;> norm_num

/-- The selection on the ten samples at `0.9f`: the `float` product `10 * 0.9f` is
`9.0`, the last position is read. -/
theorem select_percentile_ten_samples :
    select_percentile ten_samples (7549747 / 8388608) = some (100, ten_samples) := by
  obtain ⟨z, hz, hsel⟩ := select_percentile_of_index ten_samples (7549747 / 8388608) 9
    percentile_index_ten_nine_tenths (by decide)
  have hsort : ten_samples.insertionSort (· ≤ ·) = ten_samples := by decide
  rw [hsort] at hz hsel
  have hz100 : z = 100 := by
    have : ten_samples[9]? = some 100 := by decide
    rw [this] at hz
    injection hz with hz
    exact hz.symm
  rw [hsel, hz100]

/-- C1, the claim fails for the exact product: on the ten samples 10, 20, ..., 100 with
the `float` percentile `0.9f = 7549747 / 8388608` the conditions of the claim hold,
`floor(10 * p)` is `8` and position `8` of the sorted samples holds `90`; but the
`float` product `10 * p` rounds to `9.0`, and both queries return `100`, the sample at
position `9`. -/
theorem percentile_float_product_rounds_up :
    to_float (7549747 / 8388608) = 7549747 / 8388608 ∧
    ⌊((ten_samples.length : Nat) : ℚ) * (7549747 / 8388608)⌋ = 8 ∧
    (ten_samples.insertionSort (· ≤ ·))[8]? = some 90 ∧
    (Building.get_height_ground_at_percentile
      { blank_building with zvaluesground := ten_samples } (7549747 / 8388608)).map Prod.fst
        = some 100 ∧
    (Building.get_height_roof_at_percentile
      { blank_building with zvaluesinside := ten_samples } (7549747 / 8388608)).map Prod.fst
        = some 100 := by
  refine ⟨sample_config_percentiles.2.1, ?_, by decide, ?_, ?_⟩
  · rw [Int.floor_eq_iff]
    simp only [ten_samples, List.length_cons, List.length_nil]
    norm_num
  · have he : ten_samples.isEmpty = false := by decide
    simp [Building.get_height_ground_at_percentile, he, select_percentile_ten_samples]
  · have he : ten_samples.isEmpty = false := by decide
    simp [Building.get_height_roof_at_percentile, he, select_percentile_ten_samples]

/-- C1 as amended: the offset is the truncated `float` product `size() * p` (the size
converted to `float`, the product rounded to the nearest `float`), which need not be
`floor(|S| * p)`. For a non-empty sample sequence `S` and a percentile `p` with `0 ≤ p`
whose offset `percentile_index |S| p` is below `|S|`, `get_height_ground_at_percentile`
(on ground samples `S`) and `get_height_roof_at_percentile` (on roof/inside samples
`S`) return the element at that offset of `S` sorted ascending; `p = 0` gives the
minimum of `S` and an offset of `|S| - 1` the maximum of `S`. -/
theorem percentile_returns_order_statistic (b : Building) (S : List Int) (p : ℚ)
    (hne : S ≠ []) (h0 : 0 ≤ p) (hlt : percentile_index S.length p < (S.length : Int)) :
    ∃ (T : List Int) (z : Int), T.Sorted (· ≤ ·) ∧ T.Perm S ∧
      T[(percentile_index S.length p).toNat]? = some z ∧
      (Building.get_height_ground_at_percentile { b with zvaluesground := S } p).map Prod.fst
        = some z ∧
      (Building.get_height_roof_at_percentile { b with zvaluesinside := S } p).map Prod.fst
        = some z ∧
      (p = 0 → z ∈ S ∧ ∀ x ∈ S, z ≤ x) ∧
      (percentile_index S.length p = (S.length : Int) - 1 → z ∈ S ∧ ∀ x ∈ S, x ≤ z) := by
  obtain ⟨T, z, hs, hp, hz, hsel, hmin, hmax⟩ :=
    select_percentile_order_statistic S p (percentile_index_nonneg _ p h0) hlt
  have hemp : S.isEmpty = false := by
    cases S with
    | nil => exact absurd rfl hne
    | cons a t => rfl
  refine ⟨T, z, hs, hp, hz, ?_, ?_, hmin, hmax⟩
  · simp [Building.get_height_ground_at_percentile, hemp, hsel]
  · simp [Building.get_height_roof_at_percentile, hemp, hsel]

theorem percentile_returns_order_statistic_witness :
    ten_samples ≠ [] ∧ (0 : ℚ) ≤ 7549747 / 8388608 ∧
    percentile_index ten_samples.length (7549747 / 8388608) < (ten_samples.length : Int) ∧
    ∃ (T : List Int) (z : Int), T.Sorted (· ≤ ·) ∧ T.Perm ten_samples ∧
      T[(percentile_index ten_samples.length (7549747 / 8388608)).toNat]? = some z ∧
      (Building.get_height_ground_at_percentile
        { blank_building with zvaluesground := ten_samples } (7549747 / 8388608)).map Prod.fst
          = some z ∧
      (Building.get_height_roof_at_percentile
        { blank_building with zvaluesinside := ten_samples } (7549747 / 8388608)).map Prod.fst
          = some z ∧
      ((7549747 / 8388608 : ℚ) = 0 → z ∈ ten_samples ∧ ∀ x ∈ ten_samples, z ≤ x) ∧
      (percentile_index ten_samples.length (7549747 / 8388608)
          = (ten_samples.length : Int) - 1 →
        z ∈ ten_samples ∧ ∀ x ∈ ten_samples, x ≤ z) :=
  have hi : percentile_index ten_samples.length (7549747 / 8388608) = 9 :=
    percentile_index_ten_nine_tenths
  have h0 : (0 : ℚ) ≤ 7549747 / 8388608 := by norm_num
  have hlt : percentile_index ten_samples.length (7549747 / 8388608)
      < (ten_samples.length : Int) := by
    rw [hi]; decide
  ⟨by decide, h0, hlt,
    percentile_returns_order_statistic blank_building ten_samples (7549747 / 8388608)
      (by decide) h0 hlt⟩

theorem select_percentile_one (a : Int) (S : List Int) (hlen : (a :: S).length ≤ 2 ^ 24) :
    select_percentile (a :: S) 1 = none :=
  select_percentile_out_of_range _ _ (Or.inr (by rw [percentile_index_one _ hlen]))

/-- C2: with percentile `1.0` on a non-empty sample sequence of at most `2 ^ 24`
samples (every such size is a `float`, so the product `size() * 1.0f` is the size;
a larger size can be rounded down by its conversion, `2 ^ 24 + 1` to `2 ^ 24`) the
offset `size() * percentile` is `size()`: `std::nth_element` does nothing and the read
`v[size()]` is past the end. Neither percentile query returns a value, and `lift` with
`heightref_base = 1.0` sets no base height, from the ground samples or, when there
are none, from the roof/inside samples. -/
theorem percentile_one_reads_past_end (cfg : Config) (b : Building) (a : Int)
    (S : List Int) (hlen : (a :: S).length ≤ 2 ^ 24) :
    Building.get_height_ground_at_percentile { b with zvaluesground := a :: S } 1 = none ∧
    Building.get_height_roof_at_percentile { b with zvaluesinside := a :: S } 1 = none ∧
    Building.lift { cfg with heightref_base := 1 } { b with zvaluesground := a :: S } = none ∧
    Building.lift { cfg with heightref_base := 1 }
      { b with zvaluesground := [], zvaluesinside := a :: S } = none := by
  have h1 := select_percentile_one a S hlen
  refine ⟨?_, ?_, ?_, ?_⟩
  · simp [Building.get_height_ground_at_percentile, h1]
  · simp [Building.get_height_roof_at_percentile, h1]
  · simp [Building.lift, Building.lift_base, h1]
  · simp [Building.lift, Building.lift_base, h1]

theorem percentile_one_reads_past_end_witness :
    ([10, 20, 30] : List Int).length ≤ 2 ^ 24 ∧
    Building.get_height_ground_at_percentile
      { blank_building with zvaluesground := [10, 20, 30] } 1 = none ∧
    Building.get_height_roof_at_percentile
      { blank_building with zvaluesinside := [10, 20, 30] } 1 = none ∧
    Building.lift { sample_config with heightref_base := 1 }
      { blank_building with zvaluesground := [10, 20, 30] } = none ∧
    Building.lift { sample_config with heightref_base := 1 }
      { blank_building with zvaluesground := [], zvaluesinside := [10, 20, 30] } = none :=
  ⟨by decide,
    percentile_one_reads_past_end sample_config blank_building 10 [20, 30] (by decide)⟩

/-- C7: the empty-sample condition yields the sentinel. For every percentile,
`get_height_ground_at_percentile` returns `-9999` when the ground samples are empty
and `get_height_roof_at_percentile` returns `-9999` when the roof/inside samples are
empty, whatever the other fields hold and leaving the object as it is; `get_RMSE`
returns `-9999` when there are no distance samples. -/
theorem empty_samples_yield_sentinel (b : Building) (p : ℚ) :
    Building.get_height_ground_at_percentile { b with zvaluesground := [] } p
      = some (-9999, { b with zvaluesground := [] }) ∧
    Building.get_height_roof_at_percentile { b with zvaluesinside := [] } p
      = some (-9999, { b with zvaluesinside := [] }) ∧
    Building.get_RMSE { b with distancesinside := [] } = some (-9999) := by
  refine ⟨?_, ?_, ?_⟩
  · simp [Building.get_height_ground_at_percentile]
  · simp [Building.get_height_roof_at_percentile]
  · simp [Building.get_RMSE]

theorem float_to_int_neg (x : ℚ) (h : x ≤ -1) : float_to_int x < 0 := by
  unfold float_to_int
  rw [if_neg (by linarith)]
  have : ⌈x⌉ ≤ -1 := by rw [Int.ceil_le]; exact_mod_cast h
  omega

theorem float_to_int_small_neg (x : ℚ) (h1 : -1 < x) (h2 : x ≤ 0) : float_to_int x = 0 := by
  rcases eq_or_lt_of_le h2 with h | h
  · rw [h]; simp [float_to_int]
  · unfold float_to_int
    rw [if_neg (by linarith), Int.ceil_eq_iff]
    constructor
    · push_cast; linarith
    · push_cast; linarith

theorem to_float_two : to_float 2 = 2 := by
  have := round_float_of_format 24 (-149) 1 1 (by norm_num) (by norm_num) (by norm_num)
    (by norm_num)
  unfold to_float
  norm_num at this ⊢
  exact this

theorem percentile_index_three_neg_quarter : percentile_index 3 (-1 / 4) = 0 := by
  unfold percentile_index
  rw [to_float_natCast 3 (by norm_num)]
  have := round_float_eq 24 (-149) (((3 : Nat) : ℚ) * (-1 / 4)) (-1) (-12582912)
    (by norm_num [abs_of_neg]) (by norm_num [abs_of_neg]) (by norm_num) (by norm_num)
  unfold to_float
  rw [this]
  apply float_to_int_small_neg <;> norm_num

/-- C3, the claim fails: on the samples `[10, 20, 30]` percentile `2` makes both
queries read outside the vector, and percentile `-1/4` (offset `-0.75`, truncated
to `0`) makes them return the sample `10`, not the sentinel; on 25 samples the
percentile `-0.04f = -5368709 / 134217728` gives a `float` product that rounds to
`-1.0`, and both queries read at offset `-1`, outside the vector. -/
theorem out_of_range_percentile_not_guarded :
    Building.get_height_ground_at_percentile
      { blank_building with zvaluesground := [10, 20, 30] } 2 = none ∧
    Building.get_height_roof_at_percentile
      { blank_building with zvaluesinside := [10, 20, 30] } 2 = none ∧
    (Building.get_height_ground_at_percentile
      { blank_building with zvaluesground := [10, 20, 30] } (-1 / 4)).map Prod.fst = some 10 ∧
    (Building.get_height_roof_at_percentile
      { blank_building with zvaluesinside := [10, 20, 30] } (-1 / 4)).map Prod.fst = some 10 ∧
    Building.get_height_ground_at_percentile
      { blank_building with zvaluesground := List.replicate 25 7 }
      (-5368709 / 134217728) = none ∧
    Building.get_height_roof_at_percentile
      { blank_building with zvaluesinside := List.replicate 25 7 }
      (-5368709 / 134217728) = none := by
  have h2 : select_percentile [10, 20, 30] 2 = none :=
    select_percentile_out_of_range _ _
      (Or.inr (percentile_index_ge _ 2 (by decide) to_float_two (by norm_num)))
  have hi : percentile_index ([10, 20, 30] : List Int).length (-1 / 4) = ((0 : Nat) : Int) :=
    percentile_index_three_neg_quarter
  obtain ⟨z, hz, hsel⟩ := select_percentile_of_index [10, 20, 30] (-1 / 4) 0 hi (by decide)
  have hz10 : z = 10 := by
    have : (([10, 20, 30] : List Int).insertionSort (· ≤ ·))[0]? = some 10 := by decide
    rw [this] at hz
    injection hz with hz
    exact hz.symm
  subst hz10
  have h25 : select_percentile (List.replicate 25 7) (-5368709 / 134217728) = none := by
    apply select_percentile_out_of_range
    left
    rw [List.length_replicate, percentile_index_twenty_five]
    decide
  have he : (List.replicate 25 (7 : Int)).isEmpty = false := by decide
  refine ⟨?_, ?_, ?_, ?_, ?_, ?_⟩
  · simp [Building.get_height_ground_at_percentile, blank_building, h2]
  · simp [Building.get_height_roof_at_percentile, blank_building, h2]
  · simp [Building.get_height_ground_at_percentile, blank_building, hsel]
  · simp [Building.get_height_roof_at_percentile, blank_building, hsel]
  · simp only [Building.get_height_ground_at_percentile, he, h25, if_true]
  · simp only [Building.get_height_roof_at_percentile, he, h25, if_true]

/-- The selection on a non-empty vector when the offset truncates to `0`: the
minimum is read. -/
theorem select_percentile_index_zero (a : Int) (S : List Int) (p : ℚ)
    (hi : percentile_index (a :: S).length p = 0) :
    ∃ z w, select_percentile (a :: S) p = some (z, w) ∧ z ∈ a :: S ∧ ∀ x ∈ a :: S, z ≤ x := by
  obtain ⟨z, hz, hsel⟩ := select_percentile_of_index (a :: S) p 0 (by simpa using hi) (by simp)
  have hperm : ((a :: S).insertionSort (· ≤ ·)).Perm (a :: S) := List.perm_insertionSort _ _
  exact ⟨z, _, hsel, hperm.subset (List.getElem?_mem hz), fun x hx =>
    sorted_head_le _ (List.sorted_insertionSort _ _) z hz x (hperm.symm.subset hx)⟩

/-- C3 as amended: there is no range guard. For a `float` percentile `p < 0` or
`p > 1` both queries return `-9999` without touching the samples when the respective
sequence is empty. On a non-empty sequence the offset, the truncated `float` product
`size() * p`, is used as it is, so either the access is outside the vector and no
value is returned (exactly when `p > 1` or the rounded product is `-1` or less), or
`p < 0` with a rounded product above `-1`, the offset truncates to `0` and the
minimum sample is returned. -/
theorem out_of_range_percentile_behaviour (b : Building) (p : ℚ) (hf : to_float p = p)
    (hp : p < 0 ∨ 1 < p) :
    Building.get_height_ground_at_percentile { b with zvaluesground := [] } p
      = some (-9999, { b with zvaluesground := [] }) ∧
    Building.get_height_roof_at_percentile { b with zvaluesinside := [] } p
      = some (-9999, { b with zvaluesinside := [] }) ∧
    ∀ (a : Int) (S : List Int),
      ((1 < p ∨ to_float (to_float (((a :: S).length : Nat) : ℚ) * p) ≤ -1) ∧
        Building.get_height_ground_at_percentile { b with zvaluesground := a :: S } p = none ∧
        Building.get_height_roof_at_percentile { b with zvaluesinside := a :: S } p = none) ∨
      ((p < 0 ∧ -1 < to_float (to_float (((a :: S).length : Nat) : ℚ) * p)) ∧
        ∃ z, z ∈ a :: S ∧ (∀ x ∈ a :: S, z ≤ x) ∧
          (Building.get_height_ground_at_percentile { b with zvaluesground := a :: S } p).map
            Prod.fst = some z ∧
          (Building.get_height_roof_at_percentile { b with zvaluesinside := a :: S } p).map
            Prod.fst = some z) := by
  refine ⟨?_, ?_, ?_⟩
  · simp [Building.get_height_ground_at_percentile]
  · simp [Building.get_height_roof_at_percentile]
  · intro a S
    by_cases h : 1 < p ∨ to_float (to_float (((a :: S).length : Nat) : ℚ) * p) ≤ -1
    · left
      have hsel : select_percentile (a :: S) p = none := by
        apply select_percentile_out_of_range
        rcases h with h | h
        · exact Or.inr (percentile_index_ge _ p (by simp) hf h)
        · exact Or.inl (float_to_int_neg _ h)
      refine ⟨h, ?_, ?_⟩
      · simp [Building.get_height_ground_at_percentile, hsel]
      · simp [Building.get_height_roof_at_percentile, hsel]
    · right
      push_neg at h
      have h2 : p < 0 := by
        rcases hp with hp | hp
        · exact hp
        · exact absurd hp (not_lt.mpr h.1)
      have hN : 0 ≤ to_float (((a :: S).length : Nat) : ℚ) :=
        round_float_nonneg _ _ _ (Nat.cast_nonneg _)
      have hneg : to_float (to_float (((a :: S).length : Nat) : ℚ) * p) ≤ 0 :=
        round_float_nonpos _ _ _ (mul_nonpos_of_nonneg_of_nonpos hN h2.le)
      obtain ⟨z, w, hsel, hmem, hmin⟩ :=
        select_percentile_index_zero a S p (float_to_int_small_neg _ h.2 hneg)
      refine ⟨⟨h2, h.2⟩, z, hmem, hmin, ?_, ?_⟩
      · simp [Building.get_height_ground_at_percentile, hsel]
      · simp [Building.get_height_roof_at_percentile, hsel]

theorem out_of_range_percentile_behaviour_witness :
    to_float 2 = 2 ∧ ((2 : ℚ) < 0 ∨ (1 : ℚ) < 2) ∧
    (Building.get_height_ground_at_percentile { blank_building with zvaluesground := [] } 2
      = some (-9999, { blank_building with zvaluesground := [] }) ∧
    Building.get_height_roof_at_percentile { blank_building with zvaluesinside := [] } 2
      = some (-9999, { blank_building with zvaluesinside := [] }) ∧
    ∀ (a : Int) (S : List Int),
      (((1 : ℚ) < 2 ∨ to_float (to_float (((a :: S).length : Nat) : ℚ) * 2) ≤ -1) ∧
        Building.get_height_ground_at_percentile
          { blank_building with zvaluesground := a :: S } 2 = none ∧
        Building.get_height_roof_at_percentile
          { blank_building with zvaluesinside := a :: S } 2 = none) ∨
      (((2 : ℚ) < 0 ∧ -1 < to_float (to_float (((a :: S).length : Nat) : ℚ) * 2)) ∧
        ∃ z, z ∈ a :: S ∧ (∀ x ∈ a :: S, z ≤ x) ∧
          (Building.get_height_ground_at_percentile
            { blank_building with zvaluesground := a :: S } 2).map Prod.fst = some z ∧
          (Building.get_height_roof_at_percentile
            { blank_building with zvaluesinside := a :: S } 2).map Prod.fst = some z)) :=
  ⟨to_float_two, Or.inr (by norm_num),
    out_of_range_percentile_behaviour blank_building 2 to_float_two (Or.inr (by norm_num))⟩

/-! ## `lift` -/

/-- For a `float` percentile in `[0, 1)` the selection on a non-empty vector returns
the order statistic at its offset and leaves a rearrangement of the vector. -/
theorem select_percentile_valid (S : List Int) (p : ℚ) (hne : S ≠ [])
    (hf : to_float p = p) (h0 : 0 ≤ p) (h1 : p < 1) :
    ∃ (T : List Int) (z : Int), T.Sorted (· ≤ ·) ∧ T.Perm S ∧
      T[(percentile_index S.length p).toNat]? = some z ∧ select_percentile S p = some (z, T) := by
  have hn : 0 < S.length := List.length_pos.mpr hne
  obtain ⟨hi0, hi1⟩ := percentile_index_lt S.length p hn hf h0 h1
  obtain ⟨T, z, hs, hp, hz, hsel, _, _⟩ := select_percentile_order_statistic S p hi0 hi1
  exact ⟨T, z, hs, hp, hz, hsel⟩

theorem isEmpty_eq_false_of_ne_nil {α : Type} (l : List α) (h : l ≠ []) :
    l.isEmpty = false := by
  cases l with
  | nil => exact absurd rfl h
  | cons a t => rfl

/-- The roof part of `lift` returns whenever its percentile is a `float` in `[0, 1)`
or the roof/inside samples are empty; it keeps the base height. -/
theorem lift_percentile_returns (b : Building) (p : ℚ)
    (ht : b.zvaluesinside ≠ [] → to_float p = p ∧ 0 ≤ p ∧ p < 1) :
    ∃ b2, Building.lift_percentile b p = some (true, b2) ∧ b2.height_base = b.height_base := by
  unfold Building.lift_percentile
  by_cases hR : b.zvaluesinside = []
  · simp [hR]
  · obtain ⟨T, z, _, _, _, hsel⟩ :=
      select_percentile_valid _ p hR (ht hR).1 (ht hR).2.1 (ht hR).2.2
    simp [isEmpty_eq_false_of_ne_nil _ hR, hsel]

/-- C4, the claim fails for the exact product, and `lift` has no range guard. With
`heightref_base = 0.9f` and the ten ground samples 10, 20, ..., 100,
`floor(10 * heightref_base)` is `8` and position `8` of the sorted samples holds `90`;
but the `float` product rounds to `9.0` and `lift` sets the base height to `100`, the
sample at position `9`. With `heightref_base = 2` and the ground samples
`[10, 20, 30]` the offset is `6`, outside the vector: no base height is set and `lift`
does not return `true`. -/
theorem lift_base_float_product_rounds_up :
    ⌊((ten_samples.length : Nat) : ℚ) * (7549747 / 8388608)⌋ = 8 ∧
    (ten_samples.insertionSort (· ≤ ·))[8]? = some 90 ∧
    (Building.lift { sample_config with heightref_base := 7549747 / 8388608 }
      { blank_building with zvaluesground := ten_samples }).map
        (fun r => (r.1, r.2.height_base)) = some (true, 100) ∧
    Building.lift { sample_config with heightref_base := 2 }
      { blank_building with zvaluesground := [10, 20, 30] } = none := by
  refine ⟨?_, by decide, ?_, ?_⟩
  · rw [Int.floor_eq_iff]
    simp only [ten_samples, List.length_cons, List.length_nil]
    norm_num
  · have he : ten_samples.isEmpty = false := by decide
    simp [Building.lift, Building.lift_base, Building.lift_percentile, blank_building, he,
      select_percentile_ten_samples]
  · have h2 : select_percentile [10, 20, 30] 2 = none :=
      select_percentile_out_of_range _ _
        (Or.inr (percentile_index_ge _ 2 (by decide) to_float_two (by norm_num)))
    simp [Building.lift, Building.lift_base, blank_building, h2]

/-- The result of `lift` for `float` percentiles in `[0, 1)`: it returns `true`, and
the base height is read from the sorted ground samples, else from the sorted
roof/inside samples, else it is `-9999`. -/
theorem lift_returns_base (cfg : Config) (b : Building) (G R : List Int)
    (hb : (G ≠ [] ∨ R ≠ []) → to_float cfg.heightref_base = cfg.heightref_base ∧
      0 ≤ cfg.heightref_base ∧ cfg.heightref_base < 1)
    (ht : R ≠ [] → to_float cfg.heightref_top = cfg.heightref_top ∧
      0 ≤ cfg.heightref_top ∧ cfg.heightref_top < 1) :
    ∃ b2, Building.lift cfg { b with zvaluesground := G, zvaluesinside := R }
        = some (true, b2) ∧
      (G ≠ [] →
        ∃ T : List Int, T.Sorted (· ≤ ·) ∧ T.Perm G ∧
          T[(percentile_index G.length cfg.heightref_base).toNat]? = some b2.height_base) ∧
      (G = [] → R ≠ [] →
        ∃ T : List Int, T.Sorted (· ≤ ·) ∧ T.Perm R ∧
          T[(percentile_index R.length cfg.heightref_base).toNat]? = some b2.height_base) ∧
      (G = [] → R = [] → b2.height_base = -9999) := by
  by_cases hG : G = []
  · by_cases hR : R = []
    · -- no sample at all
      have h1 : Building.lift_base cfg { b with zvaluesground := G, zvaluesinside := R }
          = some { b with zvaluesground := G, zvaluesinside := R, height_base := -9999 } := by
        simp [Building.lift_base, hG, hR]
      obtain ⟨b2, h2, hbase⟩ := lift_percentile_returns
        { b with zvaluesground := G, zvaluesinside := R, height_base := -9999 }
        cfg.heightref_top (fun h => absurd hR h)
      refine ⟨b2, ?_, fun h => absurd hG h, fun _ h => absurd hR h, fun _ _ => hbase⟩
      simp [Building.lift, h1, h2]
    · -- roof/inside samples only
      obtain ⟨T, z, hs, hp, hz, hsel⟩ :=
        select_percentile_valid R cfg.heightref_base hR (hb (Or.inr hR)).1
          (hb (Or.inr hR)).2.1 (hb (Or.inr hR)).2.2
      have h1 : Building.lift_base cfg { b with zvaluesground := G, zvaluesinside := R }
          = some { b with zvaluesground := G, zvaluesinside := T, height_base := z } := by
        simp [Building.lift_base, hG, isEmpty_eq_false_of_ne_nil _ hR, hsel]
      have hTne : T ≠ [] := fun h => hR (by rw [h] at hp; exact List.nil_perm.mp hp)
      obtain ⟨b2, h2, hbase⟩ := lift_percentile_returns
        { b with zvaluesground := G, zvaluesinside := T, height_base := z }
        cfg.heightref_top (fun _ => ht hR)
      refine ⟨b2, ?_, fun h => absurd hG h, fun _ _ => ⟨T, hs, hp, ?_⟩, fun _ h => absurd h hR⟩
      · simp [Building.lift, h1, h2]
      · rw [hz, hbase]
  · -- ground samples
    obtain ⟨T, z, hs, hp, hz, hsel⟩ :=
      select_percentile_valid G cfg.heightref_base hG (hb (Or.inl hG)).1
        (hb (Or.inl hG)).2.1 (hb (Or.inl hG)).2.2
    have h1 : Building.lift_base cfg { b with zvaluesground := G, zvaluesinside := R }
        = some { b with zvaluesground := T, zvaluesinside := R, height_base := z } := by
      simp [Building.lift_base, isEmpty_eq_false_of_ne_nil _ hG, hsel]
    obtain ⟨b2, h2, hbase⟩ := lift_percentile_returns
      { b with zvaluesground := T, zvaluesinside := R, height_base := z } cfg.heightref_top ht
    refine ⟨b2, ?_, fun _ => ⟨T, hs, hp, ?_⟩, fun h => absurd h hG, fun h => absurd h hG⟩
    · simp [Building.lift, h1, h2]
    · rw [hz, hbase]

/-- C4 as amended: the offset is the truncated `float` product, not `floor` of the
exact one, and it must lie inside the vector. When the percentiles that are used are
`float` values in `[0, 1)` (`heightref_base` if there is any sample, `heightref_top`
if there is a roof/inside sample), `lift` returns `true` and the base height is the
element at offset `percentile_index |G| heightref_base` of the sorted ground samples
`G` when `G` is non-empty, else the element at offset `percentile_index |R|
heightref_base` of the sorted roof/inside samples `R` when `R` is non-empty, else
`-9999`. -/
theorem lift_sets_base_height (cfg : Config) (b : Building) (G R : List Int)
    (hb : (G ≠ [] ∨ R ≠ []) → to_float cfg.heightref_base = cfg.heightref_base ∧
      0 ≤ cfg.heightref_base ∧ cfg.heightref_base < 1)
    (ht : R ≠ [] → to_float cfg.heightref_top = cfg.heightref_top ∧
      0 ≤ cfg.heightref_top ∧ cfg.heightref_top < 1) :
    ∃ b2, Building.lift cfg { b with zvaluesground := G, zvaluesinside := R }
        = some (true, b2) ∧
      (G ≠ [] →
        ∃ T : List Int, T.Sorted (· ≤ ·) ∧ T.Perm G ∧
          T[(percentile_index G.length cfg.heightref_base).toNat]? = some b2.height_base) ∧
      (G = [] → R ≠ [] →
        ∃ T : List Int, T.Sorted (· ≤ ·) ∧ T.Perm R ∧
          T[(percentile_index R.length cfg.heightref_base).toNat]? = some b2.height_base) ∧
      (G = [] → R = [] → b2.height_base = -9999) :=
  lift_returns_base cfg b G R hb ht

theorem lift_sets_base_height_witness :
    ((([30, 10, 20] : List Int) ≠ [] ∨ ([50] : List Int) ≠ []) →
      to_float sample_config.heightref_base = sample_config.heightref_base ∧
      0 ≤ sample_config.heightref_base ∧ sample_config.heightref_base < 1) ∧
    (([50] : List Int) ≠ [] →
      to_float sample_config.heightref_top = sample_config.heightref_top ∧
      0 ≤ sample_config.heightref_top ∧ sample_config.heightref_top < 1) ∧
    ∃ b2, Building.lift sample_config
        { blank_building with zvaluesground := [30, 10, 20], zvaluesinside := [50] }
        = some (true, b2) ∧
      (([30, 10, 20] : List Int) ≠ [] →
        ∃ T : List Int, T.Sorted (· ≤ ·) ∧ T.Perm [30, 10, 20] ∧
          T[(percentile_index ([30, 10, 20] : List Int).length
            sample_config.heightref_base).toNat]? = some b2.height_base) ∧
      (([30, 10, 20] : List Int) = [] → ([50] : List Int) ≠ [] →
        ∃ T : List Int, T.Sorted (· ≤ ·) ∧ T.Perm [50] ∧
          T[(percentile_index ([50] : List Int).length
            sample_config.heightref_base).toNat]? = some b2.height_base) ∧
      (([30, 10, 20] : List Int) = [] → ([50] : List Int) = [] → b2.height_base = -9999) :=
  ⟨fun _ => sample_config_percentiles.1, fun _ => sample_config_percentiles.2,
    lift_sets_base_height sample_config blank_building [30, 10, 20] [50]
      (fun _ => sample_config_percentiles.1) (fun _ => sample_config_percentiles.2)⟩

/-! ### The sentinel and the base height -/

theorem to_double_sentinel :
    to_double ((-7036170730324623 / 70368744177664 : ℚ) * 100) = -9999 := by
  have := round_float_eq 53 (-1074) ((-7036170730324623 / 70368744177664 : ℚ) * 100) 13
    (-5497008383066112)
    (by norm_num [abs_of_neg]) (by norm_num [abs_of_neg]) (by norm_num) (by norm_num)
  unfold to_double
  rw [this]
  norm_num

theorem double_to_int_intCast (n : Int) (h1 : -(2 : Int) ^ 31 ≤ n) (h2 : n < 2 ^ 31) :
    double_to_int (n : ℚ) = some n := by
  unfold double_to_int
  rw [float_to_int_intCast, if_pos ⟨h1, h2⟩]

/-- C5, the claim fails: a lidar point at elevation `-99.99` (the `double` nearest to
it, whose product with 100 rounds to `-9999.0`) is stored as the sample `-9999`; after
`lift` the base height is `-9999` although the ground samples (and the roof/inside
samples) are not empty. -/
theorem sentinel_base_height_with_samples :
    (Building.add_elevation_point sample_env sample_config blank_building ⟨0, 0⟩
        (-7036170730324623 / 70368744177664) 1 2).map (fun r => r.2.zvaluesground)
      = some [-9999] ∧
    (Building.add_elevation_point sample_env sample_config blank_building ⟨0, 0⟩
        (-7036170730324623 / 70368744177664) 1 2).map (fun r => r.2.zvaluesinside)
      = some [-9999] ∧
    ((Building.add_elevation_point sample_env sample_config blank_building ⟨0, 0⟩
        (-7036170730324623 / 70368744177664) 1 2).bind
      (fun r => Building.lift sample_config r.2)).map (fun r => (r.1, r.2.height_base))
      = some (true, -9999) := by
  have hz : double_to_int (to_double ((-7036170730324623 / 70368744177664 : ℚ) * 100))
      = some (-9999) := by
    rw [to_double_sentinel]
    have h := double_to_int_intCast (-9999) (by decide) (by decide)
    simpa using h
  have hadd : Building.add_elevation_point sample_env sample_config blank_building ⟨0, 0⟩
        (-7036170730324623 / 70368744177664) 1 2
      = some (true,
          { blank_building with zvaluesground := [-9999], zvaluesinside := [-9999] }) := by
    unfold Building.add_elevation_point
    rw [hz]
    simp [sample_env, sample_config, blank_building]
  rw [hadd]
  refine ⟨rfl, rfl, ?_⟩
  obtain ⟨b2, h2, hG, -, -⟩ := lift_returns_base sample_config blank_building
    [-9999] [-9999] (fun _ => sample_config_percentiles.1) (fun _ => sample_config_percentiles.2)
  obtain ⟨T, -, hperm, hT⟩ := hG (by decide)
  have hT1 : T = [-9999] := List.perm_singleton.mp hperm
  subst hT1
  have hmem := List.getElem?_mem hT
  simp only [List.mem_singleton] at hmem
  rw [Option.some_bind]
  simp [h2, hmem]

/-- C5 as amended: for `float` percentiles in `[0, 1)`, `lift` returns and a base
height of `-9999` implies that both sample sequences are empty or that `-9999` is
itself a stored sample of the sequence the base is read from (the ground samples, or
the roof/inside samples when there is no ground sample); both sequences empty give
`-9999`, and when no stored sample equals `-9999` the base height is `-9999` exactly
when both sequences are empty. -/
theorem base_sentinel_only_when (cfg : Config) (b : Building) (G R : List Int)
    (hb : (G ≠ [] ∨ R ≠ []) → to_float cfg.heightref_base = cfg.heightref_base ∧
      0 ≤ cfg.heightref_base ∧ cfg.heightref_base < 1)
    (ht : R ≠ [] → to_float cfg.heightref_top = cfg.heightref_top ∧
      0 ≤ cfg.heightref_top ∧ cfg.heightref_top < 1) :
    ∃ b2, Building.lift cfg { b with zvaluesground := G, zvaluesinside := R }
        = some (true, b2) ∧
      (G = [] → R = [] → b2.height_base = -9999) ∧
      (b2.height_base = -9999 →
        (G = [] ∧ R = []) ∨ (-9999 : Int) ∈ G ∨ (G = [] ∧ (-9999 : Int) ∈ R)) ∧
      ((-9999 : Int) ∉ G → (-9999 : Int) ∉ R →
        (b2.height_base = -9999 ↔ G = [] ∧ R = [])) := by
  obtain ⟨b2, h2, hG, hR, hE⟩ := lift_returns_base cfg b G R hb ht
  have key : b2.height_base = -9999 →
      (G = [] ∧ R = []) ∨ (-9999 : Int) ∈ G ∨ (G = [] ∧ (-9999 : Int) ∈ R) := by
    intro h
    by_cases hg : G = []
    · by_cases hr : R = []
      · exact Or.inl ⟨hg, hr⟩
      · obtain ⟨T, -, hperm, hT⟩ := hR hg hr
        exact Or.inr (Or.inr ⟨hg, h ▸ hperm.subset (List.getElem?_mem hT)⟩)
    · obtain ⟨T, -, hperm, hT⟩ := hG hg
      exact Or.inr (Or.inl (h ▸ hperm.subset (List.getElem?_mem hT)))
  refine ⟨b2, h2, hE, key, fun hnG hnR => ⟨fun h => ?_, fun h => hE h.1 h.2⟩⟩
  rcases key h with h1 | h1 | h1
  · exact h1
  · exact absurd h1 hnG
  · exact absurd h1.2 hnR

theorem base_sentinel_only_when_witness :
    ((([30, 10, 20] : List Int) ≠ [] ∨ ([50] : List Int) ≠ []) →
      to_float sample_config.heightref_base = sample_config.heightref_base ∧
      0 ≤ sample_config.heightref_base ∧ sample_config.heightref_base < 1) ∧
    (([50] : List Int) ≠ [] →
      to_float sample_config.heightref_top = sample_config.heightref_top ∧
      0 ≤ sample_config.heightref_top ∧ sample_config.heightref_top < 1) ∧
    ∃ b2, Building.lift sample_config
        { blank_building with zvaluesground := [30, 10, 20], zvaluesinside := [50] }
        = some (true, b2) ∧
      (([30, 10, 20] : List Int) = [] → ([50] : List Int) = [] → b2.height_base = -9999) ∧
      (b2.height_base = -9999 →
        (([30, 10, 20] : List Int) = [] ∧ ([50] : List Int) = []) ∨
          (-9999 : Int) ∈ ([30, 10, 20] : List Int) ∨
          (([30, 10, 20] : List Int) = [] ∧ (-9999 : Int) ∈ ([50] : List Int))) ∧
      ((-9999 : Int) ∉ ([30, 10, 20] : List Int) → (-9999 : Int) ∉ ([50] : List Int) →
        (b2.height_base = -9999 ↔ ([30, 10, 20] : List Int) = [] ∧ ([50] : List Int) = [])) :=
  ⟨fun _ => sample_config_percentiles.1, fun _ => sample_config_percentiles.2,
    base_sentinel_only_when sample_config blank_building [30, 10, 20] [50]
      (fun _ => sample_config_percentiles.1) (fun _ => sample_config_percentiles.2)⟩

/-! ## `get_RMSE` -/

theorem wrap32_of_range (x : Int) (h0 : 0 ≤ x) (h1 : x < 2 ^ 31) : wrap32 x = x := by
  unfold wrap32
  have : (x + 2 ^ 31) % 2 ^ 32 = x + 2 ^ 31 := Int.emod_eq_of_lt (by omega) (by omega)
  omega

theorem sum_squares_nonneg (D : List Int) : 0 ≤ (D.map (fun d => d * d)).sum := by
  induction D with
  | nil => simp
  | cons a t ih =>
    simp only [List.map_cons, List.sum_cons]
    have := mul_self_nonneg a
    omega

/-- Without overflow the `int` products are the squares. -/
theorem squared_no_wrap (D : List Int) (h : (D.map (fun d => d * d)).sum < 2 ^ 31) :
    D.map (fun d => wrap32 (d * d)) = D.map (fun d => d * d) := by
  induction D with
  | nil => rfl
  | cons a t ih =>
    simp only [List.map_cons, List.sum_cons] at h ⊢
    have h1 := mul_self_nonneg a
    have h2 := sum_squares_nonneg t
    rw [wrap32_of_range (a * a) h1 (by omega), ih (by omega)]

/-- Without overflow the running `int` sum is the sum. -/
theorem foldl_no_wrap (L : List Int) (acc : Int) (hL : ∀ x ∈ L, 0 ≤ x) (hacc : 0 ≤ acc)
    (h : acc + L.sum < 2 ^ 31) :
    L.foldl (fun acc s => wrap32 (acc + s)) acc = acc + L.sum := by
  induction L generalizing acc with
  | nil => simp
  | cons a t ih =>
    simp only [List.foldl_cons, List.sum_cons] at h ⊢
    have ha : 0 ≤ a := hL a (List.mem_cons_self a t)
    have ht : 0 ≤ t.sum := List.sum_nonneg (fun x hx => hL x (List.mem_cons_of_mem a hx))
    rw [wrap32_of_range (acc + a) (by omega) (by omega),
      ih (acc + a) (fun x hx => hL x (List.mem_cons_of_mem a hx)) (by omega) (by omega)]
    omega

/-- Dividing with remainder before the square root does not change the integer part
of the root. -/
theorem floor_sqrt_div (S n : Nat) (hn : 0 < n) :
    ⌊Real.sqrt ((S : ℝ) / (n : ℝ))⌋ = (Nat.sqrt (S / n) : Int) := by
  have hnR : (0 : ℝ) < (n : ℝ) := by exact_mod_cast hn
  have hk1 : Nat.sqrt (S / n) * Nat.sqrt (S / n) ≤ S / n := Nat.sqrt_le (S / n)
  have hk2 : S / n < (Nat.sqrt (S / n) + 1) * (Nat.sqrt (S / n) + 1) := Nat.lt_succ_sqrt (S / n)
  have hq1 : (S / n) * n ≤ S := Nat.div_mul_le_self S n
  have hq2 : S < (S / n + 1) * n := by
    have := Nat.lt_succ_iff.mpr (le_refl (S / n))
    exact (Nat.div_lt_iff_lt_mul hn).mp this
  have hlow : ((Nat.sqrt (S / n) : ℝ)) ^ 2 ≤ (S : ℝ) / (n : ℝ) := by
    rw [le_div_iff₀ hnR]
    have : Nat.sqrt (S / n) * Nat.sqrt (S / n) * n ≤ S :=
      le_trans (Nat.mul_le_mul_right n hk1) hq1
    have h2 : ((Nat.sqrt (S / n) * Nat.sqrt (S / n) * n : Nat) : ℝ) ≤ (S : ℝ) := by
      exact_mod_cast this
    push_cast at h2
    nlinarith
  have hhigh : (S : ℝ) / (n : ℝ) < ((Nat.sqrt (S / n) : ℝ) + 1) ^ 2 := by
    rw [div_lt_iff₀ hnR]
    have : S < (Nat.sqrt (S / n) + 1) * (Nat.sqrt (S / n) + 1) * n :=
      lt_of_lt_of_le hq2 (Nat.mul_le_mul_right n hk2)
    have h2 : (S : ℝ) < (((Nat.sqrt (S / n) + 1) * (Nat.sqrt (S / n) + 1) * n : Nat) : ℝ) := by
      exact_mod_cast this
    push_cast at h2
    nlinarith
  rw [Int.floor_eq_iff]
  constructor
  · have : (0 : ℝ) ≤ (Nat.sqrt (S / n) : ℝ) := Nat.cast_nonneg _
    push_cast
    exact Real.le_sqrt_of_sq_le hlow
  · push_cast
    rw [Real.sqrt_lt' (by positivity)]
    exact hhigh

/-- The value `get_RMSE` returns when nothing overflows: the integer square root of
the truncated quotient. -/
theorem get_RMSE_value (b : Building) (D : List Int) (hne : D ≠ [])
    (hsum : (D.map (fun d => d * d)).sum < 2 ^ 31) :
    Building.get_RMSE { b with distancesinside := D }
      = some ((Nat.sqrt ((D.map (fun d => d * d)).sum.toNat / D.length) : Nat) : Int) := by
  have hS := sum_squares_nonneg D
  have hn : 0 < D.length := List.length_pos.mpr hne
  have hfold : (D.map (fun d => wrap32 (d * d))).foldl (fun acc s => wrap32 (acc + s)) 0
      = (D.map (fun d => d * d)).sum := by
    rw [squared_no_wrap D hsum, foldl_no_wrap _ 0 _ (le_refl 0) (by omega)]
    · omega
    · intro x hx
      obtain ⟨d, -, rfl⟩ := List.mem_map.mp hx
      exact mul_self_nonneg d
  have hdiv : Int.tdiv (D.map (fun d => d * d)).sum (D.length : Int)
      = (((D.map (fun d => d * d)).sum.toNat / D.length : Nat) : Int) := by
    rw [Int.tdiv_eq_ediv hS (by omega)]
    conv_lhs => rw [← Int.toNat_of_nonneg hS]
    norm_cast
  unfold Building.get_RMSE
  simp only [isEmpty_eq_false_of_ne_nil _ hne, if_true, hfold, hdiv]
  unfold sqrt_to_int
  rw [if_pos (Int.natCast_nonneg _), Int.toNat_natCast]

/-- C6: for a non-empty sequence `D` of integer-centimetre distances whose sum of
squares fits a 32-bit `int`, `get_RMSE` returns `floor(sqrt((Σ d²) / |D|))` with the
exact (real) quotient under the root: the integer division done before the square
root does not change the result. -/
theorem get_RMSE_exact (b : Building) (D : List Int) (hne : D ≠ [])
    (hsum : (D.map (fun d => d ^ 2)).sum < 2 ^ 31) :
    Building.get_RMSE { b with distancesinside := D }
      = some ⌊Real.sqrt ((((D.map (fun d => d ^ 2)).sum : Int) : ℝ) / (D.length : ℝ))⌋ := by
  have hsq : D.map (fun d => d ^ 2) = D.map (fun d => d * d) := by
    apply List.map_congr_left
    intro d _
    ring
  rw [hsq] at hsum ⊢
  have hS := sum_squares_nonneg D
  have hn : 0 < D.length := List.length_pos.mpr hne
  rw [get_RMSE_value b D hne hsum]
  have hcast : (((D.map (fun d => d * d)).sum : Int) : ℝ)
      = (((D.map (fun d => d * d)).sum.toNat : Nat) : ℝ) := by
    have := Int.toNat_of_nonneg hS
    exact_mod_cast this.symm
  rw [hcast, floor_sqrt_div _ _ hn]

theorem get_RMSE_exact_witness :
    ([3, 4] : List Int) ≠ [] ∧ (([3, 4] : List Int).map (fun d => d ^ 2)).sum < 2 ^ 31 ∧
    Building.get_RMSE { blank_building with distancesinside := [3, 4] }
      = some ⌊Real.sqrt ((((([3, 4] : List Int).map (fun d => d ^ 2)).sum : Int) : ℝ)
          / ((([3, 4] : List Int).length : Nat) : ℝ))⌋ ∧
    Building.get_RMSE { blank_building with distancesinside := [3, 4] } = some 3 :=
  ⟨by decide, by decide,
    get_RMSE_exact blank_building [3, 4] (by decide) (by decide),
    by
      rw [get_RMSE_value blank_building [3, 4] (by decide) (by decide)]
      have : Nat.sqrt (((([3, 4] : List Int).map (fun d => d * d)).sum.toNat)
          / ([3, 4] : List Int).length) = 3 := by
        symm
        rw [Nat.eq_sqrt]
        decide
      rw [this]
      rfl⟩

/-! ## `add_elevation_point` and `get_all_z_values` -/

/-- C8, the claim fails for the exact product and beyond the range of an `int`. For
`z = 0.3` (the `double` nearest to it) the exact `z * 100` truncates to `29`, but the
`double` product rounds to `30.0` and the sample stored is `30`. For `z = 30000000`
the product `3000000000` is outside the range of an `int`: the conversion is
undefined, nothing defined is appended and no value is returned. -/
theorem add_elevation_point_rounds_and_overflows :
    float_to_int ((5404319552844595 / 18014398509481984 : ℚ) * 100) = 29 ∧
    (Building.add_elevation_point sample_env sample_config blank_building ⟨0, 0⟩
        (5404319552844595 / 18014398509481984) 1 2).map
      (fun r => (r.1, r.2.zvaluesinside, r.2.zvaluesground)) = some (true, [30], [30]) ∧
    Building.add_elevation_point sample_env sample_config blank_building ⟨0, 0⟩
        30000000 1 2 = none := by
  refine ⟨?_, ?_, ?_⟩
  · unfold float_to_int
    rw [if_pos (by norm_num), Int.floor_eq_iff]
    norm_num
  · have hz : double_to_int (to_double ((5404319552844595 / 18014398509481984 : ℚ) * 100))
        = some 30 := by
      rw [to_double_three_tenths]
      have h := double_to_int_intCast 30 (by decide) (by decide)
      simpa using h
    unfold Building.add_elevation_point
    rw [hz]
    simp [sample_env, sample_config, blank_building]
  · have hd : to_double ((30000000 : ℚ) * 100) = ((3000000000 : Int) : ℚ) := by
      have := round_float_of_format 53 (-1074) 3000000000 0 (by norm_num) (by norm_num)
        (by norm_num) (by norm_num)
      unfold to_double
      norm_num at this ⊢
      exact this
    have hz : double_to_int (to_double ((30000000 : ℚ) * 100)) = none := by
      rw [hd]
      unfold double_to_int
      rw [float_to_int_intCast, if_neg (by decide)]
    unfold Building.add_elevation_point
    rw [hz]
    simp [sample_env]

/-- C8 as amended: `zcm` is the `double` product `z * 100` (rounded to the nearest
`double`) truncated toward zero, and it must fit an `int`. A point not within range
leaves the object as it is and the call returns `true`. For a point within range whose
`zcm` lies in the range of an `int`, the call returns `true` and `zcm` is appended at
the end of the roof/inside samples exactly when the roof class filter is empty or
contains `lasclass`, and at the end of the ground samples exactly when the ground class
filter is empty or contains `lasclass`; the samples stored before stay in place and
nothing else changes. For a point within range whose `zcm` is outside that range the
conversion is undefined and nothing is returned. -/
theorem add_elevation_point_appends (env : Collaborators) (cfg : Config) (b : Building)
    (p : Point2) (z radius : ℚ) (lasclass : Int) :
    (env.within_range p b.p2 radius = false →
      Building.add_elevation_point env cfg b p z radius lasclass = some (true, b)) ∧
    (env.within_range p b.p2 radius = true →
      -(2 : Int) ^ 31 ≤ float_to_int (to_double (z * 100)) →
      float_to_int (to_double (z * 100)) < 2 ^ 31 →
      Building.add_elevation_point env cfg b p z radius lasclass =
        some (true, { b with
          zvaluesinside := b.zvaluesinside ++
            (if cfg.las_classes_roof = [] ∨ lasclass ∈ cfg.las_classes_roof
              then [float_to_int (to_double (z * 100))] else []),
          zvaluesground := b.zvaluesground ++
            (if cfg.las_classes_ground = [] ∨ lasclass ∈ cfg.las_classes_ground
              then [float_to_int (to_double (z * 100))] else []) })) ∧
    (env.within_range p b.p2 radius = true →
      (float_to_int (to_double (z * 100)) < -(2 : Int) ^ 31 ∨
        2 ^ 31 ≤ float_to_int (to_double (z * 100))) →
      Building.add_elevation_point env cfg b p z radius lasclass = none) := by
  refine ⟨?_, ?_, ?_⟩
  · intro h
    simp [Building.add_elevation_point, h]
  · intro h h1 h2
    have hz : double_to_int (to_double (z * 100)) = some (float_to_int (to_double (z * 100))) := by
      unfold double_to_int
      rw [if_pos ⟨h1, h2⟩]
    unfold Building.add_elevation_point
    rw [hz]
    simp only [h, if_true, List.isEmpty_iff, List.count_pos_iff]
    by_cases hr : cfg.las_classes_roof = [] ∨ lasclass ∈ cfg.las_classes_roof <;>
      by_cases hg : cfg.las_classes_ground = [] ∨ lasclass ∈ cfg.las_classes_ground <;>
      simp [hr, hg]
  · intro h h1
    have hz : double_to_int (to_double (z * 100)) = none := by
      unfold double_to_int
      rw [if_neg (by omega)]
    unfold Building.add_elevation_point
    rw [hz]
    simp [h]

theorem string_join_cons (x : String) (xs : List String) :
    String.join (x :: xs) = x ++ String.join xs := by
  apply String.ext
  simp [String.join_eq, String.data_append]

theorem foldl_append_eq_join (f : Int → String) (l : List Int) (acc : String) :
    l.foldl (fun ss z => ss ++ f z ++ "|") acc
      = acc ++ String.join (l.map (fun z => f z ++ "|")) := by
  induction l generalizing acc with
  | nil => simp [String.join]
  | cons a t ih =>
    simp only [List.foldl_cons, List.map_cons]
    rw [ih, string_join_cons]
    simp only [String.append_assoc]

/-- C9: `get_all_z_values` serialises a sequence `allz` that is sorted non-decreasing
and a permutation of the ground samples followed by the roof/inside samples, so it
has `|ground| + |roof|` entries; the text is, entry after entry, the number text of
the entry (its value divided by 100) followed by one `|`; the stored ground and
roof/inside sequences, as the whole object, are left unchanged. -/
theorem get_all_z_values_sorted_permutation (env : Collaborators) (b : Building) :
    ∃ allz : List Int,
      allz.Sorted (· ≤ ·) ∧
      allz.Perm (b.zvaluesground ++ b.zvaluesinside) ∧
      allz.length = b.zvaluesground.length + b.zvaluesinside.length ∧
      (Building.get_all_z_values env b).1
        = String.join (allz.map (fun (z : Int) => env.show_double ((z : ℚ) / 100) ++ "|")) ∧
      (Building.get_all_z_values env b).2 = b := by
  refine ⟨Building.allz b, List.sorted_insertionSort _ _, List.perm_insertionSort _ _, ?_, ?_, rfl⟩
  · simp [Building.allz, List.length_insertionSort]
  · simp only [Building.get_all_z_values]
    rw [foldl_append_eq_join (fun z => env.show_double ((z : ℚ) / 100))]
    simp

/-! ## `construct_building_walls` -/

section closure

variable (P : Building → Prop)

/-- A property kept by the two emission steps is kept by the first `while` loop. -/
theorem walk_b_keeps
    (hb : ∀ env a b za zb zb1 s, P s → P (Building.push_b_step env a b za zb zb1 s))
    (env : Collaborators) (a b : Point2) (anc : List Int) (sait ebit : Nat) :
    ∀ (rest : List Int) (sbit : Nat) (s : Building), P s →
      P (Building.walk_b env a b anc sait ebit rest sbit s).state := by
  intro rest
  induction rest with
  | nil => intro sbit s h; simpa [Building.walk_b, Run.state] using h
  | cons zb tl ih =>
    intro sbit s h
    cases tl with
    | nil => simpa [Building.walk_b, Run.state] using h
    | cons zb1 rest =>
      rw [Building.walk_b]
      split
      · split
        · simpa [Run.state] using h
        · exact ih (sbit + 1) _ (hb _ _ _ _ _ _ _ h)
      · simpa [Run.state] using h

/-- A property kept by the two emission steps is kept by the second `while` loop. -/
theorem walk_a_keeps
    (ha : ∀ env a b zb za za1 s, P s → P (Building.push_a_step env a b zb za za1 s))
    (env : Collaborators) (a b : Point2) (bnc : List Int) (eait ebit : Nat) :
    ∀ (rest : List Int) (sait : Nat) (s : Building), P s →
      P (Building.walk_a env a b bnc eait ebit rest sait s).state := by
  intro rest
  induction rest with
  | nil => intro sait s h; simpa [Building.walk_a, Run.state] using h
  | cons za tl ih =>
    intro sait s h
    cases tl with
    | nil => simpa [Building.walk_a, Run.state] using h
    | cons za1 rest =>
      rw [Building.walk_a]
      split
      · split
        · simpa [Run.state] using h
        · exact ih (sait + 1) _ (ha _ _ _ _ _ _ _ h)
      · simpa [Run.state] using h

/-- A property kept by the two emission steps is kept by the walk of one interval. -/
theorem walk_interval_keeps
    (hb : ∀ env a b za zb zb1 s, P s → P (Building.push_b_step env a b za zb zb1 s))
    (ha : ∀ env a b zb za za1 s, P s → P (Building.push_a_step env a b zb za za1 s))
    (env : Collaborators) (a b : Point2) (anc bnc : List Int) (sa sb ea eb : Int)
    (s : Building) (h : P s) :
    P (Building.walk_interval env a b anc bnc sa sb ea eb s).state := by
  have h1 := walk_b_keeps P hb env a b anc (anc.indexOf sa) (bnc.indexOf eb)
    (bnc.drop (bnc.indexOf sb)) (bnc.indexOf sb) s h
  unfold Building.walk_interval
  simp only
  cases hw : Building.walk_b env a b anc (anc.indexOf sa) (bnc.indexOf eb)
      (bnc.drop (bnc.indexOf sb)) (bnc.indexOf sb) s with
  | undefined s1 =>
    rw [hw] at h1
    simpa [Run.state] using h1
  | done s1 =>
    rw [hw] at h1
    exact walk_a_keeps P ha env a b bnc (anc.indexOf ea) (bnc.indexOf eb)
      (anc.drop (anc.indexOf sa)) (anc.indexOf sa) s1 (by simpa [Run.state] using h1)

/-- A property kept by the two emission steps is kept by the loop over the intervals. -/
theorem walk_intervals_keeps
    (hb : ∀ env a b za zb zb1 s, P s → P (Building.push_b_step env a b za zb zb1 s))
    (ha : ∀ env a b zb za za1 s, P s → P (Building.push_a_step env a b zb za za1 s))
    (env : Collaborators) (a b : Point2) (anc bnc awall bwall awallend bwallend : List Int)
    (s : Building) (h : P s) :
    P (Building.walk_intervals env a b anc bnc awall bwall awallend bwallend s).state := by
  unfold Building.walk_intervals
  have key : ∀ (l : List Nat) (r : Run Building), P r.state →
      P (l.foldl (Building.interval_step env a b anc bnc awall bwall awallend bwallend) r).state := by
    intro l
    induction l with
    | nil => intro r hr; simpa using hr
    | cons i l ih =>
      intro r hr
      rw [List.foldl_cons]
      apply ih
      cases r with
      | undefined s1 => simpa [Building.interval_step, Run.state] using hr
      | done s1 =>
        have hs1 : P s1 := by simpa [Run.state] using hr
        unfold Building.interval_step
        simp only
        split
        · exact walk_interval_keeps P hb ha env a b anc bnc _ _ _ _ s1 hs1
        · simpa [Run.state] using hs1
  exact key _ _ (by simpa [Run.state] using h)

/-- A property kept by the two emission steps is kept by the body of the edge loop. -/
theorem edge_step_keeps
    (hb : ∀ env a b za zb zb1 s, P s → P (Building.push_b_step env a b za zb zb1 s))
    (ha : ∀ env a b zb za za1 s, P s → P (Building.push_a_step env a b zb za za1 s))
    (env : Collaborators) (cfg : Config) (nc : NodeColumn) (ring : List Point2)
    (ringi : Int) (ai : Nat) (s : Building) (h : P s) :
    P (Building.edge_step env cfg nc ring ringi ai s).state := by
  unfold Building.edge_step
  simp only
  split
  · rename_i a b _ _
    split
    · simpa [EdgeStep.state] using h
    · split
      · simpa [EdgeStep.state] using h
      · have hw := walk_intervals_keeps P hb ha env a b
          ((nc (env.gen_key_bucket a)).getD []) ((nc (env.gen_key_bucket b)).getD [])
          (Building.wall_intervals cfg (s.vertex_elevation ringi ai) s.height_base
            (Building.find_adjacent s.adjFeatures a b)).1
          (Building.wall_intervals cfg (s.vertex_elevation ringi ai) s.height_base
            (Building.find_adjacent s.adjFeatures a b)).2.1
          (Building.wall_intervals cfg (s.vertex_elevation ringi ai) s.height_base
            (Building.find_adjacent s.adjFeatures a b)).2.2.1
          (Building.wall_intervals cfg (s.vertex_elevation ringi ai) s.height_base
            (Building.find_adjacent s.adjFeatures a b)).2.2.2 s h
        revert hw
        cases Building.walk_intervals env a b
          ((nc (env.gen_key_bucket a)).getD []) ((nc (env.gen_key_bucket b)).getD [])
          (Building.wall_intervals cfg (s.vertex_elevation ringi ai) s.height_base
            (Building.find_adjacent s.adjFeatures a b)).1
          (Building.wall_intervals cfg (s.vertex_elevation ringi ai) s.height_base
            (Building.find_adjacent s.adjFeatures a b)).2.1
          (Building.wall_intervals cfg (s.vertex_elevation ringi ai) s.height_base
            (Building.find_adjacent s.adjFeatures a b)).2.2.1
          (Building.wall_intervals cfg (s.vertex_elevation ringi ai) s.height_base
            (Building.find_adjacent s.adjFeatures a b)).2.2.2 s with
        | done s1 => intro hw; simpa [EdgeStep.state, Run.state] using hw
        | undefined s1 => intro hw; simpa [EdgeStep.state, Run.state] using hw
  · simpa [EdgeStep.state] using h

/-- A property kept by the two emission steps is kept by the loop over the edges of
a ring. -/
theorem walls_ring_keeps
    (hb : ∀ env a b za zb zb1 s, P s → P (Building.push_b_step env a b za zb zb1 s))
    (ha : ∀ env a b zb za za1 s, P s → P (Building.push_a_step env a b zb za za1 s))
    (env : Collaborators) (cfg : Config) (nc : NodeColumn) (ring : List Point2)
    (ringi : Int) :
    ∀ (todo : List Nat) (s : Building), P s →
      P (Building.walls_ring env cfg nc ring ringi todo s).state := by
  intro todo
  induction todo with
  | nil => intro s h; simpa [Building.walls_ring, Run.state] using h
  | cons ai rest ih =>
    intro s h
    have he := edge_step_keeps P hb ha env cfg nc ring ringi ai s h
    rw [Building.walls_ring]
    cases hs : Building.edge_step env cfg nc ring ringi ai s with
    | next s1 =>
      rw [hs] at he
      exact ih s1 (by simpa [EdgeStep.state] using he)
    | brk s1 =>
      rw [hs] at he
      simpa [EdgeStep.state, Run.state] using he
    | undefined s1 =>
      rw [hs] at he
      simpa [EdgeStep.state, Run.state] using he

/-- A property kept by the two emission steps is kept by the loop over the rings. -/
theorem walls_rings_keeps
    (hb : ∀ env a b za zb zb1 s, P s → P (Building.push_b_step env a b za zb zb1 s))
    (ha : ∀ env a b zb za za1 s, P s → P (Building.push_a_step env a b zb za za1 s))
    (env : Collaborators) (cfg : Config) (nc : NodeColumn) :
    ∀ (rings : List (List Point2)) (ringi : Int) (s : Building), P s →
      P (Building.walls_rings env cfg nc rings ringi s).state := by
  intro rings
  induction rings with
  | nil => intro ringi s h; simpa [Building.walls_rings, Run.state] using h
  | cons ring rest ih =>
    intro ringi s h
    have hr := walls_ring_keeps P hb ha env cfg nc ring ringi (List.range ring.length) s h
    rw [Building.walls_rings]
    cases hs : Building.walls_ring env cfg nc ring ringi (List.range ring.length) s with
    | done s1 =>
      rw [hs] at hr
      exact ih (ringi + 1) s1 (by simpa [Run.state] using hr)
    | undefined s1 =>
      rw [hs] at hr
      simpa [Run.state] using hr

end closure

theorem walls_extend_refl (s : Building) : walls_extend s s :=
  ⟨[], [], by simp, by simp, fun j h => absurd h (by simp)⟩

/-- Appending three vertices and a triangle over them keeps `walls_extend`. -/
theorem walls_extend_push (s0 s : Building) (x y z : Point3 × String) (t : Triangle)
    (h : walls_extend s0 s)
    (ht : ∀ n : Nat, n = s.vertices_vw.length →
      t.v0 ≠ t.v1 ∧ t.v0 ≠ t.v2 ∧ t.v1 ≠ t.v2 ∧
      (n : Int) ≤ t.v0 ∧ t.v0 < (n : Int) + 3 ∧ (n : Int) ≤ t.v1 ∧ t.v1 < (n : Int) + 3 ∧
      (n : Int) ≤ t.v2 ∧ t.v2 < (n : Int) + 3) :
    walls_extend s0 { s with vertices_vw := ((s.vertices_vw ++ [x]) ++ [y]) ++ [z],
                             triangles_vw := s.triangles_vw ++ [t] } := by
  obtain ⟨newv, newt, hs, hlen, hall⟩ := h
  refine ⟨newv ++ [x, y, z], newt ++ [t], ?_, ?_, ?_⟩
  · rw [hs]
    simp [List.append_assoc]
  · simp [hlen]; omega
  · intro j hj
    by_cases hlt : j < newt.length
    · rw [List.getElem_append_left hlt]
      exact hall j hlt
    · have hj2 : j = newt.length := by
        simp at hj; omega
      subst hj2
      rw [List.getElem_append_right (le_refl _)]
      simp only [Nat.sub_self, List.getElem_cons_zero]
      have hn : s.vertices_vw.length = s0.vertices_vw.length + 3 * newt.length := by
        rw [hs]; simp [hlen]
      have := ht _ hn.symm
      unfold fresh_triangle
      push_cast at this ⊢
      omega

theorem walls_extend_push_b (s0 : Building) (env : Collaborators) (a b : Point2)
    (za zb zb1 : Int) (s : Building) (h : walls_extend s0 s) :
    walls_extend s0 (Building.push_b_step env a b za zb zb1 s) := by
  unfold Building.push_b_step
  apply walls_extend_push s0 s _ _ _ _ h
  intro n hn
  simp only [List.length_append, List.length_singleton, ← hn]
  push_cast
  omega

theorem walls_extend_push_a (s0 : Building) (env : Collaborators) (a b : Point2)
    (zb za za1 : Int) (s : Building) (h : walls_extend s0 s) :
    walls_extend s0 (Building.push_a_step env a b zb za za1 s) := by
  unfold Building.push_a_step
  apply walls_extend_push s0 s _ _ _ _ h
  intro n hn
  simp only [List.length_append, List.length_singleton, ← hn]
  push_cast
  omega

/-- Whatever the run does, the state it reaches comes from the initial state by wall
emissions only. -/
theorem construct_building_walls_extends (env : Collaborators) (cfg : Config)
    (nc : NodeColumn) (s : Building) :
    walls_extend s (Building.construct_building_walls env cfg nc s).state :=
  walls_rings_keeps (walls_extend s) (walls_extend_push_b s) (walls_extend_push_a s)
    env cfg nc _ 0 s (walls_extend_refl s)

/-- C10: every triangle that `construct_building_walls` appends to the wall triangle
buffer has three pairwise distinct vertex indices, each a valid index into the wall
vertex buffer at the time of emission: the `j`-th appended triangle points at the
three vertices pushed just before it, positions `n0 + 3j .. n0 + 3j + 2` of a buffer
that then holds `n0 + 3j + 3` vertices (`n0` vertices before the call). This holds
for every footprint, neighbour configuration and node-column registry, and also for
the part of a run that precedes an undefined read. -/
theorem wall_triangles_well_formed (env : Collaborators) (cfg : Config) (nc : NodeColumn)
    (s : Building) :
    ∃ (newv : List (Point3 × String)) (newt : List Triangle),
      (Building.construct_building_walls env cfg nc s).state.vertices_vw
        = s.vertices_vw ++ newv ∧
      (Building.construct_building_walls env cfg nc s).state.triangles_vw
        = s.triangles_vw ++ newt ∧
      newv.length = 3 * newt.length ∧
      ∀ (j : Nat) (h : j < newt.length),
        newt[j].v0 ≠ newt[j].v1 ∧ newt[j].v0 ≠ newt[j].v2 ∧ newt[j].v1 ≠ newt[j].v2 ∧
        (∀ v ∈ [newt[j].v0, newt[j].v1, newt[j].v2],
          ((s.vertices_vw.length + 3 * j : Nat) : Int) ≤ v ∧
          v < ((s.vertices_vw.length + 3 * j + 3 : Nat) : Int) ∧
          s.vertices_vw.length + 3 * j + 3
            ≤ (Building.construct_building_walls env cfg nc s).state.vertices_vw.length) := by
  obtain ⟨newv, newt, hs, hlen, hall⟩ := construct_building_walls_extends env cfg nc s
  refine ⟨newv, newt, by rw [hs], by rw [hs], hlen, fun j hj => ?_⟩
  obtain ⟨h1, h2, h3, h4, h5, h6, h7, h8, h9⟩ := hall j hj
  have hfin : s.vertices_vw.length + 3 * j + 3
      ≤ (Building.construct_building_walls env cfg nc s).state.vertices_vw.length := by
    rw [hs]
    simp only [List.length_append, hlen]
    omega
  refine ⟨h1, h2, h3, ?_⟩
  intro v hv
  simp only [List.mem_cons, List.mem_singleton, List.not_mem_nil, or_false] at hv
  rcases hv with rfl | rfl | rfl
  · exact ⟨h4, h5, hfin⟩
  · exact ⟨h6, h7, hfin⟩
  · exact ⟨h8, h9, hfin⟩

/-- A concrete run: the unit square with base height `0`, roof height `500`, no
neighbour and the column `[0, 500]` at every corner gets two triangles per edge and
ends without an undefined read. -/
theorem unit_square_wall_triangles :
    (Building.construct_building_walls sample_env sample_config (fun _ => some [0, 500])
        unit_square).state.triangles_vw
      = [⟨1, 0, 2⟩, ⟨3, 4, 5⟩, ⟨7, 6, 8⟩, ⟨9, 10, 11⟩, ⟨13, 12, 14⟩, ⟨15, 16, 17⟩,
         ⟨19, 18, 20⟩, ⟨21, 22, 23⟩] ∧
    (Building.construct_building_walls sample_env sample_config (fun _ => some [0, 500])
        unit_square).isDone = true := by
  constructor <;> decide

/-! ## Node-column inconsistency: `break` -/

/-- The body of the edge loop leaves by `break`, with the state as it is, when exactly
one of the two columns is empty. -/
theorem edge_step_brk (env : Collaborators) (cfg : Config) (nc : NodeColumn)
    (ring : List Point2) (ringi : Int) (ai : Nat) (s : Building) (a b : Point2)
    (ha : ring[ai]? = some a)
    (hb : ring[if ai = ring.length - 1 then 0 else ai + 1]? = some b)
    (hx : ((nc (env.gen_key_bucket a)).getD [] = [] ∧ (nc (env.gen_key_bucket b)).getD [] ≠ []) ∨
      ((nc (env.gen_key_bucket a)).getD [] ≠ [] ∧ (nc (env.gen_key_bucket b)).getD [] = [])) :
    Building.edge_step env cfg nc ring ringi ai s = .brk s := by
  unfold Building.edge_step
  simp only [ha, hb]
  rcases hx with ⟨h1, h2⟩ | ⟨h1, h2⟩
  · simp [h1, isEmpty_eq_false_of_ne_nil _ h2]
  · simp [h2, isEmpty_eq_false_of_ne_nil _ h1]

/-- The edge loop over a list of indices that contains an edge leaving by `break`
does what the loop over the indices before that edge does. -/
theorem walls_ring_stops (env : Collaborators) (cfg : Config) (nc : NodeColumn)
    (ring : List Point2) (ringi : Int) (ai : Nat) (post : List Nat)
    (hbrk : ∀ s, Building.edge_step env cfg nc ring ringi ai s = .brk s) :
    ∀ (pre : List Nat) (s : Building),
      Building.walls_ring env cfg nc ring ringi (pre ++ ai :: post) s
        = Building.walls_ring env cfg nc ring ringi pre s := by
  intro pre
  induction pre with
  | nil =>
    intro s
    simp [Building.walls_ring, hbrk]
  | cons x pre ih =>
    intro s
    simp only [List.cons_append, Building.walls_ring]
    cases Building.edge_step env cfg nc ring ringi x s with
    | next s1 => exact ih s1
    | brk s1 => rfl
    | undefined s1 => rfl

theorem range_split (n ai : Nat) (h : ai < n) :
    List.range n = List.range ai ++ ai :: (List.range (n - ai - 1)).map (fun k => ai + 1 + k) := by
  have hn : n = ai + ((n - ai - 1) + 1) := by omega
  conv_lhs => rw [hn, List.range_add, List.range_succ_eq_map]
  simp only [List.map_cons, Nat.add_zero, List.map_map]
  congr 2
  apply List.map_congr_left
  intro k _
  simp only [Function.comp]
  omega

/-- C11, the claim fails: in `ring_with_hole` the first edge of the outer ring has one
endpoint with a column and one without, yet the run still appends the 4 triangles
(12 vertices) of the inner ring. -/
theorem inconsistent_edge_keeps_later_rings :
    partial_registry (keyed_env.gen_key_bucket ⟨1, 0⟩) = some [0, 500] ∧
    partial_registry (keyed_env.gen_key_bucket ⟨0, 0⟩) = none ∧
    (Building.construct_building_walls keyed_env sample_config partial_registry
      ring_with_hole).state.triangles_vw.length = 4 ∧
    (Building.construct_building_walls keyed_env sample_config partial_registry
      ring_with_hole).state.vertices_vw.length = 12 := by
  refine ⟨by decide, by decide, by decide, by decide⟩

/-- C11 as amended: when for the edge `ai` of a ring exactly one of the two endpoints
has a (non-empty) node-column entry, the loop over the edges of that ring ends there:
the ring contributes what its edges before `ai` contribute, and nothing for that edge
or any later edge of the same ring. The rings after it are still processed, starting
from the state reached. -/
theorem inconsistent_edge_abandons_ring (env : Collaborators) (cfg : Config)
    (nc : NodeColumn) (ring : List Point2) (ringi : Int) (ai : Nat) (a b : Point2)
    (ha : ring[ai]? = some a)
    (hb : ring[if ai = ring.length - 1 then 0 else ai + 1]? = some b)
    (hx : ((nc (env.gen_key_bucket a)).getD [] = [] ∧ (nc (env.gen_key_bucket b)).getD [] ≠ []) ∨
      ((nc (env.gen_key_bucket a)).getD [] ≠ [] ∧ (nc (env.gen_key_bucket b)).getD [] = []))
    (s : Building) :
    (∀ (todo : List Nat) (s1 : Building),
      Building.walls_ring env cfg nc ring ringi (ai :: todo) s1 = .done s1) ∧
    Building.walls_ring env cfg nc ring ringi (List.range ring.length) s
      = Building.walls_ring env cfg nc ring ringi (List.range ai) s ∧
    ∀ (rest : List (List Point2)),
      Building.walls_rings env cfg nc (ring :: rest) ringi s
        = match Building.walls_ring env cfg nc ring ringi (List.range ai) s with
          | .done s1 => Building.walls_rings env cfg nc rest (ringi + 1) s1
          | .undefined s1 => .undefined s1 := by
  have hbrk : ∀ s, Building.edge_step env cfg nc ring ringi ai s = .brk s :=
    fun s => edge_step_brk env cfg nc ring ringi ai s a b ha hb hx
  have hlt : ai < ring.length := by
    by_contra h
    rw [List.getElem?_eq_none (by omega)] at ha
    exact absurd ha (by simp)
  have hring : Building.walls_ring env cfg nc ring ringi (List.range ring.length) s
      = Building.walls_ring env cfg nc ring ringi (List.range ai) s := by
    rw [range_split ring.length ai hlt]
    exact walls_ring_stops env cfg nc ring ringi ai _ hbrk _ s
  refine ⟨?_, hring, ?_⟩
  · intro todo s1
    simp [Building.walls_ring, hbrk]
  · intro rest
    rw [Building.walls_rings, hring]

theorem inconsistent_edge_abandons_ring_witness :
    (ring_with_hole.p2.outer)[0]? = some (⟨1, 0⟩ : Point2) ∧
    (ring_with_hole.p2.outer)[if 0 = ring_with_hole.p2.outer.length - 1 then 0 else 0 + 1]?
      = some (⟨0, 0⟩ : Point2) ∧
    (Building.walls_ring keyed_env sample_config partial_registry ring_with_hole.p2.outer 0
        (List.range ring_with_hole.p2.outer.length) ring_with_hole
      = Building.walls_ring keyed_env sample_config partial_registry ring_with_hole.p2.outer 0
        (List.range 0) ring_with_hole) :=
  ⟨by decide, by decide,
    (inconsistent_edge_abandons_ring keyed_env sample_config partial_registry
      ring_with_hole.p2.outer 0 0 ⟨1, 0⟩ ⟨0, 0⟩ (by decide) (by decide)
      (Or.inr ⟨by decide, by decide⟩) ring_with_hole).2.1⟩

/-! ## The interval lists of one edge -/

/-- The adjacent feature found for segment `ab` is a feature of the list whose
`has_segment(b, a, ...)` answered, and the indices are its four outputs: the first
two for `b`, the last two for `a`. -/
theorem find_adjacent_some (adjs : List AdjFeature) (a b : Point2) (adj : AdjFeature)
    (ia ja ib jb : Int) (h : Building.find_adjacent adjs a b = some (adj, ia, ja, ib, jb)) :
    adj ∈ adjs ∧ adj.has_segment b a = some (ib, jb, ia, ja) := by
  unfold Building.find_adjacent at h
  obtain ⟨x, hx, hsome⟩ := List.exists_of_findSome?_eq_some h
  cases hseg : x.has_segment b a with
  | none => simp [hseg] at hsome
  | some r =>
    obtain ⟨r1, r2, r3, r4⟩ := r
    simp only [hseg, Option.some.injEq, Prod.mk.injEq] at hsome
    obtain ⟨rfl, rfl, rfl, rfl, rfl⟩ := hsome
    exact ⟨hx, hseg⟩

/-- C12: for an edge with no adjacent feature, or whose adjacent feature is not a
building, each endpoint has exactly one interval and it ends at this feature's own
roof height. Its start is this feature's base height when no neighbour exists or
floor inclusion is enabled (whatever the neighbour's surface height); otherwise it is
the neighbour's elevation at the matching vertex, the a-side start from the vertex
matching `a` and the b-side start from the vertex matching `b`, as reported by the
neighbour's `has_segment(b, a, ...)`. -/
theorem non_building_neighbour_intervals (cfg : Config) (adjs : List AdjFeature)
    (a b : Point2) (roofheight baseheight : Int)
    (hnb : ∀ adj ia ja ib jb, Building.find_adjacent adjs a b = some (adj, ia, ja, ib, jb) →
      adj.get_class ≠ TopoClass.BUILDING) :
    ∃ sa sb : Int,
      Building.wall_intervals cfg roofheight baseheight (Building.find_adjacent adjs a b)
        = ([sa], [sb], [roofheight], [roofheight]) ∧
      ((Building.find_adjacent adjs a b = none ∨ cfg.building_include_floor = true) →
        sa = baseheight ∧ sb = baseheight) ∧
      (∀ adj ia ja ib jb, Building.find_adjacent adjs a b = some (adj, ia, ja, ib, jb) →
        cfg.building_include_floor = false →
        adj ∈ adjs ∧ adj.has_segment b a = some (ib, jb, ia, ja) ∧
        sa = adj.get_vertex_elevation ia ja ∧ sb = adj.get_vertex_elevation ib jb) := by
  cases hf : Building.find_adjacent adjs a b with
  | none =>
    refine ⟨baseheight, baseheight, rfl, fun _ => ⟨rfl, rfl⟩, ?_⟩
    intro adj ia ja ib jb h
    exact absurd h (by simp)
  | some r =>
    obtain ⟨adj, ia, ja, ib, jb⟩ := r
    have hc : adj.get_class ≠ TopoClass.BUILDING := hnb adj ia ja ib jb hf
    have hmem := find_adjacent_some adjs a b adj ia ja ib jb hf
    cases hfl : cfg.building_include_floor with
    | true =>
      refine ⟨baseheight, baseheight, ?_, fun _ => ⟨rfl, rfl⟩, ?_⟩
      · simp [Building.wall_intervals, hc, hfl]
      · intro adj2 ia2 ja2 ib2 jb2 _ h
        exact absurd h (by simp)
    | false =>
      refine ⟨adj.get_vertex_elevation ia ja, adj.get_vertex_elevation ib jb, ?_, ?_, ?_⟩
      · simp [Building.wall_intervals, hc, hfl]
      · intro h
        rcases h with h | h
        · exact absurd h (by simp)
        · exact absurd h (by simp)
      · intro adj2 ia2 ja2 ib2 jb2 h _
        simp only [Option.some.injEq, Prod.mk.injEq] at h
        obtain ⟨rfl, rfl, rfl, rfl, rfl⟩ := h
        exact ⟨hmem.1, hmem.2, rfl, rfl⟩

theorem non_building_neighbour_intervals_witness :
    (∀ adj ia ja ib jb,
      Building.find_adjacent [terrain_neighbour] ⟨0, 0⟩ ⟨1, 0⟩ = some (adj, ia, ja, ib, jb) →
      adj.get_class ≠ TopoClass.BUILDING) ∧
    ∃ sa sb : Int,
      Building.wall_intervals { sample_config with building_include_floor := false } 500 0
          (Building.find_adjacent [terrain_neighbour] ⟨0, 0⟩ ⟨1, 0⟩)
        = ([sa], [sb], [500], [500]) ∧
      ((Building.find_adjacent [terrain_neighbour] ⟨0, 0⟩ ⟨1, 0⟩ = none ∨
          ({ sample_config with building_include_floor := false } : Config).building_include_floor
            = true) →
        sa = 0 ∧ sb = 0) ∧
      (∀ adj ia ja ib jb,
        Building.find_adjacent [terrain_neighbour] ⟨0, 0⟩ ⟨1, 0⟩ = some (adj, ia, ja, ib, jb) →
        ({ sample_config with building_include_floor := false } : Config).building_include_floor
          = false →
        adj ∈ [terrain_neighbour] ∧ adj.has_segment ⟨1, 0⟩ ⟨0, 0⟩ = some (ib, jb, ia, ja) ∧
        sa = adj.get_vertex_elevation ia ja ∧ sb = adj.get_vertex_elevation ib jb) :=
  have h : ∀ adj ia ja ib jb,
      Building.find_adjacent [terrain_neighbour] ⟨0, 0⟩ ⟨1, 0⟩ = some (adj, ia, ja, ib, jb) →
      adj.get_class ≠ TopoClass.BUILDING := by
    intro adj ia ja ib jb hf
    have hm := (find_adjacent_some _ _ _ _ _ _ _ _ hf).1
    simp only [List.mem_singleton] at hm
    subst hm
    decide
  ⟨h, non_building_neighbour_intervals { sample_config with building_include_floor := false }
    [terrain_neighbour] ⟨0, 0⟩ ⟨1, 0⟩ 500 0 h⟩

/-- A concrete run of the interval construction against a terrain neighbour without
floor inclusion: the a-side starts at the neighbour's height at the vertex matching
`a` (`120`), the b-side at the one matching `b` (`130`). -/
theorem terrain_neighbour_intervals :
    Building.wall_intervals { sample_config with building_include_floor := false } 500 0
        (Building.find_adjacent [terrain_neighbour] ⟨0, 0⟩ ⟨1, 0⟩)
      = ([120], [130], [500], [500]) := by
  decide

/-- The interval lists of an edge shared with an adjacent building: the foundation
segment, the inner-wall segment and the segment above the neighbour's roof, each
present under its own condition, the same lists on both sides. -/
theorem shared_wall_intervals (cfg : Config) (roofheight baseheight : Int)
    (adj : AdjFeature) (ia ja ib jb : Int) (hc : adj.get_class = TopoClass.BUILDING) :
    Building.wall_intervals cfg roofheight baseheight (some (adj, ia, ja, ib, jb))
      = ((if cfg.building_include_floor = true ∧ baseheight < adj.get_height_base
            then [baseheight] else []) ++
          (if cfg.building_inner_walls = true
            then [if cfg.building_include_floor = true ∧ baseheight < adj.get_height_base
                    then adj.get_height_base else baseheight] else []) ++
          (if roofheight > adj.get_vertex_elevation ia ja
            then [adj.get_vertex_elevation ia ja] else []),
         (if cfg.building_include_floor = true ∧ baseheight < adj.get_height_base
            then [baseheight] else []) ++
          (if cfg.building_inner_walls = true
            then [if cfg.building_include_floor = true ∧ baseheight < adj.get_height_base
                    then adj.get_height_base else baseheight] else []) ++
          (if roofheight > adj.get_vertex_elevation ia ja
            then [adj.get_vertex_elevation ia ja] else []),
         (if cfg.building_include_floor = true ∧ baseheight < adj.get_height_base
            then [adj.get_height_base] else []) ++
          (if cfg.building_inner_walls = true
            then [min roofheight (adj.get_vertex_elevation ia ja)] else []) ++
          (if roofheight > adj.get_vertex_elevation ia ja then [roofheight] else []),
         (if cfg.building_include_floor = true ∧ baseheight < adj.get_height_base
            then [adj.get_height_base] else []) ++
          (if cfg.building_inner_walls = true
            then [min roofheight (adj.get_vertex_elevation ia ja)] else []) ++
          (if roofheight > adj.get_vertex_elevation ia ja then [roofheight] else [])) := by
  unfold Building.wall_intervals
  simp only [hc, ne_eq, not_true_eq_false, if_false]
  by_cases hf : cfg.building_include_floor = true ∧ baseheight < adj.get_height_base <;>
    by_cases hi : cfg.building_inner_walls = true <;>
    by_cases hr : roofheight > adj.get_vertex_elevation ia ja
  all_goals
    first
    | (have hmin : min roofheight (adj.get_vertex_elevation ia ja)
          = adj.get_vertex_elevation ia ja := min_eq_right (le_of_lt hr)
       simp [hf, hi, hr, hmin])
    | (have hmin : min roofheight (adj.get_vertex_elevation ia ja) = roofheight :=
          min_eq_left (not_lt.mp hr)
       simp [hf, hi, hr, hmin])

/-- C13, the claim fails: this building's roof (`200`) is lower than the neighbouring
building's roof (`300`), the two differ, and the interval list holds no segment from
`200` to `300`: it is empty without floor inclusion and inner walls, and holds the
foundation segment `(0, 100)` and the inner-wall segment `(100, 200)` with both. -/
theorem lower_building_has_no_party_wall :
    Building.wall_intervals
        bare_config
        200 0 (Building.find_adjacent [building_neighbour] ⟨0, 0⟩ ⟨1, 0⟩)
      = ([], [], [], []) ∧
    Building.wall_intervals
        floor_inner_config
        200 0 (Building.find_adjacent [building_neighbour] ⟨0, 0⟩ ⟨1, 0⟩)
      = ([0, 100], [0, 100], [100, 200], [100, 200]) := by
  constructor <;> decide

/-- C13 as amended: for an edge shared with an adjacent building, whenever this
building's roof height is greater than the neighbour's roof height at the matching
vertex, the interval list ends with the party-wall segment from the neighbour's roof
height up to this building's roof height, for every setting of floor inclusion and
inner-wall generation; when this building's roof is not the higher one, nothing is
added for the roof difference and the list holds the foundation and inner-wall
segments only. -/
theorem party_wall_above_lower_neighbour (cfg : Config) (roofheight baseheight : Int)
    (adj : AdjFeature) (ia ja ib jb : Int) (hc : adj.get_class = TopoClass.BUILDING) :
    ∃ awall awallend : List Int,
      Building.wall_intervals cfg roofheight baseheight (some (adj, ia, ja, ib, jb))
        = (awall, awall, awallend, awallend) ∧
      awall.length = awallend.length ∧
      (roofheight > adj.get_vertex_elevation ia ja →
        (awall.zip awallend).getLast? = some (adj.get_vertex_elevation ia ja, roofheight)) ∧
      (¬ roofheight > adj.get_vertex_elevation ia ja →
        awall.zip awallend =
          (if cfg.building_include_floor = true ∧ baseheight < adj.get_height_base
            then [(baseheight, adj.get_height_base)] else []) ++
          (if cfg.building_inner_walls = true
            then [(if cfg.building_include_floor = true ∧ baseheight < adj.get_height_base
                    then adj.get_height_base else baseheight, roofheight)] else [])) := by
  refine ⟨_, _, shared_wall_intervals cfg roofheight baseheight adj ia ja ib jb hc, ?_, ?_, ?_⟩
  · by_cases hf : cfg.building_include_floor = true ∧ baseheight < adj.get_height_base <;>
      by_cases hi : cfg.building_inner_walls = true <;>
      by_cases hr : roofheight > adj.get_vertex_elevation ia ja <;>
      simp [hf, hi, hr]
  · intro hr
    by_cases hf : cfg.building_include_floor = true ∧ baseheight < adj.get_height_base <;>
      by_cases hi : cfg.building_inner_walls = true <;>
      simp [hf, hi, hr]
  · intro hr
    have hmin : min roofheight (adj.get_vertex_elevation ia ja) = roofheight :=
      min_eq_left (not_lt.mp hr)
    by_cases hf : cfg.building_include_floor = true ∧ baseheight < adj.get_height_base <;>
      by_cases hi : cfg.building_inner_walls = true <;>
      simp [hf, hi, hr, hmin]

theorem party_wall_above_lower_neighbour_witness :
    building_neighbour.get_class = TopoClass.BUILDING ∧
    ∃ awall awallend : List Int,
      Building.wall_intervals sample_config 500 0 (some (building_neighbour, 0, 0, 0, 1))
        = (awall, awall, awallend, awallend) ∧
      awall.length = awallend.length ∧
      ((500 : Int) > building_neighbour.get_vertex_elevation 0 0 →
        (awall.zip awallend).getLast? = some (building_neighbour.get_vertex_elevation 0 0, 500)) ∧
      (¬ (500 : Int) > building_neighbour.get_vertex_elevation 0 0 →
        awall.zip awallend =
          (if sample_config.building_include_floor = true ∧
              (0 : Int) < building_neighbour.get_height_base
            then [((0 : Int), building_neighbour.get_height_base)] else []) ++
          (if sample_config.building_inner_walls = true
            then [(if sample_config.building_include_floor = true ∧
                      (0 : Int) < building_neighbour.get_height_base
                    then building_neighbour.get_height_base else 0, (500 : Int))] else [])) :=
  ⟨rfl, party_wall_above_lower_neighbour sample_config 500 0 building_neighbour 0 0 0 1 rfl⟩

/-- C14, the claim fails for a base height equal to the roof height: two buildings
with roof height `300` at the shared vertex, floor inclusion disabled, inner walls
enabled and own base height `300` give the single interval `(300, 300)`, an entry
whose start equals its end. -/
theorem equal_roofs_zero_height_entry :
    Building.wall_intervals
        inner_walls_config
        300 300 (Building.find_adjacent [building_neighbour] ⟨0, 0⟩ ⟨1, 0⟩)
      = ([300], [300], [300], [300]) := by
  decide

/-- C14 as amended: for an edge shared between two buildings whose roof heights at
the shared vertex are equal, with floor inclusion disabled, the interval list holds no
party-wall segment above the roofline: it is empty without inner walls, and with inner
walls its only entry runs from this building's base height to the roof height; so an
entry whose start equals its end exists only when inner walls are generated and the
base height equals the roof height. -/
theorem equal_roofs_no_party_wall (cfg : Config) (roofheight baseheight : Int)
    (adj : AdjFeature) (ia ja ib jb : Int) (hc : adj.get_class = TopoClass.BUILDING)
    (hroof : roofheight = adj.get_vertex_elevation ia ja)
    (hfloor : cfg.building_include_floor = false) :
    ∃ awall awallend : List Int,
      Building.wall_intervals cfg roofheight baseheight (some (adj, ia, ja, ib, jb))
        = (awall, awall, awallend, awallend) ∧
      awall.zip awallend
        = (if cfg.building_inner_walls = true then [(baseheight, roofheight)] else []) ∧
      awall.length = awallend.length ∧
      ((∃ p ∈ awall.zip awallend, p.1 = p.2) ↔
        (cfg.building_inner_walls = true ∧ baseheight = roofheight)) := by
  have hr : ¬ roofheight > adj.get_vertex_elevation ia ja := by omega
  have hmin : min roofheight (adj.get_vertex_elevation ia ja) = roofheight :=
    min_eq_left (not_lt.mp hr)
  refine ⟨_, _, shared_wall_intervals cfg roofheight baseheight adj ia ja ib jb hc, ?_, ?_, ?_⟩
  · by_cases hi : cfg.building_inner_walls = true <;> simp [hfloor, hi, hr, hmin]
  · by_cases hi : cfg.building_inner_walls = true <;> simp [hfloor, hi, hr]
  · by_cases hi : cfg.building_inner_walls = true <;> simp [hfloor, hi, hr, hmin]

theorem equal_roofs_no_party_wall_witness :
    building_neighbour.get_class = TopoClass.BUILDING ∧
    (300 : Int) = building_neighbour.get_vertex_elevation 0 0 ∧
    inner_walls_config.building_include_floor = false ∧
    ∃ awall awallend : List Int,
      Building.wall_intervals
          inner_walls_config
          300 0 (some (building_neighbour, 0, 0, 0, 1))
        = (awall, awall, awallend, awallend) ∧
      awall.zip awallend
        = (if inner_walls_config.building_inner_walls = true
            then [((0 : Int), (300 : Int))] else []) ∧
      awall.length = awallend.length ∧
      ((∃ p ∈ awall.zip awallend, p.1 = p.2) ↔
        (inner_walls_config.building_inner_walls = true ∧
          (0 : Int) = 300)) :=
  ⟨rfl, rfl, rfl,
    equal_roofs_no_party_wall
      inner_walls_config
      300 0 building_neighbour 0 0 0 1 rfl rfl rfl⟩

/-- C20: for an edge shared with an adjacent building the interval list is, in this
order: the foundation segment (own base, neighbour base), present exactly when floor
inclusion is enabled and the own base is lower than the neighbour's; the inner-wall
segment, present exactly when inner-wall generation is enabled, from the possibly
raised base (the neighbour's base when the foundation segment was emitted, the own
base otherwise) up to the lower of the two roof heights; and, above the lower
roofline, the segment from the neighbour's roof to the own roof when the own roof is
the higher. The a-side and b-side lists are identical. -/
theorem shared_wall_lower_segments (cfg : Config) (roofheight baseheight : Int)
    (adj : AdjFeature) (ia ja ib jb : Int) (hc : adj.get_class = TopoClass.BUILDING) :
    ∃ awall bwall awallend bwallend : List Int,
      Building.wall_intervals cfg roofheight baseheight (some (adj, ia, ja, ib, jb))
        = (awall, bwall, awallend, bwallend) ∧
      bwall = awall ∧ bwallend = awallend ∧ awall.length = awallend.length ∧
      awall.zip awallend =
        (if cfg.building_include_floor = true ∧ baseheight < adj.get_height_base
          then [(baseheight, adj.get_height_base)] else []) ++
        (if cfg.building_inner_walls = true
          then [(if cfg.building_include_floor = true ∧ baseheight < adj.get_height_base
                  then adj.get_height_base else baseheight,
                 min roofheight (adj.get_vertex_elevation ia ja))] else []) ++
        (if roofheight > adj.get_vertex_elevation ia ja
          then [(adj.get_vertex_elevation ia ja, roofheight)] else []) := by
  refine ⟨_, _, _, _, shared_wall_intervals cfg roofheight baseheight adj ia ja ib jb hc,
    rfl, rfl, ?_, ?_⟩
  · by_cases hf : cfg.building_include_floor = true ∧ baseheight < adj.get_height_base <;>
      by_cases hi : cfg.building_inner_walls = true <;>
      by_cases hr : roofheight > adj.get_vertex_elevation ia ja <;>
      simp [hf, hi, hr]
  · by_cases hf : cfg.building_include_floor = true ∧ baseheight < adj.get_height_base <;>
      by_cases hi : cfg.building_inner_walls = true <;>
      by_cases hr : roofheight > adj.get_vertex_elevation ia ja <;>
      simp [hf, hi, hr]

theorem shared_wall_lower_segments_witness :
    building_neighbour.get_class = TopoClass.BUILDING ∧
    ∃ awall bwall awallend bwallend : List Int,
      Building.wall_intervals
          floor_inner_config 500 0
          (some (building_neighbour, 0, 0, 0, 1))
        = (awall, bwall, awallend, bwallend) ∧
      bwall = awall ∧ bwallend = awallend ∧ awall.length = awallend.length ∧
      awall.zip awallend =
        (if floor_inner_config.building_include_floor
              = true ∧ (0 : Int) < building_neighbour.get_height_base
          then [((0 : Int), building_neighbour.get_height_base)] else []) ++
        (if floor_inner_config.building_inner_walls
              = true
          then [(if floor_inner_config.building_include_floor = true ∧
                    (0 : Int) < building_neighbour.get_height_base
                  then building_neighbour.get_height_base else 0,
                 min (500 : Int) (building_neighbour.get_vertex_elevation 0 0))] else []) ++
        (if (500 : Int) > building_neighbour.get_vertex_elevation 0 0
          then [(building_neighbour.get_vertex_elevation 0 0, (500 : Int))] else []) :=
  ⟨rfl, shared_wall_lower_segments floor_inner_config 500 0
    building_neighbour 0 0 0 1 rfl⟩

/-- A concrete run of the shared-wall interval construction with floor inclusion and
inner walls: foundation `(0, 100)`, inner wall `(100, 300)`, party wall `(300, 500)`. -/
theorem building_neighbour_intervals :
    Building.wall_intervals floor_inner_config 500 0
        (Building.find_adjacent [building_neighbour] ⟨0, 0⟩ ⟨1, 0⟩)
      = ([0, 100, 300], [0, 100, 300], [100, 300, 500], [100, 300, 500]) := by
  decide

/-- C18: `construct_building_walls` only appends to the wall vertex and wall triangle
buffers. For every input, the state reached (also the one reached before an undefined
read) is the initial object with new entries after the prior contents of these two
buffers; the roof/floor vertex and triangle buffers, the sample and distance
sequences and the derived heights are the initial ones. -/
theorem walls_only_append (env : Collaborators) (cfg : Config) (nc : NodeColumn)
    (s : Building) :
    ∃ (newv : List (Point3 × String)) (newt : List Triangle),
      (Building.construct_building_walls env cfg nc s).state
        = { s with vertices_vw := s.vertices_vw ++ newv,
                   triangles_vw := s.triangles_vw ++ newt } ∧
      (Building.construct_building_walls env cfg nc s).state.vertices_vw
        = s.vertices_vw ++ newv ∧
      (Building.construct_building_walls env cfg nc s).state.triangles_vw
        = s.triangles_vw ++ newt ∧
      (Building.construct_building_walls env cfg nc s).state.vertices = s.vertices ∧
      (Building.construct_building_walls env cfg nc s).state.triangles = s.triangles ∧
      (Building.construct_building_walls env cfg nc s).state.zvaluesground = s.zvaluesground ∧
      (Building.construct_building_walls env cfg nc s).state.zvaluesinside = s.zvaluesinside ∧
      (Building.construct_building_walls env cfg nc s).state.distancesinside
        = s.distancesinside ∧
      (Building.construct_building_walls env cfg nc s).state.height_base = s.height_base ∧
      (Building.construct_building_walls env cfg nc s).state.height = s.height := by
  obtain ⟨newv, newt, hs, -, -⟩ := construct_building_walls_extends env cfg nc s
  refine ⟨newv, newt, hs, ?_, ?_, ?_, ?_, ?_, ?_, ?_, ?_, ?_⟩ <;> rw [hs]

/-! ## Walking an interval -/

theorem appends_refl (s : Building) : appends s s [] [] := by
  simp [appends]

theorem appends_trans (s s1 s2 : Building) (v1 v2 : List (Point3 × String))
    (t1 t2 : List Triangle) (h1 : appends s s1 v1 t1) (h2 : appends s1 s2 v2 t2) :
    appends s s2 (v1 ++ v2) (t1 ++ t2) := by
  unfold appends at *
  rw [h2, h1]
  simp [List.append_assoc]

theorem push_b_step_appends (env : Collaborators) (a b : Point2) (za zb zb1 : Int)
    (s : Building) :
    ∃ t : Triangle, appends s (Building.push_b_step env a b za zb zb1 s)
      [wall_vertex env a za, wall_vertex env b zb, wall_vertex env b zb1] [t] := by
  refine ⟨⟨((s.vertices_vw.length + 3 : Nat) : Int) - 2,
    ((s.vertices_vw.length + 3 : Nat) : Int) - 3,
    ((s.vertices_vw.length + 3 : Nat) : Int) - 1⟩, ?_⟩
  simp [appends, Building.push_b_step, wall_vertex, List.append_assoc]

theorem push_a_step_appends (env : Collaborators) (a b : Point2) (zb za za1 : Int)
    (s : Building) :
    ∃ t : Triangle, appends s (Building.push_a_step env a b zb za za1 s)
      [wall_vertex env b zb, wall_vertex env a za, wall_vertex env a za1] [t] := by
  refine ⟨⟨((s.vertices_vw.length + 3 : Nat) : Int) - 3,
    ((s.vertices_vw.length + 3 : Nat) : Int) - 2,
    ((s.vertices_vw.length + 3 : Nat) : Int) - 1⟩, ?_⟩
  simp [appends, Building.push_a_step, wall_vertex, List.append_assoc]

theorem drop_cons_getElem? {α : Type} (l : List α) (n : Nat) (x : α) (tl : List α)
    (h : l.drop n = x :: tl) : l[n]? = some x ∧ l.drop (n + 1) = tl := by
  constructor
  · have := congrArg List.head? h
    simpa [List.head?_drop] using this
  · have := congrArg List.tail h
    simpa [List.tail_drop] using this

/-- The first `while` loop when `*sait` can be read and the end position is not
before the start position, inside the column: it ends normally after `ebit - sbit`
triangles, and every vertex it pushes is `a` at the height read from `*sait` or `b`
at a column entry between the two positions. -/
theorem walk_b_spec (env : Collaborators) (a b : Point2) (anc bnc : List Int)
    (sait ebit : Nat) (za : Int) (hza : anc[sait]? = some za) (hebit : ebit < bnc.length) :
    ∀ (rest : List Int) (sbit : Nat) (s : Building), bnc.drop sbit = rest → sbit ≤ ebit →
      ∃ (s1 : Building) (newv : List (Point3 × String)) (newt : List Triangle),
        Building.walk_b env a b anc sait ebit rest sbit s = .done s1 ∧
        appends s s1 newv newt ∧ newt.length = ebit - sbit ∧
        newv.length = 3 * (ebit - sbit) ∧
        ∀ v ∈ newv, v = wall_vertex env a za ∨ on_column env b bnc sbit ebit v := by
  intro rest
  induction rest with
  | nil =>
    intro sbit s hdrop hle
    have : bnc.length ≤ sbit := List.drop_eq_nil_iff.mp hdrop
    omega
  | cons zb tl ih =>
    intro sbit s hdrop hle
    obtain ⟨hzb, hdrop1⟩ := drop_cons_getElem? bnc sbit zb tl hdrop
    cases tl with
    | nil =>
      have hlen : bnc.length ≤ sbit + 1 := List.drop_eq_nil_iff.mp hdrop1
      have heq : ebit = sbit := by omega
      subst heq
      exact ⟨s, [], [], by simp [Building.walk_b], appends_refl s, by simp, by simp, by simp⟩
    | cons zb1 rest =>
      rw [Building.walk_b]
      by_cases hne : sbit = ebit
      · subst hne
        exact ⟨s, [], [], by simp, appends_refl s, by simp, by simp, by simp⟩
      · obtain ⟨hzb1, -⟩ := drop_cons_getElem? bnc (sbit + 1) zb1 rest hdrop1
        obtain ⟨s1, newv, newt, hrun, happ, hnt, hnv, hall⟩ :=
          ih (sbit + 1) (Building.push_b_step env a b za zb zb1 s) hdrop1 (by omega)
        obtain ⟨t, hpush⟩ := push_b_step_appends env a b za zb zb1 s
        refine ⟨s1, _, _, ?_, appends_trans _ _ _ _ _ _ _ hpush happ, ?_, ?_, ?_⟩
        · simp only [ne_eq, hne, not_false_eq_true, if_true, hza]
          exact hrun
        · simp [hnt]; omega
        · simp [hnv]; omega
        · intro v hv
          simp only [List.cons_append, List.nil_append, List.mem_cons] at hv
          rcases hv with rfl | rfl | rfl | hv
          · exact Or.inl rfl
          · exact Or.inr ⟨sbit, zb, le_refl _, hle, hzb, rfl⟩
          · exact Or.inr ⟨sbit + 1, zb1, by omega, by omega, hzb1, rfl⟩
          · rcases hall v hv with h | ⟨t, h, h1, h2, h3, h4⟩
            · exact Or.inl h
            · exact Or.inr ⟨t, h, by omega, h2, h3, h4⟩

/-- The second `while` loop when `*ebit` can be read and the end position is not
before the start position, inside the column: it ends normally after `eait - sait`
triangles, and every vertex it pushes is `b` at the height read from `*ebit` or `a`
at a column entry between the two positions. -/
theorem walk_a_spec (env : Collaborators) (a b : Point2) (anc bnc : List Int)
    (eait ebit : Nat) (zb : Int) (hzb : bnc[ebit]? = some zb) (heait : eait < anc.length) :
    ∀ (rest : List Int) (sait : Nat) (s : Building), anc.drop sait = rest → sait ≤ eait →
      ∃ (s1 : Building) (newv : List (Point3 × String)) (newt : List Triangle),
        Building.walk_a env a b bnc eait ebit rest sait s = .done s1 ∧
        appends s s1 newv newt ∧ newt.length = eait - sait ∧
        newv.length = 3 * (eait - sait) ∧
        ∀ v ∈ newv, v = wall_vertex env b zb ∨ on_column env a anc sait eait v := by
  intro rest
  induction rest with
  | nil =>
    intro sait s hdrop hle
    have : anc.length ≤ sait := List.drop_eq_nil_iff.mp hdrop
    omega
  | cons za tl ih =>
    intro sait s hdrop hle
    obtain ⟨hza, hdrop1⟩ := drop_cons_getElem? anc sait za tl hdrop
    cases tl with
    | nil =>
      have hlen : anc.length ≤ sait + 1 := List.drop_eq_nil_iff.mp hdrop1
      have heq : eait = sait := by omega
      subst heq
      exact ⟨s, [], [], by simp [Building.walk_a], appends_refl s, by simp, by simp, by simp⟩
    | cons za1 rest =>
      rw [Building.walk_a]
      by_cases hne : sait = eait
      · subst hne
        exact ⟨s, [], [], by simp, appends_refl s, by simp, by simp, by simp⟩
      · obtain ⟨hza1, -⟩ := drop_cons_getElem? anc (sait + 1) za1 rest hdrop1
        obtain ⟨s1, newv, newt, hrun, happ, hnt, hnv, hall⟩ :=
          ih (sait + 1) (Building.push_a_step env a b zb za za1 s) hdrop1 (by omega)
        obtain ⟨t, hpush⟩ := push_a_step_appends env a b zb za za1 s
        refine ⟨s1, _, _, ?_, appends_trans _ _ _ _ _ _ _ hpush happ, ?_, ?_, ?_⟩
        · simp only [ne_eq, hne, not_false_eq_true, if_true, hzb]
          exact hrun
        · simp [hnt]; omega
        · simp [hnv]; omega
        · intro v hv
          simp only [List.cons_append, List.nil_append, List.mem_cons] at hv
          rcases hv with rfl | rfl | rfl | hv
          · exact Or.inl rfl
          · exact Or.inr ⟨sait, za, le_refl _, hle, hza, rfl⟩
          · exact Or.inr ⟨sait + 1, za1, by omega, by omega, hza1, rfl⟩
          · rcases hall v hv with h | ⟨t, h, h1, h2, h3, h4⟩
            · exact Or.inl h
            · exact Or.inr ⟨t, h, by omega, h2, h3, h4⟩

theorem getElem?_indexOf_of_mem (l : List Int) (x : Int) (h : x ∈ l) :
    l[l.indexOf x]? = some x := by
  have hlt : l.indexOf x < l.length := List.indexOf_lt_length.mpr h
  rw [List.getElem?_eq_getElem hlt]
  simp

/-- The walk of one interval whose four heights are found in the columns, start not
after end: it ends normally, appends `(l - k) + (j - i)` triangles and three times as
many vertices, and every vertex is `a` at a column entry between the a-side markers
or `b` at a column entry between the b-side markers. -/
theorem walk_interval_spec (env : Collaborators) (a b : Point2) (anc bnc : List Int)
    (sa sb ea eb : Int) (s : Building) (h : interval_in_columns anc bnc sa sb ea eb) :
    ∃ (s1 : Building) (newv : List (Point3 × String)) (newt : List Triangle),
      Building.walk_interval env a b anc bnc sa sb ea eb s = .done s1 ∧
      appends s s1 newv newt ∧
      newt.length = (bnc.indexOf eb - bnc.indexOf sb) + (anc.indexOf ea - anc.indexOf sa) ∧
      newv.length
        = 3 * ((bnc.indexOf eb - bnc.indexOf sb) + (anc.indexOf ea - anc.indexOf sa)) ∧
      ∀ v ∈ newv, on_column env a anc (anc.indexOf sa) (anc.indexOf ea) v ∨
        on_column env b bnc (bnc.indexOf sb) (bnc.indexOf eb) v := by
  obtain ⟨hsa, hea, hsb, heb, hale, hble⟩ := h
  have hza := getElem?_indexOf_of_mem anc sa hsa
  have hzb := getElem?_indexOf_of_mem bnc eb heb
  have heait : anc.indexOf ea < anc.length := List.indexOf_lt_length.mpr hea
  have hebit : bnc.indexOf eb < bnc.length := List.indexOf_lt_length.mpr heb
  obtain ⟨s1, v1, t1, hrun1, happ1, hnt1, hnv1, hall1⟩ :=
    walk_b_spec env a b anc bnc (anc.indexOf sa) (bnc.indexOf eb) sa hza hebit
      (bnc.drop (bnc.indexOf sb)) (bnc.indexOf sb) s rfl hble
  obtain ⟨s2, v2, t2, hrun2, happ2, hnt2, hnv2, hall2⟩ :=
    walk_a_spec env a b anc bnc (anc.indexOf ea) (bnc.indexOf eb) eb hzb heait
      (anc.drop (anc.indexOf sa)) (anc.indexOf sa) s1 rfl hale
  refine ⟨s2, v1 ++ v2, t1 ++ t2, ?_, appends_trans _ _ _ _ _ _ _ happ1 happ2, ?_, ?_, ?_⟩
  · unfold Building.walk_interval
    simp only [hrun1, hrun2]
  · simp [hnt1, hnt2]
  · simp [hnv1, hnv2]; omega
  · intro v hv
    rcases List.mem_append.mp hv with hv | hv
    · rcases hall1 v hv with h | h
      · exact Or.inl ⟨anc.indexOf sa, sa, le_refl _, hale, hza, h⟩
      · exact Or.inr h
    · rcases hall2 v hv with h | h
      · exact Or.inr ⟨bnc.indexOf eb, eb, hble, le_refl _, hzb, h⟩
      · exact Or.inl h

theorem appends_lengths (s s1 : Building) (newv : List (Point3 × String))
    (newt : List Triangle) (h : appends s s1 newv newt) :
    s1.vertices_vw.length = s.vertices_vw.length + newv.length ∧
    s1.triangles_vw.length = s.triangles_vw.length + newt.length := by
  unfold appends at h
  rw [h]
  simp

/-- C15: walking one interval emits one triangle per node-column step on each side.
If the interval's start and end heights sit at positions `i ≤ j` of endpoint `a`'s
node column and at positions `k ≤ l` of endpoint `b`'s node column (positions as
`std::find` gives them, all inside the columns), the walk ends normally and appends
exactly `(l - k) + (j - i)` triangles and three times as many vertices. -/
theorem walk_interval_triangle_count (env : Collaborators) (a b : Point2)
    (anc bnc : List Int) (sa sb ea eb : Int) (s : Building) (i j k l : Nat)
    (hi : anc.indexOf sa = i) (hj : anc.indexOf ea = j)
    (hk : bnc.indexOf sb = k) (hl : bnc.indexOf eb = l)
    (hij : i ≤ j) (hkl : k ≤ l) (hja : j < anc.length) (hlb : l < bnc.length) :
    ∃ s1 : Building,
      Building.walk_interval env a b anc bnc sa sb ea eb s = .done s1 ∧
      s1.triangles_vw.length = s.triangles_vw.length + ((l - k) + (j - i)) ∧
      s1.vertices_vw.length = s.vertices_vw.length + 3 * ((l - k) + (j - i)) := by
  subst hi hj hk hl
  have hcov : interval_in_columns anc bnc sa sb ea eb :=
    ⟨List.indexOf_lt_length.mp (by omega), List.indexOf_lt_length.mp hja,
      List.indexOf_lt_length.mp (by omega), List.indexOf_lt_length.mp hlb, hij, hkl⟩
  obtain ⟨s1, newv, newt, hrun, happ, hnt, hnv, -⟩ :=
    walk_interval_spec env a b anc bnc sa sb ea eb s hcov
  obtain ⟨h1, h2⟩ := appends_lengths s s1 newv newt happ
  exact ⟨s1, hrun, by rw [h2, hnt], by rw [h1, hnv]⟩

theorem walk_interval_triangle_count_witness :
    (([0, 300] : List Int).indexOf 0 = 0 ∧ ([0, 300] : List Int).indexOf 300 = 1 ∧
      (0 : Nat) ≤ 1 ∧ 1 < ([0, 300] : List Int).length ∧
      ∃ s1 : Building,
        Building.walk_interval sample_env ⟨0, 0⟩ ⟨1, 0⟩ [0, 300] [0, 300] 0 0 300 300
          blank_building = .done s1 ∧
        s1.triangles_vw.length = blank_building.triangles_vw.length + ((1 - 0) + (1 - 0)) ∧
        s1.vertices_vw.length
          = blank_building.vertices_vw.length + 3 * ((1 - 0) + (1 - 0))) ∧
    (([0, 100, 200, 300] : List Int).indexOf 0 = 0 ∧
      ([0, 100, 200, 300] : List Int).indexOf 300 = 3 ∧
      (0 : Nat) ≤ 3 ∧ 3 < ([0, 100, 200, 300] : List Int).length ∧
      ∃ s1 : Building,
        Building.walk_interval sample_env ⟨0, 0⟩ ⟨1, 0⟩ [0, 100, 200, 300] [0, 100, 200, 300]
          0 0 300 300 blank_building = .done s1 ∧
        s1.triangles_vw.length = blank_building.triangles_vw.length + ((3 - 0) + (3 - 0)) ∧
        s1.vertices_vw.length
          = blank_building.vertices_vw.length + 3 * ((3 - 0) + (3 - 0))) :=
  ⟨⟨by decide, by decide, by decide, by decide,
      walk_interval_triangle_count sample_env ⟨0, 0⟩ ⟨1, 0⟩ [0, 300] [0, 300] 0 0 300 300
        blank_building 0 1 0 1 (by decide) (by decide) (by decide) (by decide)
        (by decide) (by decide) (by decide) (by decide)⟩,
    ⟨by decide, by decide, by decide, by decide,
      walk_interval_triangle_count sample_env ⟨0, 0⟩ ⟨1, 0⟩ [0, 100, 200, 300]
        [0, 100, 200, 300] 0 0 300 300 blank_building 0 3 0 3 (by decide) (by decide)
        (by decide) (by decide) (by decide) (by decide) (by decide) (by decide)⟩⟩

/-! ## Vertices on the node columns -/

/-- The four interval vectors of an edge have the same length. -/
theorem wall_intervals_lengths (cfg : Config) (roofheight baseheight : Int)
    (fadj : Option (AdjFeature × Int × Int × Int × Int)) :
    (Building.wall_intervals cfg roofheight baseheight fadj).2.1.length
      = (Building.wall_intervals cfg roofheight baseheight fadj).1.length ∧
    (Building.wall_intervals cfg roofheight baseheight fadj).2.2.1.length
      = (Building.wall_intervals cfg roofheight baseheight fadj).1.length ∧
    (Building.wall_intervals cfg roofheight baseheight fadj).2.2.2.length
      = (Building.wall_intervals cfg roofheight baseheight fadj).1.length := by
  cases fadj with
  | none => simp [Building.wall_intervals]
  | some r =>
    obtain ⟨adj, ia, ja, ib, jb⟩ := r
    by_cases hc : adj.get_class = TopoClass.BUILDING
    · rw [shared_wall_intervals cfg roofheight baseheight adj ia ja ib jb hc]
      by_cases hf : cfg.building_include_floor = true ∧ baseheight < adj.get_height_base <;>
        by_cases hi : cfg.building_inner_walls = true <;>
        by_cases hr : roofheight > adj.get_vertex_elevation ia ja <;>
        simp [hf, hi, hr]
    · unfold Building.wall_intervals
      by_cases hfl : cfg.building_include_floor = true <;> simp [hc, hfl]

theorem same_frame_of_appends (s0 s s1 : Building) (newv : List (Point3 × String))
    (newt : List Triangle) (h0 : same_frame s0 s) (h : appends s s1 newv newt) :
    same_frame s0 s1 := by
  unfold appends at h
  unfold same_frame at *
  rw [h]
  exact h0

/-- The loop over the intervals when every interval has its heights in the columns:
it ends normally and every vertex it pushes is `Good`. -/
theorem walk_intervals_spec (Good : Point3 × String → Prop) (env : Collaborators)
    (a b : Point2) (anc bnc awall bwall awallend bwallend : List Int)
    (hlen : bwall.length = awall.length ∧ awallend.length = awall.length ∧
      bwallend.length = awall.length)
    (hcov : ∀ (m : Nat) (sa sb ea eb : Int), awall[m]? = some sa → bwall[m]? = some sb →
      awallend[m]? = some ea → bwallend[m]? = some eb →
      interval_in_columns anc bnc sa sb ea eb ∧
      ∀ v, (on_column env a anc (anc.indexOf sa) (anc.indexOf ea) v ∨
        on_column env b bnc (bnc.indexOf sb) (bnc.indexOf eb) v) → Good v)
    (s : Building) :
    ∃ (s1 : Building) (newv : List (Point3 × String)) (newt : List Triangle),
      Building.walk_intervals env a b anc bnc awall bwall awallend bwallend s = .done s1 ∧
      appends s s1 newv newt ∧ ∀ v ∈ newv, Good v := by
  unfold Building.walk_intervals
  have key : ∀ n : Nat, n ≤ awall.length →
      ∃ (s1 : Building) (newv : List (Point3 × String)) (newt : List Triangle),
        (List.range n).foldl
          (Building.interval_step env a b anc bnc awall bwall awallend bwallend) (.done s)
          = .done s1 ∧
        appends s s1 newv newt ∧ ∀ v ∈ newv, Good v := by
    intro n
    induction n with
    | zero =>
      intro _
      exact ⟨s, [], [], by simp, appends_refl s, by simp⟩
    | succ n ih =>
      intro hn
      obtain ⟨s1, v1, t1, hrun1, happ1, hall1⟩ := ih (by omega)
      have h1 : n < awall.length := by omega
      have h2 : n < bwall.length := by omega
      have h3 : n < awallend.length := by omega
      have h4 : n < bwallend.length := by omega
      obtain ⟨hin, hgood⟩ := hcov n awall[n] bwall[n] awallend[n] bwallend[n]
        (List.getElem?_eq_getElem h1) (List.getElem?_eq_getElem h2)
        (List.getElem?_eq_getElem h3) (List.getElem?_eq_getElem h4)
      obtain ⟨s2, v2, t2, hrun2, happ2, -, -, hall2⟩ :=
        walk_interval_spec env a b anc bnc awall[n] bwall[n] awallend[n] bwallend[n] s1 hin
      refine ⟨s2, v1 ++ v2, t1 ++ t2, ?_, appends_trans _ _ _ _ _ _ _ happ1 happ2, ?_⟩
      · rw [List.range_succ, List.foldl_append, hrun1]
        simp only [List.foldl_cons, List.foldl_nil, Building.interval_step,
          List.getElem?_eq_getElem h1, List.getElem?_eq_getElem h2,
          List.getElem?_eq_getElem h3, List.getElem?_eq_getElem h4]
        exact hrun2
      · intro v hv
        rcases List.mem_append.mp hv with hv | hv
        · exact hall1 v hv
        · exact hgood v (hall2 v hv)
  exact key awall.length (le_refl _)

/-- The body of the edge loop for a covered edge: it goes on or leaves by `break`,
never by an undefined read, and every vertex it pushes is `Good`. -/
theorem edge_step_spec (Good : Point3 × String → Prop) (env : Collaborators) (cfg : Config)
    (nc : NodeColumn) (s0 : Building) (ring : List Point2) (ringi : Int) (ai : Nat)
    (hcov : edge_covered Good env cfg nc s0 ring ringi ai)
    (s : Building) (hframe : same_frame s0 s) :
    ∃ (s1 : Building) (newv : List (Point3 × String)) (newt : List Triangle),
      (Building.edge_step env cfg nc ring ringi ai s = .next s1 ∨
        Building.edge_step env cfg nc ring ringi ai s = .brk s1) ∧
      appends s s1 newv newt ∧ ∀ v ∈ newv, Good v := by
  obtain ⟨a, b, ha, hb, hc⟩ := hcov
  obtain ⟨hf1, hf2, hf3⟩ := hframe
  unfold Building.edge_step
  simp only [ha, hb]
  by_cases hA : (nc (env.gen_key_bucket a)).getD [] = []
  · by_cases hB : (nc (env.gen_key_bucket b)).getD [] = []
    · exact ⟨s, [], [], Or.inl (by simp [hA, hB]), appends_refl s, by simp⟩
    · exact ⟨s, [], [], Or.inr (by simp [hA, isEmpty_eq_false_of_ne_nil _ hB]),
        appends_refl s, by simp⟩
  · by_cases hB : (nc (env.gen_key_bucket b)).getD [] = []
    · exact ⟨s, [], [], Or.inr (by simp [hB, isEmpty_eq_false_of_ne_nil _ hA]),
        appends_refl s, by simp⟩
    · have hlen := wall_intervals_lengths cfg (s.vertex_elevation ringi ai) s.height_base
        (Building.find_adjacent s.adjFeatures a b)
      have hc2 := hc hA hB
      rw [← hf1, ← hf2, ← hf3] at hc2
      obtain ⟨s1, newv, newt, hrun, happ, hall⟩ :=
        walk_intervals_spec Good env a b ((nc (env.gen_key_bucket a)).getD [])
          ((nc (env.gen_key_bucket b)).getD []) _ _ _ _ hlen hc2 s
      refine ⟨s1, newv, newt, Or.inl ?_, happ, hall⟩
      simp only [isEmpty_eq_false_of_ne_nil _ hA, isEmpty_eq_false_of_ne_nil _ hB,
        Bool.and_self, Bool.or_self, Bool.false_eq_true, if_false]
      rw [hrun]

/-- The loop over the edges of a ring when every edge still to do is covered: it ends
normally and every vertex it pushes is `Good`. -/
theorem walls_ring_spec (Good : Point3 × String → Prop) (env : Collaborators) (cfg : Config)
    (nc : NodeColumn) (s0 : Building) (ring : List Point2) (ringi : Int) :
    ∀ (todo : List Nat), (∀ ai ∈ todo, edge_covered Good env cfg nc s0 ring ringi ai) →
      ∀ (s : Building), same_frame s0 s →
      ∃ (s1 : Building) (newv : List (Point3 × String)) (newt : List Triangle),
        Building.walls_ring env cfg nc ring ringi todo s = .done s1 ∧
        appends s s1 newv newt ∧ ∀ v ∈ newv, Good v := by
  intro todo
  induction todo with
  | nil =>
    intro _ s _
    exact ⟨s, [], [], by simp [Building.walls_ring], appends_refl s, by simp⟩
  | cons ai rest ih =>
    intro hcov s hframe
    obtain ⟨s1, v1, t1, hstep, happ1, hall1⟩ :=
      edge_step_spec Good env cfg nc s0 ring ringi ai (hcov ai (List.mem_cons_self _ _))
        s hframe
    rw [Building.walls_ring]
    rcases hstep with hstep | hstep
    · obtain ⟨s2, v2, t2, hrun, happ2, hall2⟩ :=
        ih (fun x hx => hcov x (List.mem_cons_of_mem _ hx)) s1
          (same_frame_of_appends s0 s s1 v1 t1 hframe happ1)
      refine ⟨s2, v1 ++ v2, t1 ++ t2, ?_, appends_trans _ _ _ _ _ _ _ happ1 happ2, ?_⟩
      · rw [hstep]
        exact hrun
      · intro v hv
        rcases List.mem_append.mp hv with hv | hv
        · exact hall1 v hv
        · exact hall2 v hv
    · exact ⟨s1, v1, t1, by rw [hstep], happ1, hall1⟩

/-- The loop over the rings when every edge of every ring is covered: it ends
normally and every vertex it pushes is `Good`. -/
theorem walls_rings_spec (Good : Point3 × String → Prop) (env : Collaborators) (cfg : Config)
    (nc : NodeColumn) (s0 : Building) :
    ∀ (rings : List (List Point2)) (ringi : Int),
      (∀ (r : Nat) (ring : List Point2), rings[r]? = some ring → ∀ ai, ai < ring.length →
        edge_covered Good env cfg nc s0 ring (ringi + (r : Int)) ai) →
      ∀ (s : Building), same_frame s0 s →
      ∃ (s1 : Building) (newv : List (Point3 × String)) (newt : List Triangle),
        Building.walls_rings env cfg nc rings ringi s = .done s1 ∧
        appends s s1 newv newt ∧ ∀ v ∈ newv, Good v := by
  intro rings
  induction rings with
  | nil =>
    intro ringi _ s _
    exact ⟨s, [], [], by simp [Building.walls_rings], appends_refl s, by simp⟩
  | cons ring rest ih =>
    intro ringi hcov s hframe
    obtain ⟨s1, v1, t1, hrun1, happ1, hall1⟩ :=
      walls_ring_spec Good env cfg nc s0 ring ringi (List.range ring.length)
        (fun ai hai => by
          have := hcov 0 ring (by simp) ai (List.mem_range.mp hai)
          simpa using this)
        s hframe
    obtain ⟨s2, v2, t2, hrun2, happ2, hall2⟩ :=
      ih (ringi + 1)
        (fun r ring2 hr ai hai => by
          have := hcov (r + 1) ring2 (by simpa using hr) ai hai
          have heq : ringi + ((r + 1 : Nat) : Int) = ringi + 1 + (r : Int) := by
            push_cast; ring
          rw [heq] at this
          exact this)
        s1 (same_frame_of_appends s0 s s1 v1 t1 hframe happ1)
    refine ⟨s2, v1 ++ v2, t1 ++ t2, ?_, appends_trans _ _ _ _ _ _ _ happ1 happ2, ?_⟩
    · rw [Building.walls_rings, hrun1]
      exact hrun2
    · intro v hv
      rcases List.mem_append.mp hv with hv | hv
      · exact hall1 v hv
      · exact hall2 v hv

/-- C17: provided every interval's start and end heights occur in the node columns of
both endpoints with the start position not after the end position,
`construct_building_walls` never reads past the end of a node column (the run ends
normally), it only appends to the wall buffers, and every wall vertex it appends
belongs to an interval of an edge `(a, b)` of the footprint and is either `a` at an
entry of `a`'s node column between the interval's a-side start and end markers
inclusive, or `b` at an entry of `b`'s node column between the b-side markers
inclusive. -/
theorem wall_vertices_on_columns (env : Collaborators) (cfg : Config) (nc : NodeColumn)
    (s : Building) (hpre : columns_cover env cfg nc s) :
    ∃ (s1 : Building) (newv : List (Point3 × String)) (newt : List Triangle),
      Building.construct_building_walls env cfg nc s = .done s1 ∧
      s1 = { s with vertices_vw := s.vertices_vw ++ newv,
                    triangles_vw := s.triangles_vw ++ newt } ∧
      ∀ v ∈ newv, ∃ (a b : Point2) (anc bnc : List Int) (sa sb ea eb : Int),
        edge_interval env cfg nc s a b anc bnc sa sb ea eb ∧
        (on_column env a anc (anc.indexOf sa) (anc.indexOf ea) v ∨
          on_column env b bnc (bnc.indexOf sb) (bnc.indexOf eb) v) := by
  unfold Building.construct_building_walls
  apply walls_rings_spec
    (fun v => ∃ (a b : Point2) (anc bnc : List Int) (sa sb ea eb : Int),
      edge_interval env cfg nc s a b anc bnc sa sb ea eb ∧
      (on_column env a anc (anc.indexOf sa) (anc.indexOf ea) v ∨
        on_column env b bnc (bnc.indexOf sb) (bnc.indexOf eb) v))
    env cfg nc s (s.p2.outer :: s.p2.inners) 0 ?_ s ⟨rfl, rfl, rfl⟩
  intro r ring hr ai hai
  have hbi : (if ai = ring.length - 1 then 0 else ai + 1) < ring.length := by
    split <;> omega
  refine ⟨ring[ai], ring[if ai = ring.length - 1 then 0 else ai + 1],
    List.getElem?_eq_getElem hai, List.getElem?_eq_getElem hbi, ?_⟩
  intro hA hB m sa sb ea eb h1 h2 h3 h4
  have hctx : edge_interval env cfg nc s ring[ai]
      ring[if ai = ring.length - 1 then 0 else ai + 1]
      ((nc (env.gen_key_bucket ring[ai])).getD [])
      ((nc (env.gen_key_bucket ring[if ai = ring.length - 1 then 0 else ai + 1])).getD [])
      sa sb ea eb := by
    refine ⟨r, ring, ai, m, hr, List.getElem?_eq_getElem hai, List.getElem?_eq_getElem hbi,
      rfl, rfl, hA, hB, ?_, ?_, ?_, ?_⟩
    · simpa using h1
    · simpa using h2
    · simpa using h3
    · simpa using h4
  exact ⟨hpre _ _ _ _ _ _ _ _ hctx, fun v hv => ⟨_, _, _, _, _, _, _, _, hctx, hv⟩⟩
theorem unit_square_columns_cover :
    columns_cover sample_env sample_config three_level_registry unit_square := by
  intro a b anc bnc sa sb ea eb h
  obtain ⟨ringi, ring, ai, m, -, -, -, hanc, hbnc, -, -, h1, h2, h3, h4⟩ := h
  subst hanc hbnc
  have hw : Building.wall_intervals sample_config
      (unit_square.vertex_elevation (ringi : Int) (ai : Int)) unit_square.height_base
      (Building.find_adjacent unit_square.adjFeatures a b) = ([0], [0], [500], [500]) := rfl
  rw [hw] at h1 h2 h3 h4
  cases m with
  | zero =>
    simp at h1 h2 h3 h4
    subst h1 h2 h3 h4
    simp only [three_level_registry, Option.getD_some]
    unfold interval_in_columns
    decide
  | succ m => simp at h1

theorem wall_vertices_on_columns_witness :
    columns_cover sample_env sample_config three_level_registry unit_square ∧
    ∃ (s1 : Building) (newv : List (Point3 × String)) (newt : List Triangle),
      Building.construct_building_walls sample_env sample_config three_level_registry
        unit_square = .done s1 ∧
      s1 = { unit_square with vertices_vw := unit_square.vertices_vw ++ newv,
                              triangles_vw := unit_square.triangles_vw ++ newt } ∧
      ∀ v ∈ newv, ∃ (a b : Point2) (anc bnc : List Int) (sa sb ea eb : Int),
        edge_interval sample_env sample_config three_level_registry unit_square
          a b anc bnc sa sb ea eb ∧
        (on_column sample_env a anc (anc.indexOf sa) (anc.indexOf ea) v ∨
          on_column sample_env b bnc (bnc.indexOf sb) (bnc.indexOf eb) v) :=
  ⟨unit_square_columns_cover,
    wall_vertices_on_columns sample_env sample_config three_level_registry unit_square
      unit_square_columns_cover⟩

/-! ## A free-standing ring -/

/-- One edge of a free-standing building whose two endpoints have the column
`[B, R]`, `B ≠ R`: the body of the edge loop goes on after two triangles and six
vertices. -/
theorem edge_step_free_standing (env : Collaborators) (cfg : Config) (nc : NodeColumn)
    (ring : List Point2) (ringi : Int) (ai : Nat) (s : Building) (B R : Int) (hBR : B ≠ R)
    (hai : ai < ring.length) (hadj : s.adjFeatures = []) (hbase : s.height_base = B)
    (hroof : s.vertex_elevation ringi ai = R)
    (hnc : ∀ p ∈ ring, nc (env.gen_key_bucket p) = some [B, R]) :
    ∃ (s1 : Building) (newv : List (Point3 × String)) (newt : List Triangle),
      Building.edge_step env cfg nc ring ringi ai s = .next s1 ∧
      appends s s1 newv newt ∧ newt.length = 2 ∧ newv.length = 6 := by
  have hbi : (if ai = ring.length - 1 then 0 else ai + 1) < ring.length := by
    split <;> omega
  have hA := hnc ring[ai] (List.getElem_mem hai)
  have hB := hnc ring[if ai = ring.length - 1 then 0 else ai + 1] (List.getElem_mem hbi)
  have hRB : R ≠ B := fun h => hBR h.symm
  have hcov : interval_in_columns [B, R] [B, R] B B R R := by
    unfold interval_in_columns
    simp [List.indexOf_cons, hBR, hRB]
  obtain ⟨s1, newv, newt, hrun, happ, hnt, hnv, -⟩ :=
    walk_interval_spec env ring[ai] ring[if ai = ring.length - 1 then 0 else ai + 1]
      [B, R] [B, R] B B R R s hcov
  have hi0 : ([B, R] : List Int).indexOf B = 0 := by simp [List.indexOf_cons]
  have hi1 : ([B, R] : List Int).indexOf R = 1 := by simp [List.indexOf_cons, hBR, hRB]
  rw [hi0, hi1] at hnt hnv
  refine ⟨s1, newv, newt, ?_, happ, by simpa using hnt, by simpa using hnv⟩
  unfold Building.edge_step
  simp only [List.getElem?_eq_getElem hai, List.getElem?_eq_getElem hbi, hA, hB, hadj,
    hbase, hroof, Option.getD_some, Building.find_adjacent, List.findSome?_nil,
    Building.wall_intervals, Building.walk_intervals, List.length_singleton]
  simp [List.range_succ, Building.interval_step, hrun]

/-- The edge loop of a free-standing ring with the column `[B, R]` at every vertex:
two triangles and six vertices per edge still to do. -/
theorem walls_ring_free_standing (env : Collaborators) (cfg : Config) (nc : NodeColumn)
    (ring : List Point2) (ringi : Int) (s0 : Building) (B R : Int) (hBR : B ≠ R)
    (hadj : s0.adjFeatures = []) (hbase : s0.height_base = B)
    (hroof : ∀ ai, ai < ring.length → s0.vertex_elevation ringi ai = R)
    (hnc : ∀ p ∈ ring, nc (env.gen_key_bucket p) = some [B, R]) :
    ∀ (todo : List Nat), (∀ ai ∈ todo, ai < ring.length) →
      ∀ (s : Building), same_frame s0 s →
      ∃ (s1 : Building) (newv : List (Point3 × String)) (newt : List Triangle),
        Building.walls_ring env cfg nc ring ringi todo s = .done s1 ∧
        appends s s1 newv newt ∧ newt.length = 2 * todo.length ∧
        newv.length = 6 * todo.length := by
  intro todo
  induction todo with
  | nil =>
    intro _ s _
    exact ⟨s, [], [], by simp [Building.walls_ring], appends_refl s, by simp, by simp⟩
  | cons ai rest ih =>
    intro hlt s hframe
    obtain ⟨hf1, hf2, hf3⟩ := hframe
    have hai := hlt ai (List.mem_cons_self _ _)
    obtain ⟨s1, v1, t1, hstep, happ1, hnt1, hnv1⟩ :=
      edge_step_free_standing env cfg nc ring ringi ai s B R hBR hai
        (by rw [hf3, hadj]) (by rw [hf2, hbase]) (by rw [hf1]; exact hroof ai hai) hnc
    obtain ⟨s2, v2, t2, hrun, happ2, hnt2, hnv2⟩ :=
      ih (fun x hx => hlt x (List.mem_cons_of_mem _ hx)) s1
        (same_frame_of_appends s0 s s1 v1 t1 ⟨hf1, hf2, hf3⟩ happ1)
    refine ⟨s2, v1 ++ v2, t1 ++ t2, ?_, appends_trans _ _ _ _ _ _ _ happ1 happ2, ?_, ?_⟩
    · rw [Building.walls_ring, hstep]
      exact hrun
    · simp [hnt1, hnt2]; omega
    · simp [hnv1, hnv2]; omega

/-- C16: for a footprint that is a single outer ring of `n` vertices with no adjacent
feature, base height `B` and roof height `R` with `B ≠ R`, and the node column
`[B, R]` at every vertex, `construct_building_walls` on empty wall buffers ends
normally with exactly `2n` wall triangles (`n` quads) over `6n` vertices, and no
triangle is degenerate: its three vertex indices are pairwise distinct and inside the
vertex buffer. -/
theorem free_standing_ring_walls (env : Collaborators) (cfg : Config) (nc : NodeColumn)
    (s : Building) (B R : Int) (hBR : B ≠ R) (hin : s.p2.inners = [])
    (hadj : s.adjFeatures = []) (hv : s.vertices_vw = []) (ht : s.triangles_vw = [])
    (hbase : s.height_base = B)
    (hroof : ∀ ai : Nat, ai < s.p2.outer.length → s.vertex_elevation 0 ai = R)
    (hnc : ∀ p ∈ s.p2.outer, nc (env.gen_key_bucket p) = some [B, R]) :
    ∃ s1 : Building,
      Building.construct_building_walls env cfg nc s = .done s1 ∧
      s1.triangles_vw.length = 2 * s.p2.outer.length ∧
      s1.vertices_vw.length = 6 * s.p2.outer.length ∧
      ∀ t ∈ s1.triangles_vw,
        t.v0 ≠ t.v1 ∧ t.v0 ≠ t.v2 ∧ t.v1 ≠ t.v2 ∧
        0 ≤ t.v0 ∧ t.v0 < (s1.vertices_vw.length : Int) ∧
        0 ≤ t.v1 ∧ t.v1 < (s1.vertices_vw.length : Int) ∧
        0 ≤ t.v2 ∧ t.v2 < (s1.vertices_vw.length : Int) := by
  obtain ⟨s1, newv, newt, hrun, happ, hnt, hnv⟩ :=
    walls_ring_free_standing env cfg nc s.p2.outer 0 s B R hBR hadj hbase
      (fun ai hai => hroof ai hai) hnc (List.range s.p2.outer.length)
      (fun ai hai => List.mem_range.mp hai) s ⟨rfl, rfl, rfl⟩
  have hc : Building.construct_building_walls env cfg nc s = .done s1 := by
    unfold Building.construct_building_walls
    rw [hin, Building.walls_rings, hrun]
    simp [Building.walls_rings]
  obtain ⟨hl1, hl2⟩ := appends_lengths s s1 newv newt happ
  have hext := construct_building_walls_extends env cfg nc s
  rw [hc] at hext
  obtain ⟨nv, ntr, hs1, hlen, hall⟩ := hext
  simp only [Run.state] at hs1 hall
  have htr : s1.triangles_vw = ntr := by rw [hs1, ht]; simp
  have hvl : s1.vertices_vw.length = 3 * ntr.length := by rw [hs1, hv]; simp [hlen]
  refine ⟨s1, hc, ?_, ?_, ?_⟩
  · rw [hl2, ht, hnt]; simp
  · rw [hl1, hv, hnv]; simp
  · intro t htm
    rw [htr] at htm
    obtain ⟨j, hj, rfl⟩ := List.getElem_of_mem htm
    obtain ⟨h1, h2, h3, h4, h5, h6, h7, h8, h9⟩ := hall j hj
    rw [hv] at h4 h5 h6 h7 h8 h9
    simp only [List.length_nil, Nat.zero_add] at h4 h5 h6 h7 h8 h9
    rw [hvl]
    push_cast at h4 h5 h6 h7 h8 h9 ⊢
    refine ⟨h1, h2, h3, ?_⟩
    omega

theorem free_standing_ring_walls_witness :
    (0 : Int) ≠ 500 ∧ unit_square.p2.inners = [] ∧ unit_square.adjFeatures = [] ∧
    unit_square.vertices_vw = [] ∧ unit_square.triangles_vw = [] ∧
    unit_square.height_base = 0 ∧
    (∀ ai : Nat, ai < unit_square.p2.outer.length → unit_square.vertex_elevation 0 ai = 500) ∧
    (∀ p ∈ unit_square.p2.outer,
      (fun _ => some [0, 500] : NodeColumn) (sample_env.gen_key_bucket p) = some [0, 500]) ∧
    ∃ s1 : Building,
      Building.construct_building_walls sample_env sample_config (fun _ => some [0, 500])
        unit_square = .done s1 ∧
      s1.triangles_vw.length = 2 * unit_square.p2.outer.length ∧
      s1.vertices_vw.length = 6 * unit_square.p2.outer.length ∧
      ∀ t ∈ s1.triangles_vw,
        t.v0 ≠ t.v1 ∧ t.v0 ≠ t.v2 ∧ t.v1 ≠ t.v2 ∧
        0 ≤ t.v0 ∧ t.v0 < (s1.vertices_vw.length : Int) ∧
        0 ≤ t.v1 ∧ t.v1 < (s1.vertices_vw.length : Int) ∧
        0 ≤ t.v2 ∧ t.v2 < (s1.vertices_vw.length : Int) :=
  ⟨by decide, rfl, rfl, rfl, rfl, rfl, fun _ _ => rfl, fun _ _ => rfl,
    free_standing_ring_walls sample_env sample_config (fun _ => some [0, 500]) unit_square
      0 500 (by decide) rfl rfl rfl rfl rfl (fun _ _ => rfl) (fun _ _ => rfl)⟩

/-! ## `get_obj`: dedup indices and face lines -/

theorem dedup_index_lookup (key : String) (d : AList (fun _ : String => Nat)) :
    (dedup_index key d).2.lookup key = some (dedup_index key d).1 := by
  unfold dedup_index
  cases h : d.lookup key with
  | none => simp [AList.lookup_insert]
  | some a => simp [h]

theorem dedup_index_mono (key : String) (d : AList (fun _ : String => Nat)) (k : String)
    (x : Nat) (hk : d.lookup k = some x) : (dedup_index key d).2.lookup k = some x := by
  unfold dedup_index
  cases h : d.lookup key with
  | none =>
    have hne : k ≠ key := by
      intro he
      rw [he, h] at hk
      exact absurd hk (by simp)
    simp only
    rw [AList.lookup_insert_ne hne]
    exact hk
  | some a => simpa using hk

theorem vertex_at_isSome (v : List (Point3 × String)) (i : Int) (h0 : 0 ≤ i)
    (h1 : i < (v.length : Int)) : ∃ p, vertex_at v i = some p := by
  unfold vertex_at
  rw [if_pos h0]
  have : i.toNat < v.length := by omega
  exact ⟨v[i.toNat], List.getElem?_eq_getElem this⟩

/-- The indices of a triangle that a map holds are the ones every later map holds. -/
theorem dedup_indices_mono (verts : List (Point3 × String))
    (keyf : Point3 × String → String) (d d1 : AList (fun _ : String => Nat))
    (hle : ∀ k x, d.lookup k = some x → d1.lookup k = some x) (t : Triangle)
    (r : Nat × Nat × Nat) (h : dedup_indices verts keyf d t = some r) :
    dedup_indices verts keyf d1 t = some r := by
  unfold dedup_indices at h ⊢
  cases h0 : vertex_at verts t.v0 with
  | none => simp [h0] at h
  | some p0 =>
    cases h1 : vertex_at verts t.v1 with
    | none => simp [h0, h1] at h
    | some p1 =>
      cases h2 : vertex_at verts t.v2 with
      | none => simp [h0, h1, h2] at h
      | some p2 =>
        simp only [h0, h1, h2] at h ⊢
        cases ha : d.lookup (keyf p0) with
        | none => simp [ha] at h
        | some a =>
          cases hb : d.lookup (keyf p1) with
          | none => simp [ha, hb] at h
          | some b =>
            cases hc : d.lookup (keyf p2) with
            | none => simp [ha, hb, hc] at h
            | some c =>
              simp only [ha, hb, hc] at h
              simp only [hle _ _ ha, hle _ _ hb, hle _ _ hc]
              exact h

theorem face_of_mono (verts : List (Point3 × String)) (keyf : Point3 × String → String)
    (d d1 : AList (fun _ : String => Nat))
    (hle : ∀ k x, d.lookup k = some x → d1.lookup k = some x) (flip : Bool) (t : Triangle)
    (h : (dedup_indices verts keyf d t).isSome = true) :
    face_of verts keyf d1 flip t = face_of verts keyf d flip t := by
  obtain ⟨r, hr⟩ := Option.isSome_iff_exists.mp h
  unfold face_of
  rw [hr, dedup_indices_mono verts keyf d d1 hle t r hr]

/-- The body of a face loop for a triangle whose vertex indices are inside the
buffer: it ends normally, stored indices are kept, the triangle has its three indices
in the new map, and the piece appended is the face line that belongs to it. -/
theorem obj_face_step_spec (verts : List (Point3 × String))
    (keyf : Point3 × String → String) (flip : Bool) (st : ObjState) (t : Triangle)
    (hv : (0 ≤ t.v0 ∧ t.v0 < (verts.length : Int)) ∧ (0 ≤ t.v1 ∧ t.v1 < (verts.length : Int)) ∧
      (0 ≤ t.v2 ∧ t.v2 < (verts.length : Int))) :
    ∃ st1 : ObjState,
      obj_face_step verts keyf flip st t = .done st1 ∧
      (∀ k x, st.dPts.lookup k = some x → st1.dPts.lookup k = some x) ∧
      (dedup_indices verts keyf st1.dPts t).isSome = true ∧
      st1.fs = st.fs ++ (face_of verts keyf st1.dPts flip t).toList := by
  obtain ⟨p0, h0⟩ := vertex_at_isSome verts t.v0 hv.1.1 hv.1.2
  obtain ⟨p1, h1⟩ := vertex_at_isSome verts t.v1 hv.2.1.1 hv.2.1.2
  obtain ⟨p2, h2⟩ := vertex_at_isSome verts t.v2 hv.2.2.1 hv.2.2.2
  have hl2 := dedup_index_lookup (keyf p2)
    (dedup_index (keyf p1) (dedup_index (keyf p0) st.dPts).2).2
  have hl1 := dedup_index_mono (keyf p2) _ _ _
    (dedup_index_lookup (keyf p1) (dedup_index (keyf p0) st.dPts).2)
  have hl0 := dedup_index_mono (keyf p2) _ _ _
    (dedup_index_mono (keyf p1) _ _ _ (dedup_index_lookup (keyf p0) st.dPts))
  have hidx : dedup_indices verts keyf
      (dedup_index (keyf p2) (dedup_index (keyf p1) (dedup_index (keyf p0) st.dPts).2).2).2 t
      = some ((dedup_index (keyf p0) st.dPts).1,
          (dedup_index (keyf p1) (dedup_index (keyf p0) st.dPts).2).1,
          (dedup_index (keyf p2)
            (dedup_index (keyf p1) (dedup_index (keyf p0) st.dPts).2).2).1) := by
    unfold dedup_indices
    simp only [h0, h1, h2, hl0, hl1, hl2]
  have hmono : ∀ k x, st.dPts.lookup k = some x →
      (dedup_index (keyf p2)
        (dedup_index (keyf p1) (dedup_index (keyf p0) st.dPts).2).2).2.lookup k = some x :=
    fun k x hk => dedup_index_mono _ _ _ _ (dedup_index_mono _ _ _ _
      (dedup_index_mono _ _ _ _ hk))
  unfold obj_face_step
  simp only [h0, h1, h2]
  split
  · rename_i hd
    refine ⟨_, rfl, hmono, by simp [hidx], ?_⟩
    unfold face_of
    rw [hidx]
    simp only
    rw [if_pos hd]
    cases flip <;> simp
  · rename_i hd
    refine ⟨_, rfl, hmono, by simp [hidx], ?_⟩
    unfold face_of
    rw [hidx]
    simp only
    rw [if_neg hd]
    simp

/-- A face loop over triangles whose vertex indices are inside the buffer: it ends
normally, stored indices are kept, every triangle has its three indices in the final
map, and the pieces appended are, triangle after triangle, the face lines that belong
to them under the final map. -/
theorem obj_faces_spec (verts : List (Point3 × String)) (keyf : Point3 × String → String)
    (flip : Bool) :
    ∀ (tris : List Triangle) (st : ObjState),
      (∀ t ∈ tris, (0 ≤ t.v0 ∧ t.v0 < (verts.length : Int)) ∧
        (0 ≤ t.v1 ∧ t.v1 < (verts.length : Int)) ∧
        (0 ≤ t.v2 ∧ t.v2 < (verts.length : Int))) →
      ∃ st1 : ObjState,
        obj_faces verts keyf flip tris st = .done st1 ∧
        (∀ k x, st.dPts.lookup k = some x → st1.dPts.lookup k = some x) ∧
        (∀ t ∈ tris, (dedup_indices verts keyf st1.dPts t).isSome = true) ∧
        st1.fs = st.fs ++ tris.filterMap (face_of verts keyf st1.dPts flip) := by
  intro tris
  induction tris with
  | nil =>
    intro st _
    exact ⟨st, rfl, fun _ _ h => h, by simp, by simp⟩
  | cons t rest ih =>
    intro st hv
    obtain ⟨st1, hstep, hm1, hi1, hfs1⟩ :=
      obj_face_step_spec verts keyf flip st t (hv t (List.mem_cons_self _ _))
    obtain ⟨st2, hrun, hm2, hi2, hfs2⟩ :=
      ih st1 (fun x hx => hv x (List.mem_cons_of_mem _ hx))
    have hsome2 : (dedup_indices verts keyf st2.dPts t).isSome = true := by
      obtain ⟨r, hr⟩ := Option.isSome_iff_exists.mp hi1
      rw [dedup_indices_mono verts keyf st1.dPts st2.dPts hm2 t r hr]
      rfl
    refine ⟨st2, ?_, fun k x h => hm2 k x (hm1 k x h), ?_, ?_⟩
    · rw [obj_faces, hstep]
      exact hrun
    · intro x hx
      rcases List.mem_cons.mp hx with rfl | hx
      · exact hsome2
      · exact hi2 x hx
    · rw [hfs2, hfs1, List.filterMap_cons,
        face_of_mono verts keyf st1.dPts st2.dPts hm2 flip t hi1]
      cases face_of verts keyf st1.dPts flip t <;> simp

theorem face_of_distinct (verts : List (Point3 × String)) (keyf : Point3 × String → String)
    (d : AList (fun _ : String => Nat)) (flip : Bool) (tris : List Triangle) (line : ObjLine)
    (h : line ∈ tris.filterMap (face_of verts keyf d flip)) :
    ∃ a b c : Nat, line = .face a b c ∧ a ≠ b ∧ a ≠ c ∧ b ≠ c := by
  obtain ⟨t, -, ht⟩ := List.mem_filterMap.mp h
  unfold face_of at ht
  cases hd : dedup_indices verts keyf d t with
  | none => simp [hd] at ht
  | some r =>
    obtain ⟨a, b, c⟩ := r
    simp only [hd] at ht
    split at ht
    · rename_i hdist
      cases flip with
      | false =>
        simp at ht
        exact ⟨a, b, c, ht.symm, hdist.1, hdist.2.1, hdist.2.2⟩
      | true =>
        simp at ht
        exact ⟨a, c, b, ht.symm, hdist.2.1, hdist.1, fun h => hdist.2.2 h.symm⟩
    · simp at ht

/-- A face line belongs to a triangle exactly when its three indices are pairwise
distinct; a triangle with two identical indices has no line. -/
theorem face_of_iff (verts : List (Point3 × String)) (keyf : Point3 × String → String)
    (d : AList (fun _ : String => Nat)) (t : Triangle) (a b c : Nat)
    (h : dedup_indices verts keyf d t = some (a, b, c)) :
    (face_of verts keyf d false t = some (.face a b c) ↔ (a ≠ b ∧ a ≠ c ∧ b ≠ c)) ∧
    (face_of verts keyf d true t = some (.face a c b) ↔ (a ≠ b ∧ a ≠ c ∧ b ≠ c)) ∧
    (∀ flip, face_of verts keyf d flip t = none ↔ ¬ (a ≠ b ∧ a ≠ c ∧ b ≠ c)) := by
  unfold face_of
  rw [h]
  by_cases hd : a ≠ b ∧ a ≠ c ∧ b ≠ c
  · simp only
    rw [if_pos hd]
    simp [hd]
  · simp only
    rw [if_neg hd]
    simp [hd]

/-- The floor part of `get_obj` from any state, when the triangles index inside the
vertex buffer: the material line and, triangle after triangle, the face line `a c b`
of each triangle whose three dedup indices are pairwise distinct. -/
theorem get_obj_floor_spec (env : Collaborators) (cfg : Config) (b : Building)
    (st : ObjState)
    (hv : ∀ t ∈ b.triangles, (0 ≤ t.v0 ∧ t.v0 < (b.vertices.length : Int)) ∧
      (0 ≤ t.v1 ∧ t.v1 < (b.vertices.length : Int)) ∧
      (0 ≤ t.v2 ∧ t.v2 < (b.vertices.length : Int))) :
    ∃ st1 : ObjState,
      Building.get_obj_floor env cfg b st = .done st1 ∧
      (∀ k x, st.dPts.lookup k = some x → st1.dPts.lookup k = some x) ∧
      st1.fs = st.fs ++
        (if cfg.building_include_floor = true then
          ObjLine.text "usemtl BuildingFloor\n" ::
            b.triangles.filterMap (face_of b.vertices (Building.base_key env b) st1.dPts true)
        else []) := by
  unfold Building.get_obj_floor
  by_cases hf : cfg.building_include_floor = true
  · obtain ⟨st1, hrun, hm, -, hfs⟩ :=
      obj_faces_spec b.vertices (Building.base_key env b) true b.triangles
        { st with fs := st.fs ++ [.text "usemtl BuildingFloor\n"] } hv
    refine ⟨st1, by simp only [hf, if_true]; exact hrun, hm, ?_⟩
    rw [hfs]
    simp [hf]
  · exact ⟨st, by simp [hf], fun _ _ h => h, by simp [hf]⟩

/-- C19: in `get_obj` a face line is emitted for a triangle if and only if the three
indices obtained from the coordinate-to-index dedup lookup are pairwise distinct.
With triangles that index inside the vertex buffer, the LOD0 run ends normally and
appends the material line, the roof face line `a b c` of each such triangle in turn,
and under floor inclusion the floor material line and the floor face line `a c b` of
each such triangle; a triangle with two or more identical indices gets no line, so
every emitted face has three pairwise distinct indices. The floor part does the same
from any state, whatever the `lod` branch did before. -/
theorem get_obj_emits_distinct_faces (env : Collaborators) (cfg : Config) (b : Building)
    (st : ObjState) (mtl : String)
    (hv : ∀ t ∈ b.triangles, (0 ≤ t.v0 ∧ t.v0 < (b.vertices.length : Int)) ∧
      (0 ≤ t.v1 ∧ t.v1 < (b.vertices.length : Int)) ∧
      (0 ≤ t.v2 ∧ t.v2 < (b.vertices.length : Int))) :
    (∃ st1 : ObjState,
      Building.get_obj env cfg b st 0 mtl = .done st1 ∧
      st1.fs = st.fs ++ [ObjLine.text mtl, ObjLine.text "\n"] ++
        b.triangles.filterMap (face_of b.vertices (Building.base_key env b) st1.dPts false) ++
        (if cfg.building_include_floor = true then
          ObjLine.text "usemtl BuildingFloor\n" ::
            b.triangles.filterMap (face_of b.vertices (Building.base_key env b) st1.dPts true)
        else []) ∧
      (∀ t ∈ b.triangles, ∃ i j k : Nat,
        dedup_indices b.vertices (Building.base_key env b) st1.dPts t = some (i, j, k) ∧
        (face_of b.vertices (Building.base_key env b) st1.dPts false t = some (.face i j k) ↔
          (i ≠ j ∧ i ≠ k ∧ j ≠ k)) ∧
        (face_of b.vertices (Building.base_key env b) st1.dPts true t = some (.face i k j) ↔
          (i ≠ j ∧ i ≠ k ∧ j ≠ k)) ∧
        (∀ flip, face_of b.vertices (Building.base_key env b) st1.dPts flip t = none ↔
          ¬ (i ≠ j ∧ i ≠ k ∧ j ≠ k))) ∧
      (∀ flip, ∀ line ∈
          b.triangles.filterMap (face_of b.vertices (Building.base_key env b) st1.dPts flip),
        ∃ i j k : Nat, line = .face i j k ∧ i ≠ j ∧ i ≠ k ∧ j ≠ k)) ∧
    (∀ st2 : ObjState, ∃ st3 : ObjState,
      Building.get_obj_floor env cfg b st2 = .done st3 ∧
      st3.fs = st2.fs ++
        (if cfg.building_include_floor = true then
          ObjLine.text "usemtl BuildingFloor\n" ::
            b.triangles.filterMap (face_of b.vertices (Building.base_key env b) st3.dPts true)
        else []) ∧
      (∀ line ∈
          b.triangles.filterMap (face_of b.vertices (Building.base_key env b) st3.dPts true),
        ∃ i j k : Nat, line = .face i j k ∧ i ≠ j ∧ i ≠ k ∧ j ≠ k)) := by
  constructor
  · obtain ⟨st1, hrun1, hm1, hi1, hfs1⟩ :=
      obj_faces_spec b.vertices (Building.base_key env b) false b.triangles
        { st with fs := st.fs ++ [.text mtl, .text "\n"] } hv
    obtain ⟨st2, hrun2, hm2, hfs2⟩ := get_obj_floor_spec env cfg b st1 hv
    have hroof : b.triangles.filterMap (face_of b.vertices (Building.base_key env b) st2.dPts false)
        = b.triangles.filterMap (face_of b.vertices (Building.base_key env b) st1.dPts false) := by
      apply List.filterMap_congr
      intro t ht
      exact face_of_mono _ _ _ _ hm2 false t (hi1 t ht)
    refine ⟨st2, ?_, ?_, ?_, ?_⟩
    · unfold Building.get_obj Building.get_obj_lod
      simp only [show ¬ ((0 : Int) = 1) by decide, if_false, if_true, hrun1]
      exact hrun2
    · rw [hfs2, hfs1, hroof]
    · intro t ht
      obtain ⟨r, hr⟩ := Option.isSome_iff_exists.mp (hi1 t ht)
      obtain ⟨i, j, k⟩ := r
      have hr2 := dedup_indices_mono _ _ _ _ hm2 t _ hr
      exact ⟨i, j, k, hr2, face_of_iff _ _ _ t i j k hr2⟩
    · intro flip line hl
      exact face_of_distinct _ _ _ flip _ line hl
  · intro st2
    obtain ⟨st3, hrun, -, hfs⟩ := get_obj_floor_spec env cfg b st2 hv
    exact ⟨st3, hrun, hfs, fun line hl => face_of_distinct _ _ _ true _ line hl⟩

theorem get_obj_emits_distinct_faces_witness :
    (∀ t ∈ meshed_building.triangles,
      (0 ≤ t.v0 ∧ t.v0 < (meshed_building.vertices.length : Int)) ∧
      (0 ≤ t.v1 ∧ t.v1 < (meshed_building.vertices.length : Int)) ∧
      (0 ≤ t.v2 ∧ t.v2 < (meshed_building.vertices.length : Int))) ∧
    (Building.get_obj mesh_env sample_config meshed_building ⟨∅, []⟩ 0 "usemtl Building").state.fs
      = [.text "usemtl Building", .text "\n", .face 1 2 3,
         .text "usemtl BuildingFloor\n", .face 1 3 2] ∧
    ∃ st1 : ObjState,
      Building.get_obj mesh_env sample_config meshed_building ⟨∅, []⟩ 0 "usemtl Building"
        = .done st1 ∧
      st1.fs = (⟨∅, []⟩ : ObjState).fs ++
        [ObjLine.text "usemtl Building", ObjLine.text "\n"] ++
        meshed_building.triangles.filterMap
          (face_of meshed_building.vertices (Building.base_key mesh_env meshed_building)
            st1.dPts false) ++
        (if sample_config.building_include_floor = true then
          ObjLine.text "usemtl BuildingFloor\n" ::
            meshed_building.triangles.filterMap
              (face_of meshed_building.vertices (Building.base_key mesh_env meshed_building)
                st1.dPts true)
        else []) :=
  have hv : ∀ t ∈ meshed_building.triangles,
      (0 ≤ t.v0 ∧ t.v0 < (meshed_building.vertices.length : Int)) ∧
      (0 ≤ t.v1 ∧ t.v1 < (meshed_building.vertices.length : Int)) ∧
      (0 ≤ t.v2 ∧ t.v2 < (meshed_building.vertices.length : Int)) := by
    decide
  ⟨hv, by decide,
    match (get_obj_emits_distinct_faces mesh_env sample_config meshed_building ⟨∅, []⟩
      "usemtl Building" hv).1 with
    | ⟨st1, h1, h2, _⟩ => ⟨st1, h1, h2⟩⟩

/-! ## The four interval vectors -/

/-- The a-side start vector of an edge has at most three entries. -/
theorem wall_intervals_length_le (cfg : Config) (roofheight baseheight : Int)
    (fadj : Option (AdjFeature × Int × Int × Int × Int)) :
    (Building.wall_intervals cfg roofheight baseheight fadj).1.length ≤ 3 := by
  cases fadj with
  | none => simp [Building.wall_intervals]
  | some r =>
    obtain ⟨adj, ia, ja, ib, jb⟩ := r
    by_cases hc : adj.get_class = TopoClass.BUILDING
    · rw [shared_wall_intervals cfg roofheight baseheight adj ia ja ib jb hc]
      by_cases hf : cfg.building_include_floor = true ∧ baseheight < adj.get_height_base <;>
        by_cases hi : cfg.building_inner_walls = true <;>
        by_cases hr : roofheight > adj.get_vertex_elevation ia ja <;>
        simp [hf, hi, hr]
    · unfold Building.wall_intervals
      by_cases hfl : cfg.building_include_floor = true <;> simp [hc, hfl]

/-- C21: for every neighbour (none, a building or another feature), every setting of
floor inclusion and inner walls and all heights, the four interval vectors built for
an edge (a-side starts, b-side starts, a-side ends, b-side ends) have the same
length, which is at most 3 (both 0 and 3 occur). Hence for every index below the
a-side start count the four reads of the interval loop are inside their vectors, and
the pass of the loop is the walk of that interval, never an out-of-bounds read. -/
theorem interval_vectors_same_length (cfg : Config) (roofheight baseheight : Int)
    (fadj : Option (AdjFeature × Int × Int × Int × Int)) :
    (Building.wall_intervals cfg roofheight baseheight fadj).2.1.length
      = (Building.wall_intervals cfg roofheight baseheight fadj).1.length ∧
    (Building.wall_intervals cfg roofheight baseheight fadj).2.2.1.length
      = (Building.wall_intervals cfg roofheight baseheight fadj).1.length ∧
    (Building.wall_intervals cfg roofheight baseheight fadj).2.2.2.length
      = (Building.wall_intervals cfg roofheight baseheight fadj).1.length ∧
    0 ≤ (Building.wall_intervals cfg roofheight baseheight fadj).1.length ∧
    (Building.wall_intervals cfg roofheight baseheight fadj).1.length ≤ 3 ∧
    (∀ i ∈ List.range (Building.wall_intervals cfg roofheight baseheight fadj).1.length,
      ∃ sa sb ea eb : Int,
        (Building.wall_intervals cfg roofheight baseheight fadj).1[i]? = some sa ∧
        (Building.wall_intervals cfg roofheight baseheight fadj).2.1[i]? = some sb ∧
        (Building.wall_intervals cfg roofheight baseheight fadj).2.2.1[i]? = some ea ∧
        (Building.wall_intervals cfg roofheight baseheight fadj).2.2.2[i]? = some eb ∧
        ∀ (env : Collaborators) (a b : Point2) (anc bnc : List Int) (s : Building),
          Building.interval_step env a b anc bnc
              (Building.wall_intervals cfg roofheight baseheight fadj).1
              (Building.wall_intervals cfg roofheight baseheight fadj).2.1
              (Building.wall_intervals cfg roofheight baseheight fadj).2.2.1
              (Building.wall_intervals cfg roofheight baseheight fadj).2.2.2 (.done s) i
            = Building.walk_interval env a b anc bnc sa sb ea eb s) ∧
    (Building.wall_intervals bare_config 200 0
      (some (building_neighbour, 0, 0, 0, 1))).1.length = 0 ∧
    (Building.wall_intervals floor_inner_config 500 0
      (some (building_neighbour, 0, 0, 0, 1))).1.length = 3 := by
  obtain ⟨h1, h2, h3⟩ := wall_intervals_lengths cfg roofheight baseheight fadj
  refine ⟨h1, h2, h3, Nat.zero_le _, wall_intervals_length_le cfg roofheight baseheight fadj,
    ?_, by decide, by decide⟩
  intro i hi
  have hi0 := List.mem_range.mp hi
  have hi1 : i < (Building.wall_intervals cfg roofheight baseheight fadj).2.1.length := by omega
  have hi2 : i < (Building.wall_intervals cfg roofheight baseheight fadj).2.2.1.length := by
    omega
  have hi3 : i < (Building.wall_intervals cfg roofheight baseheight fadj).2.2.2.length := by
    omega
  refine ⟨_, _, _, _, List.getElem?_eq_getElem hi0, List.getElem?_eq_getElem hi1,
    List.getElem?_eq_getElem hi2, List.getElem?_eq_getElem hi3, ?_⟩
  intro env a b anc bnc s
  simp only [Building.interval_step, List.getElem?_eq_getElem hi0,
    List.getElem?_eq_getElem hi1, List.getElem?_eq_getElem hi2, List.getElem?_eq_getElem hi3]

/-! ## `get_obj`: the dedup index invariant -/

/-- One dedup lookup keeps the invariant: a new key gets the index `size + 1`, which
no key holds yet. -/
theorem dedup_index_invariant (key : String) (d : AList (fun _ : String => Nat))
    (h : dedup_invariant d) : dedup_invariant (dedup_index key d).2 := by
  unfold dedup_index
  cases hl : d.lookup key with
  | some a => simpa using h
  | none =>
    obtain ⟨hinj, hval⟩ := h
    have hnot : key ∉ d := AList.lookup_eq_none.mp hl
    have hlen : (d.insert key (d.entries.length + 1)).entries.length = d.entries.length + 1 := by
      rw [AList.insert_entries_of_neg hnot]
      simp
    have hfresh : ∀ k, d.lookup k ≠ some (d.entries.length + 1) := by
      intro k hk
      have := (hval (d.entries.length + 1)).mp ⟨k, hk⟩
      omega
    simp only
    constructor
    · intro k1 k2 x h1 h2
      by_cases e1 : k1 = key
      · by_cases e2 : k2 = key
        · rw [e1, e2]
        · subst e1
          rw [AList.lookup_insert] at h1
          rw [AList.lookup_insert_ne e2] at h2
          injection h1 with h1
          subst h1
          exact absurd h2 (hfresh k2)
      · by_cases e2 : k2 = key
        · subst e2
          rw [AList.lookup_insert] at h2
          rw [AList.lookup_insert_ne e1] at h1
          injection h2 with h2
          subst h2
          exact absurd h1 (hfresh k1)
        · rw [AList.lookup_insert_ne e1] at h1
          rw [AList.lookup_insert_ne e2] at h2
          exact hinj k1 k2 x h1 h2
    · intro x
      rw [hlen]
      constructor
      · rintro ⟨k, hk⟩
        by_cases e : k = key
        · subst e
          rw [AList.lookup_insert] at hk
          injection hk with hk
          omega
        · rw [AList.lookup_insert_ne e] at hk
          have := (hval x).mp ⟨k, hk⟩
          omega
      · rintro ⟨h1, h2⟩
        by_cases e : x = d.entries.length + 1
        · exact ⟨key, by rw [AList.lookup_insert, e]⟩
        · obtain ⟨k, hk⟩ := (hval x).mpr ⟨h1, by omega⟩
          have hne : k ≠ key := by
            intro he
            rw [he, hl] at hk
            exact absurd hk (by simp)
          exact ⟨k, by rw [AList.lookup_insert_ne hne]; exact hk⟩

theorem obj_extends_refl (st : ObjState) : obj_extends st st :=
  ⟨fun _ _ h => h, fun h => h, [], by simp, by simp⟩

theorem obj_extends_trans (st st1 st2 : ObjState) (h1 : obj_extends st st1)
    (h2 : obj_extends st1 st2) : obj_extends st st2 := by
  obtain ⟨m1, i1, n1, hf1, hv1⟩ := h1
  obtain ⟨m2, i2, n2, hf2, hv2⟩ := h2
  refine ⟨fun k x h => m2 k x (m1 k x h), fun h => i2 (i1 h), n1 ++ n2, ?_, ?_⟩
  · rw [hf2, hf1, List.append_assoc]
  · intro a b c hm
    rcases List.mem_append.mp hm with hm | hm
    · obtain ⟨⟨ka, ha⟩, ⟨kb, hb⟩, ⟨kc, hc⟩⟩ := hv1 a b c hm
      exact ⟨⟨ka, m2 _ _ ha⟩, ⟨kb, m2 _ _ hb⟩, ⟨kc, m2 _ _ hc⟩⟩
    · exact hv2 a b c hm

/-- Appending text and doing dedup lookups extends a state. -/
theorem obj_extends_text (st : ObjState) (pieces : List String) :
    obj_extends st { st with fs := st.fs ++ pieces.map ObjLine.text } := by
  refine ⟨fun _ _ h => h, fun h => h, pieces.map ObjLine.text, rfl, ?_⟩
  intro a b c hm
  obtain ⟨s, -, hs⟩ := List.mem_map.mp hm
  exact absurd hs (by simp)

theorem obj_extends_dedup (st : ObjState) (key : String) :
    obj_extends st { st with dPts := (dedup_index key st.dPts).2 } :=
  ⟨fun k x h => dedup_index_mono key st.dPts k x h,
    fun h => dedup_index_invariant key st.dPts h, [], by simp, by simp⟩

/-- The body of a face loop extends the state, whatever its outcome. -/
theorem obj_face_step_extends (verts : List (Point3 × String))
    (keyf : Point3 × String → String) (flip : Bool) (st : ObjState) (t : Triangle) :
    obj_extends st (obj_face_step verts keyf flip st t).state := by
  unfold obj_face_step
  cases h0 : vertex_at verts t.v0 with
  | none => exact obj_extends_refl st
  | some p0 =>
    have e0 := obj_extends_dedup st (keyf p0)
    cases h1 : vertex_at verts t.v1 with
    | none => exact e0
    | some p1 =>
      have e1 := obj_extends_trans _ _ _ e0
        (obj_extends_dedup { st with dPts := (dedup_index (keyf p0) st.dPts).2 } (keyf p1))
      cases h2 : vertex_at verts t.v2 with
      | none => exact e1
      | some p2 =>
        have e2 := obj_extends_trans _ _ _ e1
          (obj_extends_dedup
            { st with dPts := (dedup_index (keyf p1) (dedup_index (keyf p0) st.dPts).2).2 }
            (keyf p2))
        obtain ⟨m, i, -, -, -⟩ := e2
        have hl2 := dedup_index_lookup (keyf p2)
          (dedup_index (keyf p1) (dedup_index (keyf p0) st.dPts).2).2
        have hl1 := dedup_index_mono (keyf p2) _ _ _
          (dedup_index_lookup (keyf p1) (dedup_index (keyf p0) st.dPts).2)
        have hl0 := dedup_index_mono (keyf p2) _ _ _
          (dedup_index_mono (keyf p1) _ _ _ (dedup_index_lookup (keyf p0) st.dPts))
        simp only
        split
        · refine ⟨m, i, _, rfl, ?_⟩
          intro a b c hm
          simp only [Run.state, List.mem_singleton] at hm ⊢
          cases flip with
          | false =>
            simp only [Bool.false_eq_true, if_false, ObjLine.face.injEq] at hm
            obtain ⟨rfl, rfl, rfl⟩ := hm
            exact ⟨⟨_, hl0⟩, ⟨_, hl1⟩, ⟨_, hl2⟩⟩
          | true =>
            simp only [if_true, ObjLine.face.injEq] at hm
            obtain ⟨rfl, rfl, rfl⟩ := hm
            exact ⟨⟨_, hl0⟩, ⟨_, hl2⟩, ⟨_, hl1⟩⟩
        · exact ⟨m, i, [], by simp [Run.state], by simp⟩

/-- A face loop extends the state, whatever its outcome. -/
theorem obj_faces_extends (verts : List (Point3 × String))
    (keyf : Point3 × String → String) (flip : Bool) :
    ∀ (tris : List Triangle) (st : ObjState),
      obj_extends st (obj_faces verts keyf flip tris st).state := by
  intro tris
  induction tris with
  | nil => intro st; exact obj_extends_refl st
  | cons t rest ih =>
    intro st
    have hs := obj_face_step_extends verts keyf flip st t
    rw [obj_faces]
    cases hstep : obj_face_step verts keyf flip st t with
    | done st1 =>
      rw [hstep] at hs
      exact obj_extends_trans _ _ _ hs (ih st1)
    | undefined st1 =>
      rw [hstep] at hs
      exact hs

/-- Every run of `get_obj` extends the state it starts from, whatever `lod` is and
whatever its outcome. -/
theorem get_obj_extends (env : Collaborators) (cfg : Config) (b : Building) (st : ObjState)
    (lod : Int) (mtl : String) :
    obj_extends st (Building.get_obj env cfg b st lod mtl).state := by
  have htext : obj_extends st { st with fs := st.fs ++ [.text mtl, .text "\n"] } :=
    obj_extends_text st [mtl, "\n"]
  have hlod : obj_extends st (Building.get_obj_lod env b st lod mtl).state := by
    unfold Building.get_obj_lod
    by_cases h1 : lod = 1
    · simp only [h1, if_true]
      unfold Building.topo_get_obj
      have hr := obj_faces_extends b.vertices (fun p => p.2) false b.triangles
        { st with fs := st.fs ++ [.text mtl, .text "\n"] }
      cases hrun : obj_faces b.vertices (fun p => p.2) false b.triangles
          { st with fs := st.fs ++ [.text mtl, .text "\n"] } with
      | undefined st1 =>
        rw [hrun] at hr
        exact obj_extends_trans _ _ _ htext hr
      | done st1 =>
        rw [hrun] at hr
        exact obj_extends_trans _ _ _ (obj_extends_trans _ _ _ htext hr)
          (obj_faces_extends b.vertices_vw (fun p => p.2) false b.triangles_vw st1)
    · by_cases h0 : lod = 0
      · simp only [h0, show ¬ ((0 : Int) = 1) by decide, if_false, if_true]
        exact obj_extends_trans _ _ _ htext
          (obj_faces_extends b.vertices (Building.base_key env b) false b.triangles _)
      · simp only [h1, h0, if_false]
        exact obj_extends_refl st
  have hfloor : ∀ st1 : ObjState,
      obj_extends st1 (Building.get_obj_floor env cfg b st1).state := by
    intro st1
    unfold Building.get_obj_floor
    by_cases hf : cfg.building_include_floor = true
    · simp only [hf, if_true]
      exact obj_extends_trans _ _ _ (obj_extends_text st1 ["usemtl BuildingFloor\n"])
        (obj_faces_extends b.vertices (Building.base_key env b) true b.triangles _)
    · simp only [hf, Bool.false_eq_true, if_false]
      exact obj_extends_refl st1
  unfold Building.get_obj
  cases hrun : Building.get_obj_lod env b st lod mtl with
  | undefined st1 =>
    rw [hrun] at hlod
    exact hlod
  | done st1 =>
    rw [hrun] at hlod
    exact obj_extends_trans _ _ _ hlod (hfloor st1)

/-- C22: `get_obj` preserves the file-wide dedup index invariant. If before the call
no index is stored under two keys of the coordinate-to-index map and the stored
indices are exactly `1, ..., size`, then in the state the call reaches (for every
`lod`, with or without floor, also when it stops at a vertex index outside the
buffer) the map is again injective with stored indices exactly `1, ..., new size`,
every key present before keeps its index, and every index written into a face line
by the call is stored in the map. -/
theorem get_obj_keeps_dedup_invariant (env : Collaborators) (cfg : Config) (b : Building)
    (st : ObjState) (lod : Int) (mtl : String)
    (hinj : ∀ (k1 k2 : String) (x : Nat),
      st.dPts.lookup k1 = some x → st.dPts.lookup k2 = some x → k1 = k2)
    (hval : ∀ x : Nat,
      (∃ k : String, st.dPts.lookup k = some x) ↔ (1 ≤ x ∧ x ≤ st.dPts.entries.length)) :
    (∀ (k1 k2 : String) (x : Nat),
      (Building.get_obj env cfg b st lod mtl).state.dPts.lookup k1 = some x →
      (Building.get_obj env cfg b st lod mtl).state.dPts.lookup k2 = some x → k1 = k2) ∧
    (∀ x : Nat,
      (∃ k : String, (Building.get_obj env cfg b st lod mtl).state.dPts.lookup k = some x) ↔
        (1 ≤ x ∧ x ≤ (Building.get_obj env cfg b st lod mtl).state.dPts.entries.length)) ∧
    (∀ (k : String) (x : Nat), st.dPts.lookup k = some x →
      (Building.get_obj env cfg b st lod mtl).state.dPts.lookup k = some x) ∧
    ∃ new : List ObjLine,
      (Building.get_obj env cfg b st lod mtl).state.fs = st.fs ++ new ∧
      ∀ a b' c : Nat, ObjLine.face a b' c ∈ new →
        (∃ k, (Building.get_obj env cfg b st lod mtl).state.dPts.lookup k = some a) ∧
        (∃ k, (Building.get_obj env cfg b st lod mtl).state.dPts.lookup k = some b') ∧
        (∃ k, (Building.get_obj env cfg b st lod mtl).state.dPts.lookup k = some c) := by
  obtain ⟨hm, hi, new, hfs, hface⟩ := get_obj_extends env cfg b st lod mtl
  obtain ⟨hinj1, hval1⟩ := hi ⟨hinj, hval⟩
  exact ⟨hinj1, hval1, hm, new, hfs, hface⟩

theorem get_obj_keeps_dedup_invariant_witness :
    (∀ (k1 k2 : String) (x : Nat),
      (⟨∅, []⟩ : ObjState).dPts.lookup k1 = some x →
      (⟨∅, []⟩ : ObjState).dPts.lookup k2 = some x → k1 = k2) ∧
    (∀ x : Nat,
      (∃ k : String, (⟨∅, []⟩ : ObjState).dPts.lookup k = some x) ↔
        (1 ≤ x ∧ x ≤ (⟨∅, []⟩ : ObjState).dPts.entries.length)) ∧
    (Building.get_obj mesh_env sample_config meshed_building ⟨∅, []⟩ 1
      "usemtl Building").state.dPts.entries
      = [⟨"c", 6⟩, ⟨"b", 5⟩, ⟨"a", 4⟩, ⟨"p2", 3⟩, ⟨"p1", 2⟩, ⟨"p0", 1⟩] ∧
    (Building.get_obj mesh_env sample_config meshed_building ⟨∅, []⟩ 1
      "usemtl Building").state.fs
      = [.text "usemtl Building", .text "\n", .face 1 2 3,
         .text "usemtl BuildingFloor\n", .face 4 6 5] ∧
    (∀ (k1 k2 : String) (x : Nat),
      (Building.get_obj mesh_env sample_config meshed_building ⟨∅, []⟩ 1
        "usemtl Building").state.dPts.lookup k1 = some x →
      (Building.get_obj mesh_env sample_config meshed_building ⟨∅, []⟩ 1
        "usemtl Building").state.dPts.lookup k2 = some x → k1 = k2) ∧
    (∀ x : Nat,
      (∃ k : String, (Building.get_obj mesh_env sample_config meshed_building ⟨∅, []⟩ 1
        "usemtl Building").state.dPts.lookup k = some x) ↔
        (1 ≤ x ∧ x ≤ (Building.get_obj mesh_env sample_config meshed_building ⟨∅, []⟩ 1
          "usemtl Building").state.dPts.entries.length)) :=
  have hinj : ∀ (k1 k2 : String) (x : Nat),
      (⟨∅, []⟩ : ObjState).dPts.lookup k1 = some x →
      (⟨∅, []⟩ : ObjState).dPts.lookup k2 = some x → k1 = k2 := by
    intro k1 k2 x h
    simp at h
  have hval : ∀ x : Nat,
      (∃ k : String, (⟨∅, []⟩ : ObjState).dPts.lookup k = some x) ↔
        (1 ≤ x ∧ x ≤ (⟨∅, []⟩ : ObjState).dPts.entries.length) := by
    intro x
    simp
    omega
  have hall := get_obj_keeps_dedup_invariant mesh_env sample_config meshed_building ⟨∅, []⟩ 1
    "usemtl Building" hinj hval
  ⟨hinj, hval, by decide, by decide, hall.1, hall.2.1⟩
